import Mathlib

/-!
# valo-dis-bot: leaderboard engine, match timeline and profile summary

A shallow embedding of `leaderboardManager.js`, `matchAnalytics.js`,
`profileAnalytics.js` and the timeline paging of `index.js`.

Modelling conventions.

* A JavaScript object used as a dictionary is the list of its own key/value
  pairs in enumeration order (`Object.entries`, `for ... in`): the array index
  keys first, in ascending numeric order, then the other keys in the order of
  their creation.  `assign` creates a key at its place in this order.  A read
  that tests a property for truthiness also sees the properties inherited from
  `Object.prototype` (`lacksKey`).
* `String.prototype.toLowerCase` is a parameter of every definition that
  lowers a text, named `toLowerCase`; the properties hold for every function in
  its place.  The concrete inputs hold ASCII texts and use `asciiLower`.
* Upstream counts (kills, assists, timestamps, round indices) are natural
  numbers; the point accumulator is a rational (every summand is a multiple of
  one half, so the double arithmetic of the source is exact).
* A quotient or product that need not be exact in the source (the page count,
  the kill/death ratio, the headshot percentage) is rounded to the nearest
  double by `toDouble`: 53 significant bits, ties to even, exponent unbounded.
* A `TypeError` raised by reading a property of a missing object is the result
  `none`.
* Network, file system, clock and Discord client are explicit inputs.
-/

namespace ValoBot

/-! ## Upstream match data -/

/-- Cumulative per-player stats of the roster (`player.stats`). -/
structure Stats where
  kills : Nat
  deaths : Nat
  assists : Nat
  bodyshots : Nat
  headshots : Nat
  legshots : Nat
deriving DecidableEq, Repr

/-- One element of `players.all_players`. -/
structure Player where
  puuid : String
  name : String
  tag : String
  character : String
  team : String
  currenttier_patched : String
  party_id : Option String
  stats : Stats
deriving DecidableEq, Repr

/-- One element of the flat `kills` array of a match. -/
structure Kill where
  round : Nat
  game_time : Nat
  killer_puuid : String
  victim_puuid : String
  damage_weapon_name : Option String
deriving DecidableEq, Repr

/-- The `plant_events` sub-object of a round; `plant_location` records whether
the location field is truthy, `planted_by` is the planter's puuid. -/
structure PlantEvents where
  plant_location : Bool
  plant_site : String
  planted_by : String
deriving DecidableEq, Repr

/-- The `defuse_events` sub-object of a round. -/
structure DefuseEvents where
  defuse_location : Bool
  defused_by : String
deriving DecidableEq, Repr

/-- One element of `rounds`. -/
structure Round where
  winning_team : String
  end_type : String
  plant_events : Option PlantEvents
  defuse_events : Option DefuseEvents
deriving DecidableEq, Repr

/-- The `metadata` sub-object.  `game_start_patched` is the raw start-time text. -/
structure Metadata where
  map : Option String
  mode : String
  game_start_patched : Option String
deriving DecidableEq, Repr

/-- One value of the `teams` object. -/
structure TeamInfo where
  has_won : Bool
  rounds_won : Nat
deriving DecidableEq, Repr

/-- A raw match as answered by the upstream provider.  `players` stands for
`players.all_players`. -/
structure MatchData where
  metadata : Option Metadata
  players : Option (List Player)
  teams : Option (List (String × TeamInfo))
  rounds : Option (List Round)
  kills : Option (List Kill)
deriving DecidableEq, Repr

/-! ## JavaScript primitives -/

/-- The lowering of a text of the ASCII range: `A`-`Z` go to `a`-`z`.  On such
a text this is what `String.prototype.toLowerCase` returns; the concrete inputs
below hold ASCII texts only and are evaluated with it.  In the definitions
`String.prototype.toLowerCase` itself, which lowers every cased letter of
Unicode, is the parameter `toLowerCase`, and the properties are proved for
every function in its place. -/
def asciiLower (s : String) : String :=
  String.mk (s.data.map Char.toLower)

/-- The pieces of `cs` between occurrences of `#`, the first piece being
prefixed by the reversed accumulator `cur`. -/
def splitHashAux : List Char → List Char → List (List Char)
  | cur, [] => [cur.reverse]
  | cur, c :: cs => if c = '#' then cur.reverse :: splitHashAux [] cs else splitHashAux (c :: cur) cs

/-- The call `s.split('#')`. -/
def splitHash (s : String) : List String :=
  (splitHashAux [] s.data).map String.mk

/-- JavaScript `Math.round`: the nearest integer, halves going up. -/
def mathRound (x : ℚ) : Int :=
  ⌊x + 1 / 2⌋

/-- The own property of `o` under key `k`, if any.  A property read `obj[k]`
finds it, and finds a property of `Object.prototype` when `o` has no own one:
see `objectPrototypeKeys`. -/
def getKey {α : Type} (o : List (String × α)) (k : String) : Option α :=
  (o.find? (fun p => p.1 == k)).map Prod.snd

/-- The names of the properties that a plain object (an object literal, a
`JSON.parse` result) inherits from `Object.prototype`.  Each of them holds a
function, or for `__proto__` the prototype itself: a truthy value. -/
def objectPrototypeKeys : List String :=
  ["constructor", "__defineGetter__", "__defineSetter__", "hasOwnProperty",
   "__lookupGetter__", "__lookupSetter__", "isPrototypeOf", "propertyIsEnumerable",
   "toString", "valueOf", "__proto__", "toLocaleString"]

/-- The test `!obj[k]` on a plain object whose own values are objects: the key
is neither an own key nor the name of an inherited property. -/
def lacksKey {α : Type} (o : List (String × α)) (k : String) : Bool :=
  (getKey o k).isNone && decide (k ∉ objectPrototypeKeys)

/-- The number spelt by the decimal digits `cs`, read after digits of value
`acc`; `none` when a character is no digit. -/
def digitsValue : List Char → Nat → Option Nat
  | [], acc => some acc
  | c :: cs, acc =>
    if c.isDigit then digitsValue cs (acc * 10 + (c.toNat - 48)) else none

/-- The array index a property key denotes, if it denotes one: the key is the
canonical decimal text (no leading zero) of a number below `2 ^ 32 - 1`. -/
def arrayIndex (k : String) : Option Nat :=
  match k.data with
  | [] => none
  | c :: cs =>
    if c = '0' ∧ cs ≠ [] then none
    else
      match digitsValue (c :: cs) 0 with
      | none => none
      | some i => if i < 2 ^ 32 - 1 then some i else none

/-- The entries after the new entry `kv`, whose key is the array index `i`, is
put in: before the first entry whose key is no array index or is a larger
one. -/
def insertIndex {α : Type} (i : Nat) (kv : String × α) : List (String × α) → List (String × α)
  | [] => [kv]
  | p :: rest =>
    match arrayIndex p.1 with
    | none => kv :: p :: rest
    | some j => if j < i then p :: insertIndex i kv rest else kv :: p :: rest

/-- The entries after a new key is created.  An object enumerates its array
index keys first, in ascending numeric order, then its other keys in the order
of their creation. -/
def insertKey {α : Type} (o : List (String × α)) (k : String) (v : α) : List (String × α) :=
  match arrayIndex k with
  | none => o ++ [(k, v)]
  | some i => insertIndex i (k, v) o

/-- Property write `obj[k] = v`: an existing key keeps its place, a new key
goes where `insertKey` puts it. -/
def assign {α : Type} (o : List (String × α)) (k : String) (v : α) : List (String × α) :=
  if o.any (fun p => p.1 == k) then o.map (fun p => if p.1 == k then (k, v) else p)
  else insertKey o k v

/-- JavaScript `Math.ceil`. -/
def mathCeil (x : ℚ) : Int :=
  ⌈x⌉

/-- Round to the nearest integer, ties going to the even one. -/
def roundHalfEven (q : ℚ) : Int :=
  if q - ⌊q⌋ < 1 / 2 then ⌊q⌋
  else if 1 / 2 < q - ⌊q⌋ then ⌊q⌋ + 1
  else if ⌊q⌋ % 2 = 0 then ⌊q⌋ else ⌊q⌋ + 1

/-- The binary exponent of a positive rational `x`: the `e` with
`2 ^ e ≤ x < 2 ^ (e + 1)`. -/
def binade (x : ℚ) : Int :=
  if (2 : ℚ) ^ ((Nat.log2 x.num.toNat : Int) - (Nat.log2 x.den : Int)) ≤ x then
    (Nat.log2 x.num.toNat : Int) - (Nat.log2 x.den : Int)
  else (Nat.log2 x.num.toNat : Int) - (Nat.log2 x.den : Int) - 1

/-- The IEEE 754 double nearest to a rational (53 significant bits, ties to
even; exponent range not limited).  The JavaScript quotient `a / b` and
product `a * b` of doubles are `toDouble` of the exact quotient and product. -/
def toDouble (x : ℚ) : ℚ :=
  if x < 0 then -(roundHalfEven (-x / 2 ^ (binade (-x) - 52)) * 2 ^ (binade (-x) - 52))
  else roundHalfEven (x / 2 ^ (binade x - 52)) * 2 ^ (binade x - 52)

/-- JavaScript `x.toFixed(2)` for a non-negative `x` below `10 ^ 21`: the
hundredths nearest to `x`, the larger one on a tie. -/
def toFixed2 (x : ℚ) : String :=
  toString (⌊x * 100 + 1 / 2⌋.toNat / 100) ++ "."
    ++ (if ⌊x * 100 + 1 / 2⌋.toNat % 100 < 10 then "0" else "")
    ++ toString (⌊x * 100 + 1 / 2⌋.toNat % 100)

/-- JavaScript `arr.slice(start, end)`. -/
def jsSlice {α : Type} (arr : List α) (start stop : Int) : List α :=
  let len : Int := arr.length
  let k := if start < 0 then max (len + start) 0 else min start len
  let final := if stop < 0 then max (len + stop) 0 else min stop len
  (arr.drop k.toNat).take (final - k).toNat

/-! ## leaderboardManager.js -/

/-- One value of `dailyScores`. -/
structure Entry where
  points : Int
  wins : Nat
  kills : Nat
  discordId : String
deriving DecidableEq, Repr

/-- The persisted leaderboard state (`leaderboard.json`).  `channelId` is the
legacy single-destination field. -/
structure LeaderboardData where
  channelId : Option String
  channels : Option (List (String × String))
  lastUpdated : Option String
  dailyScores : List (String × Entry)
deriving DecidableEq, Repr

/-- One value of `users.json`. -/
structure User where
  riotId : Option String
  nickname : Option String
deriving DecidableEq, Repr

/-- What `axios.get` does for one request.  It raises (`error`: network
error, error status); or it answers with a body that is `null` or missing, on
which the read `res.data.data` raises (`noBody`); or with a body whose `data`
field is absent or falsy (`noData`), is a match array (`data`), or is another
truthy value, such as an object or a text (`other`). -/
inductive Upstream where
  | error : Upstream
  | noBody : Upstream
  | noData : Upstream
  | data : List MatchData → Upstream
  | other : Upstream
deriving DecidableEq, Repr

/-- What `fetchDailyMatches` returns: an array of matches, or the `data` value
of the body as it is when that is truthy and no array. -/
inductive Fetched where
  | array : List MatchData → Fetched
  | other : Fetched
deriving DecidableEq, Repr

/-- The matches of a fetched array; a value that is no array holds none. -/
def Fetched.toList : Fetched → List MatchData
  | .array ms => ms
  | .other => []

/-- The surroundings of one recompute pass: the day key of the clock
(`new Date().toDateString()`), the day key of a start-time text
(`new Date(s).toDateString()`), the upstream answer for a name and tag, and
`users.json` (`none` when the file does not exist), in `for ... in` order. -/
structure World where
  today : String
  dateString : String → String
  upstream : String → String → Upstream
  users : Option (List (String × User))

/-- The weight `POINTS.WIN`. -/
def POINTS_WIN : ℚ := 5
/-- The weight `POINTS.KILL`. -/
def POINTS_KILL : ℚ := 1
/-- The weight `POINTS.ASSIST`. -/
def POINTS_ASSIST : ℚ := 1 / 2
/-- The weight `POINTS.ACE`. -/
def POINTS_ACE : ℚ := 10

/-- Function `loadData`: the snapshot read from disk, after the legacy migration. -/
def loadData (d : LeaderboardData) : LeaderboardData :=
  match d.channelId with
  | none => d
  | some c =>
    if c = "" then d
    else { d with channels := some [("default", c)], channelId := none }

/-- Function `setChannel(guildId, channelId)`: the snapshot saved; the call
returns `true`. -/
def setChannel (d : LeaderboardData) (guildId channelId : String) : LeaderboardData :=
  let d := loadData d
  { d with channels := some (assign (d.channels.getD []) guildId channelId) }

/-- The `try` block of `fetchDailyMatches`: the value of `res.data.data || []`,
or `none` when `axios.get` or the read of `res.data.data` raises. -/
def fetchAttempt (w : World) (username tag : String) : Option Fetched :=
  match w.upstream username tag with
  | .error => none
  | .noBody => none
  | .noData => some (.array [])
  | .data ms => some (.array ms)
  | .other => some .other

/-- Function `fetchDailyMatches`: the value of the `try` block, or `[]` from the
`catch` block. -/
def fetchDailyMatches (w : World) (username tag : String) : Fetched :=
  match fetchAttempt w username tag with
  | none => .array []
  | some v => v

/-- The three accumulators of one identity in `updateScores`. -/
structure Acc where
  points : ℚ
  wins : Nat
  kills : Nat
deriving DecidableEq

/-- The `find` predicate of `updateScores`. -/
def isPlayer (toLowerCase : String → String) (name tag : String) (pl : Player) : Bool :=
  toLowerCase pl.name == toLowerCase name && toLowerCase pl.tag == toLowerCase tag

/-- The condition `m.teams && m.teams[team] && m.teams[team].has_won`.  A
property that `m.teams` only inherits from `Object.prototype` has no `has_won`,
so the condition holds for own keys only. -/
def teamHasWon (m : MatchData) (team : String) : Bool :=
  match m.teams with
  | none => false
  | some ts =>
    match getKey ts team with
    | none => false
    | some t => t.has_won

/-- The body of `matches.forEach` in `updateScores`; `none` when it raises. -/
def scoreMatch (toLowerCase : String → String)
    (w : World) (name tag : String) (acc : Acc) (m : MatchData) : Option Acc :=
  match m.metadata with
  | none => some acc
  | some md =>
    match md.game_start_patched with
    | none => some acc
    | some g =>
      if g = "" then some acc
      else if w.dateString g ≠ w.today then some acc
      else
        match m.players with
        | none => none
        | some all =>
          match all.find? (isPlayer toLowerCase name tag) with
          | none => some acc
          | some p =>
            let kills := acc.kills + p.stats.kills
            let points := acc.points + p.stats.kills * POINTS_KILL + p.stats.assists * POINTS_ASSIST
            if teamHasWon m (toLowerCase p.team) then
              some { points := points + POINTS_WIN, wins := acc.wins + 1, kills := kills }
            else
              some { points := points, wins := acc.wins, kills := kills }

/-- The loop `matches.forEach(...)` from the zero accumulators. -/
def scoreMatches (toLowerCase : String → String) (w : World) (name tag : String)
    (ms : List MatchData) : Option Acc :=
  ms.foldlM (scoreMatch toLowerCase w name tag) { points := 0, wins := 0, kills := 0 }

/-- The call `matches.forEach(...)` on what was fetched: on a value that is no
array `matches.forEach` is not a function and the call raises. -/
def scoreFetched (toLowerCase : String → String) (w : World) (name tag : String) :
    Fetched → Option Acc
  | .array ms => scoreMatches toLowerCase w name tag ms
  | .other => none

/-- What the scoring loop does for one linked user: `none` when it raises,
`some none` when the user is skipped, `some (some (k, e))` when it writes
entry `e` under key `k`. -/
def userWrite (toLowerCase : String → String)
    (w : World) (userId : String) (user : User) : Option (Option (String × Entry)) :=
  match user.riotId with
  | none => some none
  | some riotId =>
    if riotId = "" then some none
    else
      match splitHash riotId with
      | name :: tag :: _ =>
        if name = "" ∨ tag = "" then some none
        else
          match scoreFetched toLowerCase w name tag (fetchDailyMatches w name tag) with
          | none => none
          | some acc =>
            some (some (riotId,
              { points := mathRound acc.points, wins := acc.wins, kills := acc.kills,
                discordId := userId }))
      | _ => some none

/-- One iteration of the scoring loop of `updateScores`. -/
def scoreUser (toLowerCase : String → String)
    (w : World) (scores : List (String × Entry)) (u : String × User) :
    Option (List (String × Entry)) :=
  match userWrite toLowerCase w u.1 u.2 with
  | none => none
  | some none => some scores
  | some (some (k, e)) => some (assign scores k e)

/-- One iteration of the loop "Ensure all users are in the list", with its
test `user.riotId && !leaderboardData.dailyScores[user.riotId]`. -/
def ensureUser (scores : List (String × Entry)) (u : String × User) : List (String × Entry) :=
  match u.2.riotId with
  | none => scores
  | some riotId =>
    if riotId ≠ "" ∧ lacksKey scores riotId then
      assign scores riotId { points := 0, wins := 0, kills := 0, discordId := u.1 }
    else scores

/-- The step "Reset if new day". -/
def resetIfNewDay (today : String) (d : LeaderboardData) : LeaderboardData :=
  if d.lastUpdated ≠ some today then { d with dailyScores := [], lastUpdated := some today }
  else d

/-- Function `updateScores`: the snapshot on disk after the pass, `none` when the pass
raises (nothing is saved then). -/
def updateScores (toLowerCase : String → String)
    (w : World) (d : LeaderboardData) : Option LeaderboardData :=
  let d := loadData d
  match w.users with
  | none => some d
  | some users =>
    let d := resetIfNewDay w.today d
    match users.foldlM (scoreUser toLowerCase w) d.dailyScores with
    | none => none
    | some scores => some { d with dailyScores := users.foldl ensureUser scores }

/-- The Discord client as `postLeaderboard` uses it: the guild (by name) of
a channel id, `none` when the channel cannot be fetched; the username of a
guild member, `none` when `guild.members.fetch` fails; and whether
`channel.send` to a channel id succeeds. -/
structure Client where
  fetchChannel : String → Option String
  fetchMember : String → String → Option String
  send : String → Bool

/-- One element of `guildScores`. -/
structure Item where
  riotId : String
  stats : Entry
  member : String
deriving DecidableEq, Repr

/-- One field added to the embed: the rank counter and the item it shows. -/
structure Row where
  rank : Nat
  item : Item
deriving DecidableEq, Repr

/-- What one iteration of the guild loop of `postLeaderboard` ends in. -/
inductive Delivery where
  | channelNotFound : Delivery
  | noPlayers : Delivery
  | posted : List Row → Delivery
  | sendFailed : List Row → Delivery
deriving DecidableEq, Repr

/-- The list `Object.entries(dailyScores).sort(([, a], [, b]) => b.points - a.points)`.
`Array.prototype.sort` is stable, and the stable arrangement of a list under
a total preorder is unique; insertion sort computes it. -/
def allScores (d : LeaderboardData) : List (String × Entry) :=
  d.dailyScores.insertionSort (fun a b => b.2.points ≤ a.2.points)

/-- The membership loop of `postLeaderboard` for one guild. -/
def guildScores (c : Client) (guild : String) : List (String × Entry) → List Item
  | [] => []
  | (riotId, stats) :: rest =>
    match c.fetchMember guild stats.discordId with
    | some member => { riotId := riotId, stats := stats, member := member } :: guildScores c guild rest
    | none => guildScores c guild rest

/-- The loop over `topList`, from rank counter `rank`. -/
def addFields : Nat → List Item → List Row
  | _, [] => []
  | rank, item :: rest => { rank := rank, item := item } :: addFields (rank + 1) rest

/-- The body of the guild loop of `postLeaderboard` for one destination. -/
def postToGuild (c : Client) (all : List (String × Entry)) (channelId : String) : Delivery :=
  match c.fetchChannel channelId with
  | none => .channelNotFound
  | some guild =>
    let gs := guildScores c guild all
    if gs.length = 0 then .noPlayers
    else
      let topList := gs.take 15
      if c.send channelId then .posted (addFields 1 topList)
      else .sendFailed (addFields 1 topList)

/-- Function `postLeaderboard`: for each configured guild, in order, what became of its
delivery. -/
def postLeaderboard (c : Client) (d : LeaderboardData) : List (String × Delivery) :=
  let d := loadData d
  match d.channels with
  | none => []
  | some chans =>
    if chans.length = 0 then []
    else chans.map (fun gc => (gc.1, postToGuild c (allScores d) gc.2))

/-! ## matchAnalytics.js -/

/-- The record `getPlayerIdentity` returns. -/
structure Identity where
  name : String
  tag : String
  agent : String
  team : String
  rank : String
deriving DecidableEq, Repr

/-- Function `getPlayerIdentity(matchData, puuid)`; `none` when the roster is
missing. -/
def getPlayerIdentity (toLowerCase : String → String)
    (m : MatchData) (puuid : String) : Option Identity :=
  match m.players with
  | none => none
  | some all =>
    match all.find? (fun p => p.puuid == puuid) with
    | some player =>
      some { name := player.name, tag := player.tag, agent := player.character,
             team := toLowerCase player.team, rank := player.currenttier_patched }
    | none => some { name := "Unknown", tag := "", agent := "?", team := "neutral", rank := "" }

/-- The record `events.firstBlood`. -/
structure FirstBlood where
  killer : String
  victim : String
  team : String
deriving DecidableEq, Repr

/-- One element of `events.kills`. -/
structure KillLine where
  killer : String
  killerTeam : String
  victim : String
  victimTeam : String
  weapon : String
  time : Nat
deriving DecidableEq, Repr

/-- The record `events.plant`. -/
structure Plant where
  site : String
  player : String
  team : String
deriving DecidableEq, Repr

/-- The record `events.defuse`. -/
structure Defuse where
  player : String
  team : String
deriving DecidableEq, Repr

/-- One element of the timeline. -/
structure Events where
  roundNum : Nat
  winner : String
  endType : String
  score : String
  firstBlood : Option FirstBlood
  plant : Option Plant
  defuse : Option Defuse
  kills : List KillLine
deriving DecidableEq, Repr

/-- The counter pair `currentScore`. -/
structure Score where
  red : Nat
  blue : Nat
deriving DecidableEq, Repr

/-- The text of the running score, blue first. -/
def scoreText (s : Score) : String :=
  toString s.blue ++ " - " ++ toString s.red

/-- The step "Update score": the running score after a round won by
`winnerTeam`. -/
def bumpScore (cur : Score) (winnerTeam : String) : Score :=
  let cur := if winnerTeam = "red" then { cur with red := cur.red + 1 } else cur
  if winnerTeam = "blue" then { cur with blue := cur.blue + 1 } else cur

/-- The kills of round `index`, sorted by `game_time` (a stable sort). -/
def roundKillsOf (allKills : List Kill) (index : Nat) : List Kill :=
  (allKills.filter (fun k => k.round == index)).insertionSort
    (fun a b => a.game_time ≤ b.game_time)

/-- The first-blood record of the sorted kills of a round; the outer `none`
when an identity lookup raises. -/
def firstBloodOf (toLowerCase : String → String)
    (m : MatchData) : List Kill → Option (Option FirstBlood)
  | [] => some none
  | fbKill :: _ =>
    match getPlayerIdentity toLowerCase m fbKill.killer_puuid, getPlayerIdentity toLowerCase m fbKill.victim_puuid with
    | some fbKiller, some fbVictim =>
      some (some { killer := fbKiller.name, victim := fbVictim.name, team := fbKiller.team })
    | _, _ => none

/-- The callback of `roundKills.map`. -/
def formatKill (toLowerCase : String → String) (m : MatchData) (k : Kill) : Option KillLine :=
  match getPlayerIdentity toLowerCase m k.killer_puuid, getPlayerIdentity toLowerCase m k.victim_puuid with
  | some killer, some victim =>
    some { killer := killer.name, killerTeam := killer.team, victim := victim.name,
           victimTeam := victim.team,
           weapon := match k.damage_weapon_name with
             | none => "Ability"
             | some wn => if wn = "" then "Ability" else wn,
           time := k.game_time }
  | _, _ => none

/-- The call `roundKills.map(...)`: the kill feed; `none` when an identity lookup
raises. -/
def formatKills (toLowerCase : String → String) (m : MatchData) : List Kill → Option (List KillLine)
  | [] => some []
  | k :: ks =>
    match formatKill toLowerCase m k, formatKills toLowerCase m ks with
    | some line, some lines => some (line :: lines)
    | _, _ => none

/-- The plant record of a round. -/
def plantOf (toLowerCase : String → String)
    (m : MatchData) (round : Round) : Option (Option Plant) :=
  match round.plant_events with
  | none => some none
  | some pe =>
    if pe.plant_location then
      match getPlayerIdentity toLowerCase m pe.planted_by with
      | some planter => some (some { site := pe.plant_site, player := planter.name, team := planter.team })
      | none => none
    else some none

/-- The defuse record of a round. -/
def defuseOf (toLowerCase : String → String)
    (m : MatchData) (round : Round) : Option (Option Defuse) :=
  match round.defuse_events with
  | none => some none
  | some de =>
    if de.defuse_location then
      match getPlayerIdentity toLowerCase m de.defused_by with
      | some defuser => some (some { player := defuser.name, team := defuser.team })
      | none => none
    else some none

/-- The body of `rounds.forEach` for the round at `index`, given the running
score after it; `none` when it raises. -/
def roundEvents (toLowerCase : String → String)
    (m : MatchData) (index : Nat) (cur : Score) (round : Round) : Option Events :=
  match m.kills with
  | none => none
  | some allKills =>
    let roundKills := roundKillsOf allKills index
    match firstBloodOf toLowerCase m roundKills, formatKills toLowerCase m roundKills, plantOf toLowerCase m round,
        defuseOf toLowerCase m round with
    | some fb, some kills, some plant, some defuse =>
      some { roundNum := index + 1, winner := toLowerCase round.winning_team,
             endType := round.end_type, score := scoreText cur, firstBlood := fb,
             plant := plant, defuse := defuse, kills := kills }
    | _, _, _, _ => none

/-- The loop `rounds.forEach(...)` from round `index` on, with running score
`cur`. -/
def forEachRound (toLowerCase : String → String)
    (m : MatchData) : Nat → Score → List Round → Option (List Events)
  | _, _, [] => some []
  | index, cur, round :: rest =>
    let cur := bumpScore cur (toLowerCase round.winning_team)
    match roundEvents toLowerCase m index cur round, forEachRound toLowerCase m (index + 1) cur rest with
    | some e, some tl => some (e :: tl)
    | _, _ => none

/-- Function `analyzeMatch(matchData, targetRiotId)`; `none` when it raises.  The source
does not use its second argument. -/
def analyzeMatch (toLowerCase : String → String) (m : MatchData) : Option (List Events) :=
  match m.rounds with
  | none => some []
  | some rounds => forEachRound toLowerCase m 0 { red := 0, blue := 0 } rounds

/-- The constant `ITEMS_PER_PAGE`. -/
def ITEMS_PER_PAGE : Nat := 3

/-- What `createTimelineEmbed` computes for a page: the page number shown, the
total shown next to it, and the rounds it adds as fields.  The title,
thumbnail and field texts of the embed are left out. -/
structure TimelineEmbed where
  page : Int
  totalPages : Int
  slicedRounds : List Events
deriving DecidableEq, Repr

/-- Function `createTimelineEmbed(matchData, timeline, page)`, as far as paging
goes. -/
def createTimelineEmbed (timeline : List Events) (page : Int) : TimelineEmbed :=
  let totalPages := mathCeil (toDouble ((timeline.length : ℚ) / (ITEMS_PER_PAGE : ℚ)))
  let startIndex := (page - 1) * (ITEMS_PER_PAGE : Int)
  { page := page, totalPages := totalPages,
    slicedRounds := jsSlice timeline startIndex (startIndex + (ITEMS_PER_PAGE : Int)) }

/-! ## index.js: the timeline command and its buttons -/

/-- A timeline message: the embed and whether each navigation button is
disabled. -/
structure TimelineReply where
  embed : TimelineEmbed
  prevDisabled : Bool
  nextDisabled : Bool
deriving DecidableEq, Repr

/-- The reply of the command `/valo -timeline` for the analysed timeline:
page 1, `Previous` built with `setDisabled(true)`, `Next` built without
`setDisabled`. -/
def timelineCommandReply (timeline : List Events) : TimelineReply :=
  { embed := createTimelineEmbed timeline 1, prevDisabled := true, nextDisabled := false }

/-- The total `Math.ceil(timeline.length / 3)` of the button handler. -/
def buttonTotalPages (timeline : List Events) : Int :=
  mathCeil (toDouble ((timeline.length : ℚ) / 3))

/-- The message the `timeline_` button handler edits in, for the action and
page parsed from the button id and the re-analysed timeline. -/
def timelineButtonReply (action : String) (currentPage : Int) (timeline : List Events) :
    TimelineReply :=
  let newPage := if action = "next" then currentPage + 1 else currentPage - 1
  { embed := createTimelineEmbed timeline newPage,
    prevDisabled := decide (newPage ≤ 1),
    nextDisabled := decide (newPage ≥ buttonTotalPages timeline) }

/-! ## index.js: the set-leaderboard command -/

/-- The command `/valo -setleaderboard` sent in channel `channelId` of guild
`guildId`: `setChannel(guildId, channelId)`, which returns `true`, then
`updateScores().then(() => postLeaderboard(client))`.  The result is what the
distribution did for each configured guild, `none` when `updateScores` raises
(`postLeaderboard` is not called then). -/
def setLeaderboardCommand (toLowerCase : String → String)
    (w : World) (c : Client) (d : LeaderboardData)
    (guildId channelId : String) : Option (List (String × Delivery)) :=
  match updateScores toLowerCase w (setChannel d guildId channelId) with
  | none => none
  | some d2 => some (postLeaderboard c d2)

/-! ## profileAnalytics.js -/

/-- The accumulator `totals` of `getTopStats`. -/
structure Totals where
  kills : Nat
  deaths : Nat
  assists : Nat
  shots : Nat
  headshots : Nat
deriving DecidableEq, Repr

/-- The accumulators `stats` and `totals` of `getTopStats`. -/
structure TopAcc where
  agents : List (String × Nat)
  maps : List (String × Nat)
  weapons : List (String × Nat)
  friends : List (String × Nat)
  totals : Totals
deriving DecidableEq, Repr

/-- The arguments `targetPuuid`, `targetName`, `targetTag` of `getTopStats`;
`puuid` is `none` when the caller passes `null`. -/
structure Target where
  puuid : Option String
  name : String
  tag : String
deriving DecidableEq, Repr

/-- The update `obj[k] = (obj[k] || 0) + 1` of a frequency map.  The keys are
agent, map and weapon names of the game and `name#tag` texts; none of them is
taken to be a property name of `Object.prototype`, for which the value read is
an inherited function and the sum a text. -/
def bump (obj : List (String × Nat)) (k : String) : List (String × Nat) :=
  assign obj k ((getKey obj k).getD 0 + 1)

/-- The `find` predicate of `getTopStats`. -/
def isTarget (toLowerCase : String → String) (t : Target) (p : Player) : Bool :=
  t.puuid == some p.puuid ||
    (toLowerCase p.name == toLowerCase t.name && toLowerCase p.tag == toLowerCase t.tag)

/-- The weapon name counted for a kill event. -/
def weaponOf (k : Kill) : String :=
  let weapon :=
    match k.damage_weapon_name with
    | none => "Ability"
    | some wn => if wn = "" then "Ability" else wn
  if weapon = "Ultimate" then "Ability" else weapon

/-- Step "3. Top Weapon (Scan kills)". -/
def countWeapons (weapons : List (String × Nat)) (m : MatchData) (player : Player) :
    List (String × Nat) :=
  match m.kills with
  | none => weapons
  | some ks =>
    (ks.filter (fun k => k.killer_puuid == player.puuid)).foldl
      (fun ws k => bump ws (weaponOf k)) weapons

/-- Step "4. Top Friend". -/
def countFriends (friends : List (String × Nat)) (all : List Player) (player : Player) :
    List (String × Nat) :=
  match player.party_id with
  | none => friends
  | some myPartyId =>
    if myPartyId = "" then friends
    else
      (all.filter (fun p =>
          p.team == player.team && p.puuid != player.puuid && p.party_id == some myPartyId)).foldl
        (fun fs tm => bump fs (tm.name ++ "#" ++ tm.tag)) friends

/-- Step "1. Top Map". -/
def countMap (maps : List (String × Nat)) (md : Metadata) : List (String × Nat) :=
  match md.map with
  | none => maps
  | some mp => if mp = "" then maps else bump maps mp

/-- The body of `if (player)` in `getTopStats`. -/
def addPlayer (acc : TopAcc) (m : MatchData) (all : List Player) (player : Player) : TopAcc :=
  { agents := if player.character = "" then acc.agents else bump acc.agents player.character,
    maps := acc.maps,
    weapons := countWeapons acc.weapons m player,
    friends := countFriends acc.friends all player,
    totals :=
      { kills := acc.totals.kills + player.stats.kills,
        deaths := acc.totals.deaths + player.stats.deaths,
        assists := acc.totals.assists + player.stats.assists,
        shots := acc.totals.shots
          + (player.stats.bodyshots + player.stats.headshots + player.stats.legshots),
        headshots := acc.totals.headshots + player.stats.headshots } }

/-- The body of `matches.forEach` in `getTopStats`. -/
def matchStep (toLowerCase : String → String)
    (t : Target) (acc : TopAcc) (m : MatchData) : TopAcc :=
  match m.metadata, m.players with
  | some md, some all =>
    let acc := { acc with maps := countMap acc.maps md }
    match all.find? (isTarget toLowerCase t) with
    | none => acc
    | some player => addPlayer acc m all player
  | _, _ => acc

/-- The accumulators before the first match. -/
def emptyAcc : TopAcc :=
  { agents := [], maps := [], weapons := [], friends := [],
    totals := { kills := 0, deaths := 0, assists := 0, shots := 0, headshots := 0 } }

/-- The accumulators after `matches.forEach`. -/
def accumulate (toLowerCase : String → String) (matchList : List MatchData) (t : Target) : TopAcc :=
  matchList.foldl (matchStep toLowerCase t) emptyAcc

/-- The loop of `getTopKey`: the pair `(topKey, maxVal)` after the entries. -/
def topPair (obj : List (String × Nat)) : String × Nat :=
  obj.foldl (fun acc kv => if kv.2 > acc.2 then (kv.1, kv.2) else acc) ("N/A", 0)

/-- Function `getTopKey(obj)`. -/
def getTopKey (obj : List (String × Nat)) : String :=
  if (topPair obj).1 = "N/A" then "None"
  else (topPair obj).1 ++ " (" ++ toString (topPair obj).2 ++ ")"

/-- The value `kd` of `getTopStats`. -/
def kdOf (totals : Totals) : String :=
  if totals.deaths > 0 then toFixed2 (toDouble ((totals.kills : ℚ) / (totals.deaths : ℚ)))
  else toFixed2 (totals.kills : ℚ)

/-- The value `hs` of `getTopStats`. -/
def hsOf (totals : Totals) : Int :=
  if totals.shots > 0 then
    mathRound (toDouble (toDouble ((totals.headshots : ℚ) / (totals.shots : ℚ)) * 100))
  else 0

/-- The object `getTopStats` returns. -/
structure Summary where
  topAgent : String
  topMap : String
  topWeapon : String
  topFriend : String
  kda : String
  hs : String
  totalKills : Nat
deriving DecidableEq, Repr

/-- Function `getTopStats(matches, targetPuuid, targetName, targetTag)`; `none` is
the result `null`. -/
def getTopStats (toLowerCase : String → String)
    (matchList : List MatchData) (t : Target) : Option Summary :=
  if matchList.length = 0 then none
  else
    let acc := accumulate toLowerCase matchList t
    some { topAgent := getTopKey acc.agents, topMap := getTopKey acc.maps,
           topWeapon := getTopKey acc.weapons, topFriend := getTopKey acc.friends,
           kda := kdOf acc.totals, hs := toString (hsOf acc.totals) ++ "%",
           totalKills := acc.totals.kills }

/-! ## Notions used to state and prove the properties -/

/-- The writes of the scoring loop of `updateScores` over `users`, in order;
`none` when the loop raises. -/
def passWrites (toLowerCase : String → String)
    (w : World) : List (String × User) → Option (List (String × Entry))
  | [] => some []
  | u :: us =>
    match userWrite toLowerCase w u.1 u.2, passWrites toLowerCase w us with
    | some none, some ws => some ws
    | some (some kv), some ws => some (kv :: ws)
    | _, _ => none

/-- Perform the writes `ws` on `m`, in order. -/
def applyWrites (ws : List (String × Entry)) (m : List (String × Entry)) : List (String × Entry) :=
  ws.foldl (fun m kv => assign m kv.1 kv.2) m

/-- The value of the last write under key `k`, if any. -/
def lastWrite : List (String × Entry) → String → Option Entry
  | [], _ => none
  | kv :: ws, k =>
    match lastWrite ws k with
    | some v => some v
    | none => if kv.1 = k then some kv.2 else none

/-- The identity's player record in a match dated on the current day key,
if the match is so dated and the record is found. -/
def qualifyingPlayer (toLowerCase : String → String)
    (w : World) (name tag : String) (m : MatchData) : Option Player :=
  match m.metadata with
  | none => none
  | some md =>
    match md.game_start_patched with
    | none => none
    | some g =>
      if g ≠ "" ∧ w.dateString g = w.today then (m.players.getD []).find? (isPlayer toLowerCase name tag)
      else none

/-- The points of one match: `kills*1 + assists*0.5 + (5 if that player's team
has won, else 0)`. -/
def matchPoints (toLowerCase : String → String) (m : MatchData) (p : Player) : ℚ :=
  p.stats.kills * 1 + p.stats.assists * (1 / 2) + (if teamHasWon m (toLowerCase p.team) then 5 else 0)

/-- The sum of `matchPoints` over the matches of the window that are dated on
the current day key and hold the identity's player record. -/
def exactPoints (toLowerCase : String → String)
    (w : World) (name tag : String) (ms : List MatchData) : ℚ :=
  (ms.map (fun m =>
    match qualifyingPlayer toLowerCase w name tag m with
    | none => 0
    | some p => matchPoints toLowerCase m p)).sum

/-- The identity's roster record in a match that has metadata and a roster,
if it is found there: the match is one in which the identity appears. -/
def appears (toLowerCase : String → String) (t : Target) (m : MatchData) : Option Player :=
  match m.metadata, m.players with
  | some _, some all => all.find? (isTarget toLowerCase t)
  | _, _ => none

/-- The sum of a stat over the matches in which the identity appears. -/
def cumulative (toLowerCase : String → String)
    (f : Stats → Nat) (t : Target) (matchList : List MatchData) : Nat :=
  ((matchList.filterMap (appears toLowerCase t)).map (fun p => f p.stats)).sum

/-- The kill events of a match whose killer id is the identity's in-match
player id. -/
def ownKills (toLowerCase : String → String) (t : Target) (m : MatchData) : List Kill :=
  match appears toLowerCase t m, m.kills with
  | some p, some ks => ks.filter (fun k => k.killer_puuid == p.puuid)
  | _, _ => []

/-- The totals after one more roster record. -/
def addStats (totals : Totals) (s : Stats) : Totals :=
  { kills := totals.kills + s.kills, deaths := totals.deaths + s.deaths,
    assists := totals.assists + s.assists,
    shots := totals.shots + (s.bodyshots + s.headshots + s.legshots),
    headshots := totals.headshots + s.headshots }

/-- The validation of `getTopStats`: the match has its metadata and its
roster. -/
def wellFormed (m : MatchData) : Bool :=
  m.metadata.isSome && m.players.isSome

/-- The kills of the identity over the matches of the window that qualify
(dated on the current day key, with the identity in the roster). -/
def todayKills (toLowerCase : String → String)
    (w : World) (name tag : String) (ms : List MatchData) : Nat :=
  ((ms.filterMap (qualifyingPlayer toLowerCase w name tag)).map (fun p => p.stats.kills)).sum

/-- The assists of the identity over the matches of the window that qualify. -/
def todayAssists (toLowerCase : String → String)
    (w : World) (name tag : String) (ms : List MatchData) : Nat :=
  ((ms.filterMap (qualifyingPlayer toLowerCase w name tag)).map (fun p => p.stats.assists)).sum

/-- The number of qualifying matches of the window that the identity's team
has won. -/
def todayWins (toLowerCase : String → String)
    (w : World) (name tag : String) (ms : List MatchData) : Nat :=
  (ms.filter (fun m =>
    match qualifyingPlayer toLowerCase w name tag m with
    | none => false
    | some p => teamHasWon m (toLowerCase p.team))).length

/-! ## Concrete inputs -/

/-- The user map with the single linked user `u1`, riot id `ann#eu1`. -/
def annUsers : List (String × User) :=
  [("u1", { riotId := some "ann#eu1", nickname := none })]

/-- The roster record of `Ann#EU1` on team Red with the given kills and assists. -/
def annPlayer (kills assists : Nat) : Player :=
  { puuid := "p-ann", name := "Ann", tag := "EU1", character := "Jett", team := "Red",
    currenttier_patched := "Gold 1", party_id := none,
    stats := { kills := kills, deaths := 4, assists := assists, bodyshots := 30,
               headshots := 10, legshots := 2 } }

/-- A match started on `day` with `Ann#EU1` in the roster; `won` tells whether
team Red has won. -/
def annMatch (kills assists : Nat) (won : Bool) (day : String) : MatchData :=
  { metadata := some { map := some "Bind", mode := "Competitive", game_start_patched := some day },
    players := some [annPlayer kills assists],
    teams := some [("red", { has_won := won, rounds_won := 13 }),
                   ("blue", { has_won := !won, rounds_won := 9 })],
    rounds := none, kills := none }

/-- A snapshot of the day `Fri Nov 06 2026` in which `ann#eu1` has 20 points. -/
def snapshot20 : LeaderboardData :=
  { channelId := none, channels := some [("g1", "c1")], lastUpdated := some "Fri Nov 06 2026",
    dailyScores := [("ann#eu1", { points := 20, wins := 2, kills := 10, discordId := "u1" })] }

/-- A pass on `Fri Nov 06 2026` in which every upstream request fails. -/
def failingWorld : World :=
  { today := "Fri Nov 06 2026", dateString := id, upstream := fun _ _ => Upstream.error,
    users := some annUsers }

/-- A pass on `Fri Nov 06 2026` whose upstream answers one match of today with
no kill, one assist and a loss. -/
def oneAssistWorld : World :=
  { today := "Fri Nov 06 2026", dateString := id,
    upstream := fun _ _ => Upstream.data [annMatch 0 1 false "Fri Nov 06 2026"],
    users := some annUsers }

/-- A pass on `Fri Nov 06 2026` whose upstream answers two matches of today
(5 kills, 2 assists, win; 3 kills, 0 assists, loss) and one of the day before. -/
def twoMatchWorld : World :=
  { today := "Fri Nov 06 2026", dateString := id,
    upstream := fun _ _ => Upstream.data
      [annMatch 5 2 true "Fri Nov 06 2026", annMatch 3 0 false "Fri Nov 06 2026",
       annMatch 9 9 true "Thu Nov 05 2026"],
    users := some annUsers }

/-- The snapshot holding the single entry `e` for `ann#eu1` on `Fri Nov 06 2026`. -/
def annSnapshot (e : Entry) : LeaderboardData :=
  { channelId := none, channels := some [("g1", "c1")], lastUpdated := some "Fri Nov 06 2026",
    dailyScores := [("ann#eu1", e)] }

/-- A snapshot of the day before, `Thu Nov 05 2026`, in which `ann#eu1` has
20 points. -/
def staleSnapshot : LeaderboardData :=
  { channelId := none, channels := some [("g1", "c1")], lastUpdated := some "Thu Nov 05 2026",
    dailyScores := [("ann#eu1", { points := 20, wins := 2, kills := 10, discordId := "u1" })] }

/-- A pass on `Fri Nov 06 2026` while `users.json` does not exist. -/
def noUsersWorld : World :=
  { today := "Fri Nov 06 2026", dateString := id, upstream := fun _ _ => Upstream.error,
    users := none }

/-- A client that knows channel `c1` of `Guild One` (members `u1`, `u2`) and
channel `c2` of `Guild Two` (member `u3`), and whose sends succeed. -/
def twoGuildClient : Client :=
  { fetchChannel := fun ch =>
      if ch = "c1" then some "Guild One" else if ch = "c2" then some "Guild Two" else none,
    fetchMember := fun guild id =>
      if guild = "Guild One" ∧ (id = "u1" ∨ id = "u2") then some ("user " ++ id)
      else if guild = "Guild Two" ∧ id = "u3" then some ("user " ++ id)
      else none,
    send := fun _ => true }

/-- A snapshot with three entries and three configured guilds, the third of
which points to an unknown channel. -/
def threeEntrySnapshot : LeaderboardData :=
  { channelId := none, channels := some [("g1", "c1"), ("g2", "c2"), ("g3", "c9")],
    lastUpdated := some "Fri Nov 06 2026",
    dailyScores :=
      [("ann#eu1", { points := 5, wins := 0, kills := 5, discordId := "u1" }),
       ("bob#eu2", { points := 9, wins := 1, kills := 4, discordId := "u3" }),
       ("cid#eu3", { points := 5, wins := 1, kills := 0, discordId := "u2" })] }

/-- The two items `Guild One` sees in `threeEntrySnapshot`, ranked. -/
def guildOneRows : List Row :=
  [{ rank := 1,
     item := { riotId := "ann#eu1", member := "user u1",
               stats := { points := 5, wins := 0, kills := 5, discordId := "u1" } } },
   { rank := 2,
     item := { riotId := "cid#eu3", member := "user u2",
               stats := { points := 5, wins := 1, kills := 0, discordId := "u2" } } }]

/-- The single item `Guild Two` sees in `threeEntrySnapshot`. -/
def guildTwoRows : List Row :=
  [{ rank := 1,
     item := { riotId := "bob#eu2", member := "user u3",
               stats := { points := 9, wins := 1, kills := 4, discordId := "u3" } } }]

/-- A client with the single channel `c1` of `Guild One`, of which everybody
is a member. -/
def openClient : Client :=
  { fetchChannel := fun ch => if ch = "c1" then some "Guild One" else none,
    fetchMember := fun _ id => some ("user " ++ id),
    send := fun _ => true }

/-- A snapshot with seventeen entries, `n` points for the `n`-th. -/
def crowdSnapshot : LeaderboardData :=
  { channelId := none, channels := some [("g1", "c1")], lastUpdated := some "Fri Nov 06 2026",
    dailyScores := (List.range 17).map (fun n =>
      (String.mk [Char.ofNat (97 + n), '#', 'x'],
       { points := n, wins := 0, kills := n, discordId := String.mk [Char.ofNat (97 + n)] })) }

/-- The running score after the rounds `rounds`, starting from `cur`. -/
def scoreAfter (toLowerCase : String → String) (cur : Score) (rounds : List Round) : Score :=
  rounds.foldl (fun s r => bumpScore s (toLowerCase r.winning_team)) cur

/-- The number of rounds at indices `0..i` whose declared winner side is blue,
compared case-insensitively. -/
def blueWins (toLowerCase : String → String) (rounds : List Round) (i : Nat) : Nat :=
  (rounds.take (i + 1)).countP (fun r => toLowerCase r.winning_team == "blue")

/-- The number of rounds at indices `0..i` whose declared winner side is red,
compared case-insensitively. -/
def redWins (toLowerCase : String → String) (rounds : List Round) (i : Nat) : Nat :=
  (rounds.take (i + 1)).countP (fun r => toLowerCase r.winning_team == "red")

/-- A roster record with the given puuid, name and team. -/
def rosterPlayer (puuid name team : String) : Player :=
  { puuid := puuid, name := name, tag := "EU", character := "Sova", team := team,
    currenttier_patched := "Silver 2", party_id := none,
    stats := { kills := 1, deaths := 1, assists := 0, bodyshots := 5, headshots := 1,
               legshots := 0 } }

/-- A round won by `team`, without plant or defuse. -/
def plainRound (team : String) : Round :=
  { winning_team := team, end_type := "Eliminated", plant_events := none, defuse_events := none }

/-- A match of three rounds (Blue, Red, Blue).  Its kill array lists, for
round 0, the kill of `B` by `A` at time 10 before the kill of `D` by `C` at
time 5; round 1 has no kill; round 2 has one. -/
def threeRoundMatch : MatchData :=
  { metadata := some { map := some "Ascent", mode := "Competitive",
                       game_start_patched := some "Fri Nov 06 2026" },
    players := some [rosterPlayer "pa" "A" "Red", rosterPlayer "pb" "B" "Blue",
                     rosterPlayer "pc" "C" "Blue", rosterPlayer "pd" "D" "Red"],
    teams := some [("red", { has_won := false, rounds_won := 1 }),
                   ("blue", { has_won := true, rounds_won := 2 })],
    rounds := some [plainRound "Blue", plainRound "Red", plainRound "Blue"],
    kills := some
      [{ round := 0, game_time := 10, killer_puuid := "pa", victim_puuid := "pb",
         damage_weapon_name := some "Vandal" },
       { round := 0, game_time := 5, killer_puuid := "pc", victim_puuid := "pd",
         damage_weapon_name := none },
       { round := 2, game_time := 7, killer_puuid := "pa", victim_puuid := "pc",
         damage_weapon_name := some "Sheriff" }] }

/-- Round 1 of the timeline of `threeRoundMatch`. -/
def roundOneEvents : Events :=
  { roundNum := 1, winner := "blue", endType := "Eliminated", score := "1 - 0",
    firstBlood := some { killer := "C", victim := "D", team := "blue" },
    plant := none, defuse := none,
    kills := [{ killer := "C", killerTeam := "blue", victim := "D", victimTeam := "red",
                weapon := "Ability", time := 5 },
              { killer := "A", killerTeam := "red", victim := "B", victimTeam := "blue",
                weapon := "Vandal", time := 10 }] }

/-- Round 2 of the timeline of `threeRoundMatch`. -/
def roundTwoEvents : Events :=
  { roundNum := 2, winner := "red", endType := "Eliminated", score := "1 - 1",
    firstBlood := none, plant := none, defuse := none, kills := [] }

/-- Round 3 of the timeline of `threeRoundMatch`. -/
def roundThreeEvents : Events :=
  { roundNum := 3, winner := "blue", endType := "Eliminated", score := "2 - 1",
    firstBlood := some { killer := "A", victim := "C", team := "red" },
    plant := none, defuse := none,
    kills := [{ killer := "A", killerTeam := "red", victim := "C", victimTeam := "blue",
                weapon := "Sheriff", time := 7 }] }

/-- The timeline of `threeRoundMatch`. -/
def threeRoundTimeline : List Events :=
  [roundOneEvents, roundTwoEvents, roundThreeEvents]

/-- A timeline entry with the given round number and nothing else of note. -/
def plainEvents (roundNum : Nat) : Events :=
  { roundNum := roundNum, winner := "blue", endType := "Eliminated", score := "0 - 0",
    firstBlood := none, plant := none, defuse := none, kills := [] }

/-- A timeline of `n` rounds, numbered from 1. -/
def plainTimeline (n : Nat) : List Events :=
  (List.range n).map (fun i => plainEvents (i + 1))

/-- The target identity `Ann#EU1` with puuid `p-ann`. -/
def annTarget : Target :=
  { puuid := some "p-ann", name := "Ann", tag := "EU1" }

/-- A roster record with the given puuid, name, agent, party and shot counts
(headshots, bodyshots, legshots), on team Red, with `kills` kills and `deaths`
deaths. -/
def profilePlayer (puuid name character : String) (party : Option String)
    (kills deaths headshots bodyshots legshots : Nat) : Player :=
  { puuid := puuid, name := name, tag := "EU1", character := character, team := "Red",
    currenttier_patched := "Gold 1", party_id := party,
    stats := { kills := kills, deaths := deaths, assists := 1, bodyshots := bodyshots,
               headshots := headshots, legshots := legshots } }

/-- A well-formed match on the map `mapName` with the given roster and kill
array. -/
def profileMatch (mapName : String) (roster : List Player) (kills : List Kill) : MatchData :=
  { metadata := some { map := some mapName, mode := "Competitive",
                       game_start_patched := some "Fri Nov 06 2026" },
    players := some roster, teams := none, rounds := none, kills := some kills }

/-- Three matches of `Ann#EU1`: two with the agent text `N/A`, one with `Jett`. -/
def sentinelMatches : List MatchData :=
  [profileMatch "Bind" [profilePlayer "p-ann" "Ann" "N/A" none 3 2 1 1 0] [],
   profileMatch "Bind" [profilePlayer "p-ann" "Ann" "Jett" none 3 2 1 1 0] [],
   profileMatch "Bind" [profilePlayer "p-ann" "Ann" "N/A" none 3 2 1 1 0] []]

/-- Two matches of `Ann#EU1` without a death: 7 and 5 kills. -/
def deathlessMatches : List MatchData :=
  [profileMatch "Bind" [profilePlayer "p-ann" "Ann" "Jett" none 7 0 4 6 0] [],
   profileMatch "Haven" [profilePlayer "p-ann" "Ann" "Sova" none 5 0 2 8 1] []]

/-- One match of `Ann#EU1` with 23 headshots, 17 bodyshots and no legshot. -/
def fortyShotMatches : List MatchData :=
  [profileMatch "Bind" [profilePlayer "p-ann" "Ann" "Jett" none 9 3 23 17 0] []]

/-- Two matches of `Ann#EU1` (10 of 40 and 5 of 20 shots are headshots) and one
without her (9 headshots in 10 shots by `Bob`). -/
def quarterShotMatches : List MatchData :=
  [profileMatch "Bind" [profilePlayer "p-ann" "Ann" "Jett" none 9 3 10 25 5] [],
   profileMatch "Icebox" [profilePlayer "p-bob" "Bob" "Omen" none 2 2 9 1 0] [],
   profileMatch "Haven" [profilePlayer "p-ann" "Ann" "Sova" none 4 6 5 15 0] []]

/-- The summary of `quarterShotMatches` for `Ann#EU1`. -/
def quarterShotSummary : Summary :=
  { topAgent := "Jett (1)", topMap := "Bind (1)", topWeapon := "None", topFriend := "None",
    kda := "1.44", hs := "25%", totalKills := 13 }

/-- A kill event by the player `killer` with the weapon name `weapon`. -/
def profileKill (killer : String) (weapon : Option String) : Kill :=
  { round := 1, game_time := 1000, killer_puuid := killer, victim_puuid := "p-cy",
    damage_weapon_name := weapon }

/-- One match of `Ann#EU1` and Bob: four kills by Ann (two with the Vandal, one
with her ultimate, one without a weapon name) and two by Bob. -/
def duelMatches : List MatchData :=
  [profileMatch "Bind"
    [profilePlayer "p-ann" "Ann" "Jett" none 4 2 1 1 0,
     profilePlayer "p-bob" "Bob" "Omen" none 2 2 1 1 0]
    [profileKill "p-ann" (some "Vandal"), profileKill "p-bob" (some "Phantom"),
     profileKill "p-ann" (some "Ultimate"), profileKill "p-ann" (some "Vandal"),
     profileKill "p-bob" (some "Vandal"), profileKill "p-ann" none]]

/-- Two matches of `Ann#EU1`: one on Ascent, one on Bind. -/
def homeMatches : List MatchData :=
  [profileMatch "Ascent" [profilePlayer "p-ann" "Ann" "Jett" none 9 3 10 25 5] [],
   profileMatch "Bind" [profilePlayer "p-ann" "Ann" "Sova" none 4 6 5 15 0] []]

/-- A well-formed match on Bind whose roster holds Bob only. -/
def strangerMatch : MatchData :=
  profileMatch "Bind" [profilePlayer "p-bob" "Bob" "Omen" none 2 2 9 1 0]
    [profileKill "p-bob" (some "Phantom")]

/-- A pass on `Fri Nov 06 2026` whose upstream answers bodies in which `data`
is an object, not an array. -/
def oddWorld : World :=
  { today := "Fri Nov 06 2026", dateString := id, upstream := fun _ _ => Upstream.other,
    users := some annUsers }

/-- A pass on `Fri Nov 06 2026` whose upstream answers bodies without a `data`
field. -/
def noDataWorld : World :=
  { today := "Fri Nov 06 2026", dateString := id, upstream := fun _ _ => Upstream.noData,
    users := some annUsers }

/-- A snapshot in the legacy format: the single destination `c9`, no channels
map. -/
def legacySnapshot : LeaderboardData :=
  { channelId := some "c9", channels := none, lastUpdated := some "Fri Nov 06 2026",
    dailyScores := [("ann#eu1", { points := 20, wins := 2, kills := 10, discordId := "u1" })] }

/-- The user map with the linked users `u1` (riot id `ann#eu1`) and `u2`
(riot id `bob#eu1`). -/
def pairUsers : List (String × User) :=
  [("u1", { riotId := some "ann#eu1", nickname := none }),
   ("u2", { riotId := some "bob#eu1", nickname := none })]

/-- A match of `Fri Nov 06 2026` that lacks its roster. -/
def rosterlessMatch : MatchData :=
  { metadata := some { map := some "Bind", mode := "Competitive",
                       game_start_patched := some "Fri Nov 06 2026" },
    players := none, teams := none, rounds := none, kills := none }

/-- A match of `Fri Nov 06 2026` in which `Bob#EU1` has 6 kills and 1 assist. -/
def bobMatch : MatchData :=
  profileMatch "Bind" [profilePlayer "p-bob" "Bob" "Omen" none 6 2 9 1 0] []

/-- A pass on `Fri Nov 06 2026` over `pairUsers` whose upstream answers
`rosterlessMatch` for `ann#eu1` and `bobMatch` for `bob#eu1`. -/
def rosterlessWorld : World :=
  { today := "Fri Nov 06 2026", dateString := id,
    upstream := fun name _ =>
      if name = "ann" then Upstream.data [rosterlessMatch] else Upstream.data [bobMatch],
    users := some pairUsers }

/-- The pass of `rosterlessWorld` with no data for `ann#eu1`. -/
def absentWorld : World :=
  { today := "Fri Nov 06 2026", dateString := id,
    upstream := fun name _ =>
      if name = "ann" then Upstream.noData else Upstream.data [bobMatch],
    users := some pairUsers }

/-- The client `twoGuildClient`, except that sending to channel `c1` raises. -/
def flakyClient : Client :=
  { fetchChannel := twoGuildClient.fetchChannel, fetchMember := twoGuildClient.fetchMember,
    send := fun ch => ch != "c1" }

/-- The user map with `u1` linked to `ann#eu1` and `u2` linked to the riot id
`bob`, which has no tag. -/
def looseUsers : List (String × User) :=
  [("u1", { riotId := some "ann#eu1", nickname := none }),
   ("u2", { riotId := some "bob", nickname := none })]

/-- A pass on `Fri Nov 06 2026` over `looseUsers` whose upstream answers one
match of the day before. -/
def idleWorld : World :=
  { today := "Fri Nov 06 2026", dateString := id,
    upstream := fun _ _ => Upstream.data [annMatch 9 9 true "Thu Nov 05 2026"],
    users := some looseUsers }

/-- The user map with `u1` linked to `ann#eu1` and `u2` linked to the riot id
`123`, which has no tag and is an array index. -/
def digitUsers : List (String × User) :=
  [("u1", { riotId := some "ann#eu1", nickname := none }),
   ("u2", { riotId := some "123", nickname := none })]

/-- A pass on `Fri Nov 06 2026` over `digitUsers` whose upstream answers bodies
without a `data` field. -/
def digitWorld : World :=
  { today := "Fri Nov 06 2026", dateString := id, upstream := fun _ _ => Upstream.noData,
    users := some digitUsers }

/-- The user map with `u1` linked to the riot id `constructor` and `u2` linked
to the riot id `bob`; neither has a tag. -/
def protoUsers : List (String × User) :=
  [("u1", { riotId := some "constructor", nickname := none }),
   ("u2", { riotId := some "bob", nickname := none })]

/-- A pass on `Fri Nov 06 2026` over `protoUsers` whose upstream answers bodies
without a `data` field. -/
def protoWorld : World :=
  { today := "Fri Nov 06 2026", dateString := id, upstream := fun _ _ => Upstream.noData,
    users := some protoUsers }

/-- A snapshot of `Fri Nov 06 2026` without entries. -/
def emptySnapshot : LeaderboardData :=
  { channelId := none, channels := some [("g1", "c1")], lastUpdated := some "Fri Nov 06 2026",
    dailyScores := [] }

/-! ## Dictionaries -/



theorem getKey_nil {α : Type} (k : String) : getKey ([] : List (String × α)) k = none := rfl

theorem getKey_cons {α : Type} (p : String × α) (o : List (String × α)) (k : String) :
    getKey (p :: o) k = if p.1 = k then some p.2 else getKey o k := by
  by_cases h : p.1 = k <;> simp [getKey, List.find?_cons, h]

theorem any_key_iff {α : Type} (o : List (String × α)) (k : String) :
    o.any (fun p => p.1 == k) = true ↔ k ∈ o.map Prod.fst := by
  induction o with
  | nil => simp
  | cons p o ih =>
    rw [List.any_cons, Bool.or_eq_true, ih, List.map_cons, List.mem_cons, beq_iff_eq]
    exact or_congr_left eq_comm

theorem getKey_eq_none_iff {α : Type} (o : List (String × α)) (k : String) :
    getKey o k = none ↔ k ∉ o.map Prod.fst := by
  induction o with
  | nil => simp [getKey_nil]
  | cons p o ih =>
    rw [getKey_cons]
    by_cases h : p.1 = k
    · simp [h]
    · have h2 : ¬ k = p.1 := fun e => h e.symm
      simp only [h, if_false, ih, List.map_cons, List.mem_cons, h2, false_or]

theorem getKey_append {α : Type} (a b : List (String × α)) (k : String) :
    getKey (a ++ b) k
      = match getKey a k with
        | some x => some x
        | none => getKey b k := by
  induction a with
  | nil => simp [getKey_nil]
  | cons p a ih =>
    rw [List.cons_append, getKey_cons, getKey_cons, ih]
    by_cases h : p.1 = k <;> simp [h]

theorem insertIndex_split {α : Type} (i : Nat) (kv : String × α) (o : List (String × α)) :
    ∃ pre post, o = pre ++ post ∧ insertIndex i kv o = pre ++ kv :: post := by
  induction o with
  | nil => exact ⟨[], [], rfl, rfl⟩
  | cons p rest ih =>
    rw [insertIndex]
    cases arrayIndex p.1 with
    | none => exact ⟨[], p :: rest, rfl, rfl⟩
    | some j =>
      simp only
      by_cases hj : j < i
      · obtain ⟨pre, post, h1, h2⟩ := ih
        rw [if_pos hj, h2]
        exact ⟨p :: pre, post, by rw [h1]; rfl, rfl⟩
      · rw [if_neg hj]
        exact ⟨[], p :: rest, rfl, rfl⟩

/-- A new key is put in somewhere among the entries, which keep their order. -/
theorem insertKey_split {α : Type} (o : List (String × α)) (k : String) (v : α) :
    ∃ pre post, o = pre ++ post ∧ insertKey o k v = pre ++ (k, v) :: post := by
  unfold insertKey
  cases arrayIndex k with
  | none => exact ⟨o, [], by simp, rfl⟩
  | some i => exact insertIndex_split i (k, v) o

theorem getKey_insertKey {α : Type} (o : List (String × α)) (k k2 : String) (v : α)
    (hk : k ∉ o.map Prod.fst) :
    getKey (insertKey o k v) k2 = if k = k2 then some v else getKey o k2 := by
  obtain ⟨pre, post, h1, h2⟩ := insertKey_split o k v
  rw [h2, h1, getKey_append, getKey_append, getKey_cons]
  by_cases h : k = k2
  · subst h
    have hnone : getKey o k = none := (getKey_eq_none_iff o k).2 hk
    rw [h1, getKey_append] at hnone
    cases hp : getKey pre k with
    | none => simp
    | some x => rw [hp] at hnone; cases hnone
  · simp only [h, if_false]

theorem getKey_map_replace {α : Type} (o : List (String × α)) (k k2 : String) (v : α) :
    getKey (o.map (fun p => if p.1 == k then (k, v) else p)) k2
      = if k = k2 then (getKey o k2).map (fun _ => v) else getKey o k2 := by
  induction o with
  | nil => simp [getKey_nil]
  | cons p o ih =>
    rw [List.map_cons, getKey_cons, getKey_cons, ih]
    by_cases hk : k = k2
    · subst hk
      by_cases h : p.1 = k <;> simp [h]
    · by_cases h : p.1 = k
      · have h2 : ¬ p.1 = k2 := fun e => hk (h.symm.trans e)
        simp [h, hk, h2]
      · simp [h, hk]

theorem getKey_assign_self {α : Type} (o : List (String × α)) (k : String) (v : α) :
    getKey (assign o k v) k = some v := by
  unfold assign
  split
  · rename_i h
    rw [getKey_map_replace]
    rw [any_key_iff] at h
    cases hg : getKey o k with
    | none => exact absurd h ((getKey_eq_none_iff o k).1 hg)
    | some x => simp
  · rename_i h
    rw [any_key_iff] at h
    rw [getKey_insertKey o k k v h, if_pos rfl]

theorem getKey_assign_of_ne {α : Type} (o : List (String × α)) (k k2 : String) (v : α)
    (h : k ≠ k2) : getKey (assign o k v) k2 = getKey o k2 := by
  unfold assign
  split
  · rw [getKey_map_replace]; simp [h]
  · rename_i hc
    rw [any_key_iff] at hc
    rw [getKey_insertKey o k k2 v hc, if_neg h]



/-! ## Recompute pass: auxiliary facts -/

theorem foldlM_scoreUser (toLowerCase : String → String)
    (w : World) (users : List (String × User)) (m : List (String × Entry)) :
    users.foldlM (scoreUser toLowerCase w) m = (passWrites toLowerCase w users).map (fun ws => applyWrites ws m) := by
  induction users generalizing m with
  | nil => rfl
  | cons u us ih =>
    rw [List.foldlM_cons, passWrites]
    unfold scoreUser
    cases hu : userWrite toLowerCase w u.1 u.2 with
    | none => rfl
    | some o =>
      cases o with
      | none =>
        show us.foldlM (scoreUser toLowerCase w) m = _
        rw [ih]
        cases passWrites toLowerCase w us <;> rfl
      | some kv =>
        obtain ⟨k, e⟩ := kv
        show us.foldlM (scoreUser toLowerCase w) (assign m k e) = _
        rw [ih]
        cases passWrites toLowerCase w us <;> rfl

theorem updateScores_eq (toLowerCase : String → String)
    (w : World) (d : LeaderboardData) (users : List (String × User))
    (hu : w.users = some users) :
    updateScores toLowerCase w d = (passWrites toLowerCase w users).map (fun ws =>
      { resetIfNewDay w.today (loadData d) with
        dailyScores := users.foldl ensureUser
          (applyWrites ws (resetIfNewDay w.today (loadData d)).dailyScores) }) := by
  unfold updateScores
  simp only [hu]
  rw [foldlM_scoreUser]
  cases passWrites toLowerCase w users <;> rfl

theorem getKey_applyWrites (ws : List (String × Entry)) (m : List (String × Entry)) (k : String) :
    getKey (applyWrites ws m) k
      = match lastWrite ws k with
        | some v => some v
        | none => getKey m k := by
  induction ws generalizing m with
  | nil => rfl
  | cons kv ws ih =>
    show getKey (applyWrites ws (assign m kv.1 kv.2)) k = _
    rw [ih, lastWrite]
    cases lastWrite ws k with
    | some v => rfl
    | none =>
      by_cases h : kv.1 = k
      · subst h; simp [getKey_assign_self]
      · simp [h, getKey_assign_of_ne _ _ _ _ h]

theorem lastWrite_mem (ws : List (String × Entry)) (k : String) (v : Entry)
    (h : lastWrite ws k = some v) : (k, v) ∈ ws := by
  induction ws with
  | nil => simp [lastWrite] at h
  | cons kv ws ih =>
    rw [lastWrite] at h
    cases hl : lastWrite ws k with
    | some x =>
      rw [hl] at h
      exact List.mem_cons_of_mem _ (ih (by rw [hl]; exact h))
    | none =>
      rw [hl] at h
      by_cases hk : kv.1 = k
      · simp only [hk, if_true, Option.some.injEq] at h
        rw [← hk, ← h]; exact List.mem_cons_self _ _
      · simp [hk] at h

theorem lastWrite_isSome (ws : List (String × Entry)) (k : String) (v : Entry)
    (h : (k, v) ∈ ws) : ∃ x, lastWrite ws k = some x := by
  induction ws with
  | nil => cases h
  | cons kv ws ih =>
    rw [lastWrite]
    cases hl : lastWrite ws k with
    | some x => exact ⟨x, rfl⟩
    | none =>
      rcases List.mem_cons.1 h with h1 | h1
      · subst h1; exact ⟨v, by simp⟩
      · obtain ⟨x, hx⟩ := ih h1
        rw [hl] at hx; cases hx

theorem passWrites_mem (toLowerCase : String → String)
    (w : World) (users : List (String × User)) (ws : List (String × Entry))
    (h : passWrites toLowerCase w users = some ws) (kv : String × Entry) :
    kv ∈ ws ↔ ∃ u ∈ users, userWrite toLowerCase w u.1 u.2 = some (some kv) := by
  induction users generalizing ws with
  | nil =>
    simp only [passWrites, Option.some.injEq] at h
    subst h; simp
  | cons u us ih =>
    rw [passWrites] at h
    cases hu : userWrite toLowerCase w u.1 u.2 with
    | none => rw [hu] at h; simp at h
    | some o =>
      cases hp : passWrites toLowerCase w us with
      | none => rw [hu, hp] at h; cases o <;> simp at h
      | some ws2 =>
        rw [hu, hp] at h
        cases o with
        | none =>
          simp only [Option.some.injEq] at h
          subst h
          rw [ih ws2 hp]
          constructor
          · rintro ⟨u2, h2, h3⟩; exact ⟨u2, List.mem_cons_of_mem _ h2, h3⟩
          · rintro ⟨u2, h2, h3⟩
            rcases List.mem_cons.1 h2 with h4 | h4
            · subst h4; rw [hu] at h3; simp at h3
            · exact ⟨u2, h4, h3⟩
        | some kv2 =>
          simp only [Option.some.injEq] at h
          subst h
          rw [List.mem_cons, ih ws2 hp]
          constructor
          · rintro (h1 | ⟨u2, h2, h3⟩)
            · subst h1; exact ⟨u, List.mem_cons_self _ _, hu⟩
            · exact ⟨u2, List.mem_cons_of_mem _ h2, h3⟩
          · rintro ⟨u2, h2, h3⟩
            rcases List.mem_cons.1 h2 with h4 | h4
            · subst h4; rw [hu] at h3; simp at h3; exact Or.inl h3.symm
            · exact Or.inr ⟨u2, h4, h3⟩

theorem splitHash_empty : splitHash "" = [""] := by decide

/-- What `userWrite` does for a user whose riot id splits into a non-empty
name and tag. -/
theorem userWrite_valid (toLowerCase : String → String)
    (w : World) (uid : String) (user : User) (rid name tag : String)
    (rest : List String) (hr : user.riotId = some rid) (hs : splitHash rid = name :: tag :: rest)
    (hn : name ≠ "") (ht : tag ≠ "") :
    userWrite toLowerCase w uid user = (scoreFetched toLowerCase w name tag (fetchDailyMatches w name tag)).map
      (fun acc => some (rid, { points := mathRound acc.points, wins := acc.wins,
                               kills := acc.kills, discordId := uid })) := by
  have hne : rid ≠ "" := by
    intro h; rw [h, splitHash_empty] at hs; simp at hs
  unfold userWrite
  simp only [hr, hne, if_false, hs, hn, ht, or_self]
  cases scoreFetched toLowerCase w name tag (fetchDailyMatches w name tag) <;> rfl

/-- Every write of `userWrite` goes under the user's riot id and carries the
rounded accumulators of that riot id's name and tag. -/
theorem userWrite_some (toLowerCase : String → String)
    (w : World) (uid : String) (user : User) (k : String) (e : Entry)
    (h : userWrite toLowerCase w uid user = some (some (k, e))) :
    user.riotId = some k ∧ ∃ name tag rest acc, splitHash k = name :: tag :: rest ∧
      name ≠ "" ∧ tag ≠ "" ∧
      scoreFetched toLowerCase w name tag (fetchDailyMatches w name tag) = some acc ∧
      e = { points := mathRound acc.points, wins := acc.wins, kills := acc.kills,
            discordId := uid } := by
  unfold userWrite at h
  cases hr : user.riotId with
  | none => rw [hr] at h; simp at h
  | some rid =>
    rw [hr] at h
    by_cases hne : rid = ""
    · simp [hne] at h
    · simp only [hne, if_false] at h
      cases hs : splitHash rid with
      | nil => rw [hs] at h; simp at h
      | cons name l =>
        cases l with
        | nil => rw [hs] at h; simp at h
        | cons tag rest =>
          rw [hs] at h
          simp only at h
          by_cases hnt : name = "" ∨ tag = ""
          · simp [hnt] at h
          · simp only [hnt, if_false] at h
            cases ha : scoreFetched toLowerCase w name tag (fetchDailyMatches w name tag) with
            | none => rw [ha] at h; simp at h
            | some acc =>
              rw [ha] at h
              simp only [Option.some.injEq, Prod.mk.injEq] at h
              obtain ⟨h1, h2⟩ := h
              subst h1
              refine ⟨rfl, name, tag, rest, acc, hs, ?_, ?_, ha, h2.symm⟩
              · exact fun e => hnt (Or.inl e)
              · exact fun e => hnt (Or.inr e)

theorem lacksKey_iff {α : Type} (o : List (String × α)) (k : String) :
    lacksKey o k = true ↔ getKey o k = none ∧ k ∉ objectPrototypeKeys := by
  unfold lacksKey
  rw [Bool.and_eq_true, Option.isNone_iff_eq_none, decide_eq_true_iff]

theorem getKey_ensureUser (scores : List (String × Entry)) (u : String × User) (k : String)
    (e : Entry) (h : getKey scores k = some e) : getKey (ensureUser scores u) k = some e := by
  unfold ensureUser
  cases hr : u.2.riotId with
  | none => exact h
  | some rid =>
    simp only
    split
    · rename_i hc
      have hne : rid ≠ k := by
        intro e2; subst e2
        have := ((lacksKey_iff scores rid).1 hc.2).1
        rw [h] at this; cases this
      rw [getKey_assign_of_ne _ _ _ _ hne]; exact h
    · exact h

theorem getKey_foldl_ensureUser (users : List (String × User)) (scores : List (String × Entry))
    (k : String) (e : Entry) (h : getKey scores k = some e) :
    getKey (users.foldl ensureUser scores) k = some e := by
  induction users generalizing scores with
  | nil => exact h
  | cons u us ih => exact ih _ (getKey_ensureUser scores u k e h)

/-- The scoring loop raises as soon as it raises for one user. -/
theorem passWrites_raises (toLowerCase : String → String)
    (w : World) (users : List (String × User)) (u : String × User)
    (hu : u ∈ users) (h : userWrite toLowerCase w u.1 u.2 = none) : passWrites toLowerCase w users = none := by
  induction users with
  | nil => cases hu
  | cons u2 us ih =>
    rw [passWrites]
    rcases List.mem_cons.1 hu with h1 | h1
    · subst h1
      rw [h]
    · rw [ih h1]
      cases userWrite toLowerCase w u2.1 u2.2 with
      | none => rfl
      | some o => cases o <;> rfl

/-- After a completed pass, the entry of a linked identity with a well-formed
riot id holds the rounded accumulators of its match window. -/
theorem updateScores_entry (toLowerCase : String → String)
    (w : World) (d d2 : LeaderboardData) (users : List (String × User))
    (uid : String) (user : User) (rid name tag : String) (rest : List String)
    (hu : w.users = some users) (hmem : (uid, user) ∈ users)
    (hr : user.riotId = some rid) (hs : splitHash rid = name :: tag :: rest)
    (hn : name ≠ "") (ht : tag ≠ "") (hd : updateScores toLowerCase w d = some d2) :
    ∃ acc e, scoreFetched toLowerCase w name tag (fetchDailyMatches w name tag) = some acc ∧
      getKey d2.dailyScores rid = some e ∧ e.points = mathRound acc.points ∧
      e.wins = acc.wins ∧ e.kills = acc.kills := by
  rw [updateScores_eq toLowerCase w d users hu] at hd
  cases hp : passWrites toLowerCase w users with
  | none => rw [hp] at hd; simp at hd
  | some ws =>
    rw [hp] at hd
    simp only [Option.map_some', Option.some.injEq] at hd
    subst hd
    have hw := userWrite_valid toLowerCase w uid user rid name tag rest hr hs hn ht
    cases ha : scoreFetched toLowerCase w name tag (fetchDailyMatches w name tag) with
    | none =>
      rw [ha] at hw
      exact absurd (passWrites_raises toLowerCase w users (uid, user) hmem hw) (by rw [hp]; simp)
    | some acc =>
      rw [ha] at hw
      simp only [Option.map_some'] at hw
      have hin : (rid, Entry.mk (mathRound acc.points) acc.wins acc.kills uid) ∈ ws :=
        (passWrites_mem toLowerCase w users ws hp _).2 ⟨(uid, user), hmem, hw⟩
      obtain ⟨x, hx⟩ := lastWrite_isSome ws rid _ hin
      have hx2 := lastWrite_mem ws rid x hx
      obtain ⟨u2, _, hu2⟩ := (passWrites_mem toLowerCase w users ws hp _).1 hx2
      obtain ⟨_, name2, tag2, rest2, acc2, hs2, _, _, ha2, he2⟩ := userWrite_some toLowerCase w u2.1 u2.2 rid x hu2
      rw [hs] at hs2
      simp only [List.cons.injEq] at hs2
      obtain ⟨e1, e2, _⟩ := hs2
      subst e1 e2
      rw [ha] at ha2
      simp only [Option.some.injEq] at ha2
      subst ha2
      refine ⟨acc, x, rfl, ?_, ?_, ?_, ?_⟩
      · apply getKey_foldl_ensureUser
        rw [getKey_applyWrites, hx]
      · rw [he2]
      · rw [he2]
      · rw [he2]

theorem mathRound_zero : mathRound 0 = 0 := by
  unfold mathRound
  norm_num

theorem scoreMatch_points (toLowerCase : String → String)
    (w : World) (name tag : String) (acc acc2 : Acc) (m : MatchData)
    (h : scoreMatch toLowerCase w name tag acc m = some acc2) :
    acc2.points = acc.points +
      (match qualifyingPlayer toLowerCase w name tag m with
       | none => 0
       | some p => matchPoints toLowerCase m p) := by
  unfold scoreMatch at h
  unfold qualifyingPlayer
  cases hm : m.metadata with
  | none => simp only [hm, Option.some.injEq] at h ⊢; subst h; simp
  | some md =>
    simp only [hm] at h ⊢
    cases hg : md.game_start_patched with
    | none => simp only [hg, Option.some.injEq] at h ⊢; subst h; simp
    | some g =>
      simp only [hg] at h ⊢
      by_cases h1 : g = ""
      · simp only [h1, if_true, Option.some.injEq] at h
        subst h; simp [h1]
      · by_cases h2 : w.dateString g = w.today
        · simp only [h1, h2, if_false, ne_eq, not_true_eq_false, not_false_eq_true, and_self,
            if_true] at h ⊢
          cases hp : m.players with
          | none => simp [hp] at h
          | some all =>
            simp only [hp, Option.getD_some] at h ⊢
            cases hf : all.find? (isPlayer toLowerCase name tag) with
            | none => simp only [hf, Option.some.injEq] at h ⊢; subst h; simp
            | some p =>
              simp only [hf] at h ⊢
              by_cases hw : teamHasWon m (toLowerCase p.team) = true
              · simp only [hw, if_true, Option.some.injEq] at h
                subst h
                simp only [matchPoints, hw, if_true, POINTS_KILL, POINTS_ASSIST, POINTS_WIN]
                ring
              · simp only [hw, Bool.false_eq_true, if_false, Option.some.injEq] at h
                subst h
                simp only [matchPoints, hw, Bool.false_eq_true, if_false, POINTS_KILL,
                  POINTS_ASSIST]
                ring
        · simp only [h1, h2, if_false, ne_eq, not_false_eq_true, if_true,
            Option.some.injEq] at h
          subst h; simp [h1, h2]

theorem foldlM_scoreMatch_points (toLowerCase : String → String)
    (w : World) (name tag : String) (ms : List MatchData)
    (acc acc2 : Acc) (h : ms.foldlM (scoreMatch toLowerCase w name tag) acc = some acc2) :
    acc2.points = acc.points + exactPoints toLowerCase w name tag ms := by
  induction ms generalizing acc with
  | nil =>
    simp only [List.foldlM_nil, pure, Option.some.injEq] at h
    subst h; simp [exactPoints]
  | cons m ms ih =>
    rw [List.foldlM_cons] at h
    cases hs : scoreMatch toLowerCase w name tag acc m with
    | none => rw [hs] at h; simp at h
    | some acc1 =>
      rw [hs] at h
      have h1 := scoreMatch_points toLowerCase w name tag acc acc1 m hs
      have h2 := ih acc1 h
      rw [h2, h1]
      simp only [exactPoints, List.map_cons, List.sum_cons]
      ring

theorem scoreMatches_points (toLowerCase : String → String)
    (w : World) (name tag : String) (ms : List MatchData) (acc : Acc)
    (h : scoreMatches toLowerCase w name tag ms = some acc) : acc.points = exactPoints toLowerCase w name tag ms := by
  have := foldlM_scoreMatch_points toLowerCase w name tag ms _ acc h
  simpa using this

theorem scoreFetched_some (toLowerCase : String → String) (w : World) (name tag : String)
    (f : Fetched) (acc : Acc) (h : scoreFetched toLowerCase w name tag f = some acc) :
    f = Fetched.array f.toList ∧ scoreMatches toLowerCase w name tag f.toList = some acc := by
  cases f with
  | array ms => exact ⟨rfl, h⟩
  | other => cases h

/-! ## C1 -/

/-- C1, counterexample: `ann#eu1` holds 20 points for the current day, the
fetch for it fails, and the pass overwrites the entry with zeros instead of
keeping it. -/
theorem fetch_failure_overwrites_entry :
    snapshot20.lastUpdated = some failingWorld.today ∧
    getKey snapshot20.dailyScores "ann#eu1"
      = some { points := 20, wins := 2, kills := 10, discordId := "u1" } ∧
    failingWorld.upstream "ann" "eu1" = Upstream.error ∧
    updateScores asciiLower failingWorld snapshot20
      = some (annSnapshot { points := 0, wins := 0, kills := 0, discordId := "u1" }) := by
  decide!

/-- C1, amended: when the match fetch for a linked identity fails during a
recompute pass that completes, the identity's entry after the pass has
points 0, wins 0 and kills 0, whatever it held before. -/
theorem fetch_failure_zero_entry (toLowerCase : String → String)
    (w : World) (d d2 : LeaderboardData)
    (users : List (String × User)) (uid : String) (user : User) (rid name tag : String)
    (rest : List String) (hu : w.users = some users) (hmem : (uid, user) ∈ users)
    (hr : user.riotId = some rid) (hs : splitHash rid = name :: tag :: rest)
    (hn : name ≠ "") (ht : tag ≠ "") (hf : w.upstream name tag = Upstream.error)
    (hd : updateScores toLowerCase w d = some d2) :
    ∃ e, getKey d2.dailyScores rid = some e ∧ e.points = 0 ∧ e.wins = 0 ∧ e.kills = 0 := by
  obtain ⟨acc, e, ha, hk, hp, hw, hkl⟩ :=
    updateScores_entry toLowerCase w d d2 users uid user rid name tag rest hu hmem hr hs hn ht hd
  have hfetch : fetchDailyMatches w name tag = Fetched.array [] := by
    unfold fetchDailyMatches fetchAttempt; rw [hf]
  rw [hfetch] at ha
  simp only [scoreFetched, scoreMatches, List.foldlM_nil, pure, Option.some.injEq] at ha
  subst ha
  exact ⟨e, hk, by rw [hp]; exact mathRound_zero, hw, hkl⟩

/-- C1, witness: on the pass over `snapshot20` in which every fetch fails,
`ann#eu1` ends with points 0, wins 0 and kills 0. -/
theorem fetch_failure_zero_entry_witness :
    failingWorld.upstream "ann" "eu1" = Upstream.error ∧
    updateScores asciiLower failingWorld snapshot20
      = some (annSnapshot { points := 0, wins := 0, kills := 0, discordId := "u1" }) ∧
    ∃ e, getKey (annSnapshot { points := 0, wins := 0, kills := 0, discordId := "u1" }).dailyScores
        "ann#eu1" = some e ∧ e.points = 0 ∧ e.wins = 0 ∧ e.kills = 0 :=
  ⟨rfl, by decide!,
   fetch_failure_zero_entry asciiLower failingWorld snapshot20 _ annUsers "u1"
    { riotId := some "ann#eu1", nickname := none } "ann#eu1" "ann" "eu1" [] rfl
    (by decide) rfl (by decide) (by decide) (by decide) rfl (by decide!)⟩

/-! ## C2 -/

/-- C2, the code at the failing input: one match of today with no kill, one
assist and a loss sums to `0*1 + 1*0.5 + 0 = 1/2`, and the pass writes 1
point. -/
theorem points_written_not_exact_sum :
    exactPoints asciiLower oneAssistWorld "ann" "eu1" (fetchDailyMatches oneAssistWorld "ann" "eu1").toList = 1 / 2 ∧
    updateScores asciiLower oneAssistWorld snapshot20
      = some (annSnapshot { points := 1, wins := 0, kills := 0, discordId := "u1" }) ∧
    ((1 : Int) : ℚ) ≠ 1 / 2 := by
  decide!

/-- What the code writes: after a completed pass, the points written for a
linked identity are the sum, over the fetched matches dated on the current day key
in which the identity's player record is found, of
`kills*1 + assists*0.5 + (5 if that player's team has won)`, rounded to the
nearest integer with halves going up; matches of another day add nothing. -/
theorem points_written_rounded_sum (toLowerCase : String → String)
    (w : World) (d d2 : LeaderboardData)
    (users : List (String × User)) (uid : String) (user : User) (rid name tag : String)
    (rest : List String) (hu : w.users = some users) (hmem : (uid, user) ∈ users)
    (hr : user.riotId = some rid) (hs : splitHash rid = name :: tag :: rest)
    (hn : name ≠ "") (ht : tag ≠ "") (hd : updateScores toLowerCase w d = some d2) :
    ∃ e, getKey d2.dailyScores rid = some e ∧
      e.points = mathRound (exactPoints toLowerCase w name tag (fetchDailyMatches w name tag).toList) := by
  obtain ⟨acc, e, ha, hk, hp, _, _⟩ :=
    updateScores_entry toLowerCase w d d2 users uid user rid name tag rest hu hmem hr hs hn ht hd
  exact ⟨e, hk, by rw [hp, scoreMatches_points toLowerCase w name tag _ acc
    (scoreFetched_some toLowerCase w name tag _ acc ha).2]⟩

/-- Two matches of today (5 kills, 2 assists, win; 3 kills, 0 assists, loss)
and one of the day before give 14 points. -/
theorem points_written_rounded_sum_witness :
    exactPoints asciiLower twoMatchWorld "ann" "eu1" (fetchDailyMatches twoMatchWorld "ann" "eu1").toList = 14 ∧
    updateScores asciiLower twoMatchWorld snapshot20
      = some (annSnapshot { points := 14, wins := 1, kills := 8, discordId := "u1" }) ∧
    ∃ e, getKey (annSnapshot { points := 14, wins := 1, kills := 8, discordId := "u1" }).dailyScores
        "ann#eu1" = some e ∧
      e.points = mathRound (exactPoints asciiLower twoMatchWorld "ann" "eu1"
        (fetchDailyMatches twoMatchWorld "ann" "eu1").toList) :=
  ⟨by decide!, by decide!,
   points_written_rounded_sum asciiLower twoMatchWorld snapshot20 _ annUsers "u1"
    { riotId := some "ann#eu1", nickname := none } "ann#eu1" "ann" "eu1" [] rfl
    (by decide) rfl (by decide) (by decide) (by decide) (by decide!)⟩

/-! ## C3 -/

theorem assign_of_mem {α : Type} (o : List (String × α)) (k : String) (v : α)
    (h : k ∈ o.map Prod.fst) :
    assign o k v = o.map (fun p => if p.1 == k then (k, v) else p) := by
  unfold assign
  rw [if_pos ((any_key_iff o k).2 h)]

theorem assign_of_not_mem {α : Type} (o : List (String × α)) (k : String) (v : α)
    (h : k ∉ o.map Prod.fst) :
    ∃ pre post, o = pre ++ post ∧ assign o k v = pre ++ (k, v) :: post := by
  unfold assign
  rw [if_neg (fun hc => h ((any_key_iff o k).1 hc))]
  exact insertKey_split o k v

theorem map_fst_replace {α : Type} (o : List (String × α)) (k : String) (v : α) :
    (o.map (fun p => if p.1 == k then (k, v) else p)).map Prod.fst = o.map Prod.fst := by
  rw [List.map_map]
  apply List.map_congr_left
  intro p _
  by_cases h : p.1 = k <;> simp [h]

theorem snd_of_mem_assign {α : Type} (o : List (String × α)) (k : String) (v : α)
    (p : String × α) (hp : p ∈ assign o k v) (hk : p.1 = k) : p.2 = v := by
  by_cases h : k ∈ o.map Prod.fst
  · rw [assign_of_mem o k v h, List.mem_map] at hp
    obtain ⟨q, _, hq⟩ := hp
    by_cases hqk : q.1 = k
    · simp only [hqk, beq_self_eq_true, if_true] at hq
      rw [← hq]
    · have hb : (q.1 == k) = false := by simpa using hqk
      simp only [hb, Bool.false_eq_true, if_false] at hq
      rw [hq] at hqk; exact absurd hk hqk
  · obtain ⟨pre, post, ho, ha⟩ := assign_of_not_mem o k v h
    rw [ha] at hp
    rcases List.mem_append.1 hp with hp | hp
    · exact absurd (hk ▸ List.mem_map_of_mem Prod.fst
        (ho ▸ List.mem_append_left post hp)) h
    · rcases List.mem_cons.1 hp with hp | hp
      · rw [hp]
      · exact absurd (hk ▸ List.mem_map_of_mem Prod.fst
          (ho ▸ List.mem_append_right pre hp)) h

theorem mem_of_mem_assign {α : Type} (o : List (String × α)) (k : String) (v : α)
    (p : String × α) (hp : p ∈ assign o k v) (hk : p.1 ≠ k) : p ∈ o := by
  by_cases h : k ∈ o.map Prod.fst
  · rw [assign_of_mem o k v h, List.mem_map] at hp
    obtain ⟨q, hq1, hq⟩ := hp
    by_cases hqk : q.1 = k
    · simp only [hqk, beq_self_eq_true, if_true] at hq
      rw [← hq] at hk; exact absurd rfl hk
    · have hb : (q.1 == k) = false := by simpa using hqk
      simp only [hb, Bool.false_eq_true, if_false] at hq
      rw [← hq]; exact hq1
  · obtain ⟨pre, post, ho, ha⟩ := assign_of_not_mem o k v h
    rw [ha] at hp
    rw [ho]
    rcases List.mem_append.1 hp with hp | hp
    · exact List.mem_append_left post hp
    · rcases List.mem_cons.1 hp with hp | hp
      · rw [hp] at hk; exact absurd rfl hk
      · exact List.mem_append_right pre hp

theorem mem_assign_self {α : Type} (o : List (String × α)) (k : String) (v : α) :
    (k, v) ∈ assign o k v := by
  have h := getKey_assign_self o k v
  unfold getKey at h
  cases hf : (assign o k v).find? (fun p => p.1 == k) with
  | none => rw [hf] at h; cases h
  | some p =>
    rw [hf] at h
    simp only [Option.map_some', Option.some.injEq] at h
    have hm := List.mem_of_find?_eq_some hf
    have hk := List.find?_some hf
    simp only [beq_iff_eq] at hk
    have : p = (k, v) := Prod.ext hk h
    rw [← this]
    exact hm

theorem mem_assign_of_ne {α : Type} (o : List (String × α)) (k : String) (v : α)
    (p : String × α) (hp : p ∈ o) (hk : p.1 ≠ k) : p ∈ assign o k v := by
  by_cases h : k ∈ o.map Prod.fst
  · rw [assign_of_mem o k v h, List.mem_map]
    have hb : (p.1 == k) = false := by simpa using hk
    exact ⟨p, hp, by simp [hb]⟩
  · obtain ⟨pre, post, ho, ha⟩ := assign_of_not_mem o k v h
    rw [ha]
    rw [ho] at hp
    rcases List.mem_append.1 hp with hp | hp
    · exact List.mem_append_left _ hp
    · exact List.mem_append_right _ (List.mem_cons_of_mem _ hp)

theorem applyWrites_append_single (ws : List (String × Entry)) (kv : String × Entry)
    (m : List (String × Entry)) :
    applyWrites (ws ++ [kv]) m = assign (applyWrites ws m) kv.1 kv.2 := by
  simp [applyWrites, List.foldl_append]

theorem lastWrite_append_single (ws : List (String × Entry)) (kv : String × Entry) (k : String) :
    lastWrite (ws ++ [kv]) k = if kv.1 = k then some kv.2 else lastWrite ws k := by
  induction ws with
  | nil => simp [lastWrite]
  | cons x ws ih =>
    rw [List.cons_append, lastWrite, ih, lastWrite]
    by_cases h : kv.1 = k
    · simp [h]
    · simp [h]

/-- Every pair left by a run of writes agrees with the last write under its key. -/
theorem snd_of_mem_applyWrites (ws : List (String × Entry)) (m : List (String × Entry))
    (p : String × Entry) (hp : p ∈ applyWrites ws m) (v : Entry)
    (hv : lastWrite ws p.1 = some v) : p.2 = v := by
  induction ws using List.reverseRecOn generalizing p v with
  | nil => simp [lastWrite] at hv
  | append_singleton ws kv ih =>
    rw [applyWrites_append_single] at hp
    rw [lastWrite_append_single] at hv
    by_cases hk : kv.1 = p.1
    · simp only [hk, if_true, Option.some.injEq] at hv
      rw [← hv]
      exact snd_of_mem_assign _ _ _ p hp hk.symm
    · simp only [hk, if_false] at hv
      exact ih p (mem_of_mem_assign _ _ _ p hp (fun e => hk e.symm)) v hv

/-- Writes under keys that are all present rewrite values in place. -/
theorem applyWrites_of_covered (ws : List (String × Entry)) (m : List (String × Entry))
    (h : ∀ kv ∈ ws, kv.1 ∈ m.map Prod.fst) :
    applyWrites ws m = m.map (fun p => (p.1, (lastWrite ws p.1).getD p.2)) := by
  induction ws generalizing m with
  | nil => simp [applyWrites, lastWrite]
  | cons kv ws ih =>
    show applyWrites ws (assign m kv.1 kv.2) = _
    have hk : kv.1 ∈ m.map Prod.fst := h kv (List.mem_cons_self _ _)
    rw [assign_of_mem m kv.1 kv.2 hk, ih, List.map_map]
    · apply List.map_congr_left
      intro p _
      simp only [Function.comp, lastWrite]
      by_cases hp : p.1 = kv.1
      · simp only [hp, beq_self_eq_true, if_true]
        cases lastWrite ws kv.1 <;> simp
      · have hb : (p.1 == kv.1) = false := by simpa using hp
        have hp2 : ¬ kv.1 = p.1 := fun e => hp e.symm
        simp only [hb, Bool.false_eq_true, if_false, hp2]
        cases lastWrite ws p.1 <;> simp
    · intro kv2 h2
      rw [map_fst_replace]
      exact h kv2 (List.mem_cons_of_mem _ h2)

theorem mem_keys_applyWrites (ws : List (String × Entry)) (m : List (String × Entry))
    (kv : String × Entry) (h : kv ∈ ws) : kv.1 ∈ (applyWrites ws m).map Prod.fst := by
  by_contra hc
  have h1 := (getKey_eq_none_iff _ _).2 hc
  rw [getKey_applyWrites] at h1
  obtain ⟨x, hx⟩ := lastWrite_isSome ws kv.1 kv.2 h
  rw [hx] at h1
  cases h1

theorem mem_keys_foldl_ensureUser (users : List (String × User)) (m : List (String × Entry))
    (k : String) (h : k ∈ m.map Prod.fst) : k ∈ (users.foldl ensureUser m).map Prod.fst := by
  by_contra hc
  have h1 := (getKey_eq_none_iff _ _).2 hc
  cases hg : getKey m k with
  | none => exact (getKey_eq_none_iff _ _).1 hg h
  | some e =>
    rw [getKey_foldl_ensureUser users m k e hg] at h1
    cases h1

/-- A pair left by the loop "Ensure all users are in the list" was there
before or sits under a key that was absent. -/
theorem mem_foldl_ensureUser (users : List (String × User)) (m : List (String × Entry))
    (p : String × Entry) (hp : p ∈ users.foldl ensureUser m) :
    p ∈ m ∨ p.1 ∉ m.map Prod.fst := by
  induction users generalizing m with
  | nil => exact Or.inl hp
  | cons u us ih =>
    have h1 := ih (ensureUser m u) hp
    unfold ensureUser at h1
    cases hr : u.2.riotId with
    | none => simpa [hr] using h1
    | some rid =>
      simp only [hr] at h1
      by_cases hc : rid ≠ "" ∧ lacksKey m rid = true
      · rw [if_pos hc] at h1
        have hnone : rid ∉ m.map Prod.fst :=
          (getKey_eq_none_iff m rid).1 ((lacksKey_iff m rid).1 hc.2).1
        rcases h1 with h1 | h1
        · by_cases hk : p.1 = rid
          · exact Or.inr (by rw [hk]; exact hnone)
          · exact Or.inl (mem_of_mem_assign m rid _ p h1 hk)
        · right
          intro hin
          apply h1
          obtain ⟨q, hq, hq1⟩ := List.mem_map.1 hin
          have hqne : q.1 ≠ rid := by
            intro e
            exact hnone (e ▸ List.mem_map_of_mem Prod.fst hq)
          rw [← hq1]
          exact List.mem_map_of_mem Prod.fst (mem_assign_of_ne m rid _ q hq hqne)
      · rw [if_neg hc] at h1
        exact h1

theorem ensureUser_of_present (m : List (String × Entry)) (u : String × User)
    (h : ∀ rid, u.2.riotId = some rid → rid ≠ "" → rid ∉ objectPrototypeKeys →
      rid ∈ m.map Prod.fst) :
    ensureUser m u = m := by
  unfold ensureUser
  cases hr : u.2.riotId with
  | none => rfl
  | some rid =>
    simp only
    by_cases hne : rid = ""
    · simp [hne]
    · rw [if_neg]
      rintro ⟨_, h2⟩
      obtain ⟨h3, h4⟩ := (lacksKey_iff m rid).1 h2
      exact (getKey_eq_none_iff m rid).1 h3 (h rid hr hne h4)

theorem foldl_ensureUser_of_present (users : List (String × User)) (m : List (String × Entry))
    (h : ∀ u ∈ users, ∀ rid, u.2.riotId = some rid → rid ≠ "" → rid ∉ objectPrototypeKeys →
      rid ∈ m.map Prod.fst) :
    users.foldl ensureUser m = m := by
  induction users with
  | nil => rfl
  | cons u us ih =>
    rw [List.foldl_cons, ensureUser_of_present m u (h u (List.mem_cons_self _ _))]
    exact ih (fun u2 h2 => h u2 (List.mem_cons_of_mem _ h2))

theorem mem_keys_ensureUser (m : List (String × Entry)) (u : String × User) (rid : String)
    (hr : u.2.riotId = some rid) (hne : rid ≠ "") (hproto : rid ∉ objectPrototypeKeys) :
    rid ∈ (ensureUser m u).map Prod.fst := by
  by_contra hc
  have h1 := (getKey_eq_none_iff _ _).2 hc
  unfold ensureUser at h1
  simp only [hr] at h1
  by_cases hg : lacksKey m rid = true
  · rw [if_pos ⟨hne, hg⟩, getKey_assign_self] at h1
    cases h1
  · rw [if_neg (fun hx => hg hx.2)] at h1
    exact hg ((lacksKey_iff m rid).2 ⟨h1, hproto⟩)

/-- After the loop "Ensure all users are in the list" every user with a
non-empty riot id that is no property name of `Object.prototype` has an
entry. -/
theorem linked_mem_keys_foldl_ensureUser (users : List (String × User))
    (m : List (String × Entry)) (u : String × User) (hu : u ∈ users) (rid : String)
    (hr : u.2.riotId = some rid) (hne : rid ≠ "") (hproto : rid ∉ objectPrototypeKeys) :
    rid ∈ (users.foldl ensureUser m).map Prod.fst := by
  induction users generalizing m with
  | nil => cases hu
  | cons u2 us ih =>
    rw [List.foldl_cons]
    rcases List.mem_cons.1 hu with h1 | h1
    · subst h1
      exact mem_keys_foldl_ensureUser us _ rid (mem_keys_ensureUser m u rid hr hne hproto)
    · exact ih (ensureUser m u2) h1

/-- The writes of a pass and its ensure loop leave a dictionary that the same
writes and ensure loop do not change. -/
theorem pass_fixed (users : List (String × User)) (ws : List (String × Entry))
    (m : List (String × Entry)) :
    users.foldl ensureUser (applyWrites ws (users.foldl ensureUser (applyWrites ws m)))
      = users.foldl ensureUser (applyWrites ws m) := by
  have hcov : ∀ kv ∈ ws, kv.1 ∈ (users.foldl ensureUser (applyWrites ws m)).map Prod.fst :=
    fun kv h => mem_keys_foldl_ensureUser users _ _ (mem_keys_applyWrites ws m kv h)
  have hfix : applyWrites ws (users.foldl ensureUser (applyWrites ws m))
      = users.foldl ensureUser (applyWrites ws m) := by
    rw [applyWrites_of_covered ws _ hcov]
    conv_rhs => rw [← List.map_id (users.foldl ensureUser (applyWrites ws m))]
    apply List.map_congr_left
    intro p hp
    cases hl : lastWrite ws p.1 with
    | none => rfl
    | some v =>
      rcases mem_foldl_ensureUser users _ p hp with h1 | h1
      · have := snd_of_mem_applyWrites ws m p h1 v hl
        simp [← this]
      · exact absurd (mem_keys_applyWrites ws m (p.1, v) (lastWrite_mem ws p.1 v hl)) h1
  rw [hfix]
  apply foldl_ensureUser_of_present
  intro u hu rid hr hne hproto
  exact linked_mem_keys_foldl_ensureUser users _ u hu rid hr hne hproto

theorem loadData_fixed (d : LeaderboardData)
    (h : d.channelId = none ∨ d.channelId = some "") : loadData d = d := by
  unfold loadData
  rcases h with h | h <;> simp [h]

theorem loadData_channelId (d : LeaderboardData) :
    (loadData d).channelId = none ∨ (loadData d).channelId = some "" := by
  unfold loadData
  cases h : d.channelId with
  | none => simp [h]
  | some c =>
    by_cases hc : c = ""
    · simp [hc, h]
    · simp [hc]

theorem resetIfNewDay_channelId (today : String) (d : LeaderboardData) :
    (resetIfNewDay today d).channelId = d.channelId := by
  unfold resetIfNewDay
  split <;> rfl

theorem resetIfNewDay_lastUpdated (today : String) (d : LeaderboardData) :
    (resetIfNewDay today d).lastUpdated = some today := by
  unfold resetIfNewDay
  split
  · rfl
  · rename_i h; simpa using h

theorem resetIfNewDay_fixed (today : String) (d : LeaderboardData)
    (h : d.lastUpdated = some today) : resetIfNewDay today d = d := by
  unfold resetIfNewDay
  simp [h]

/-- C3: recompute is idempotent.  A pass that completes with snapshot `d2`,
run again on `d2` with the same user map, day key and upstream answers,
completes with `d2` again: day key, channels and every entry are the same,
so scores are overwritten and never added up across passes. -/
theorem updateScores_idempotent (toLowerCase : String → String) (w : World) (d d2 : LeaderboardData)
    (h : updateScores toLowerCase w d = some d2) : updateScores toLowerCase w d2 = some d2 := by
  cases hu : w.users with
  | none =>
    unfold updateScores at h ⊢
    simp only [hu, Option.some.injEq] at h ⊢
    rw [← h]
    exact loadData_fixed _ (loadData_channelId d)
  | some users =>
    rw [updateScores_eq toLowerCase w d users hu] at h
    rw [updateScores_eq toLowerCase w d2 users hu]
    cases hp : passWrites toLowerCase w users with
    | none => rw [hp] at h; cases h
    | some ws =>
      rw [hp] at h
      simp only [Option.map_some', Option.some.injEq] at h ⊢
      have h1 : loadData d2 = d2 := by
        apply loadData_fixed
        rw [← h]
        show (resetIfNewDay w.today (loadData d)).channelId = none ∨ _
        rw [resetIfNewDay_channelId]
        exact loadData_channelId d
      have h2 : resetIfNewDay w.today d2 = d2 := by
        apply resetIfNewDay_fixed
        rw [← h]
        exact resetIfNewDay_lastUpdated w.today (loadData d)
      rw [h1, h2]
      rw [← h]
      simp only [pass_fixed]

/-- C3, witness: the pass over two matches of today, run on its own result. -/
theorem updateScores_idempotent_witness :
    updateScores asciiLower twoMatchWorld snapshot20
      = some (annSnapshot { points := 14, wins := 1, kills := 8, discordId := "u1" }) ∧
    updateScores asciiLower twoMatchWorld (annSnapshot { points := 14, wins := 1, kills := 8, discordId := "u1" })
      = some (annSnapshot { points := 14, wins := 1, kills := 8, discordId := "u1" }) :=
  ⟨by decide!, updateScores_idempotent asciiLower twoMatchWorld snapshot20 _ (by decide!)⟩

/-! ## C4 -/

/-- C4, counterexample: while `users.json` does not exist, `updateScores`
returns before the day reset; the snapshot of the day before keeps its day key
and its 20-point entry, whereas from the empty entries map it ends empty. -/
theorem stale_snapshot_kept_without_users :
    staleSnapshot.lastUpdated ≠ some noUsersWorld.today ∧
    updateScores asciiLower noUsersWorld staleSnapshot = some staleSnapshot ∧
    updateScores asciiLower noUsersWorld { staleSnapshot with dailyScores := [] }
      = some { staleSnapshot with dailyScores := [] } ∧
    staleSnapshot.dailyScores ≠ [] := by
  decide

/-- C4, amended: when `users.json` exists and the snapshot's day key differs
from the current day key, `updateScores` does exactly what it does from the
empty entries map (so nothing of the previous day survives in any entry), and
a pass that completes leaves the day key equal to the current day key. -/
theorem day_boundary_reset (toLowerCase : String → String)
    (w : World) (d : LeaderboardData) (users : List (String × User))
    (hu : w.users = some users) (hday : d.lastUpdated ≠ some w.today) :
    updateScores toLowerCase w d = updateScores toLowerCase w { d with dailyScores := [] } ∧
    ∀ d2, updateScores toLowerCase w d = some d2 → d2.lastUpdated = some w.today := by
  constructor
  · have hl : loadData { d with dailyScores := [] } = { loadData d with dailyScores := [] } := by
      obtain ⟨cid, chans, lu, ds⟩ := d
      unfold loadData
      cases cid with
      | none => rfl
      | some c => by_cases hc : c = "" <;> simp [hc]
    have hlu : (loadData d).lastUpdated = d.lastUpdated := by
      obtain ⟨cid, chans, lu, ds⟩ := d
      unfold loadData
      cases cid with
      | none => rfl
      | some c => by_cases hc : c = "" <;> simp [hc]
    have hr : resetIfNewDay w.today { loadData d with dailyScores := [] }
        = resetIfNewDay w.today (loadData d) := by
      unfold resetIfNewDay
      simp only [hlu]
      rw [if_pos hday, if_pos hday]
    rw [updateScores_eq toLowerCase w d users hu, updateScores_eq toLowerCase w _ users hu, hl, hr]
  · intro d2 h
    rw [updateScores_eq toLowerCase w d users hu] at h
    cases hp : passWrites toLowerCase w users with
    | none => rw [hp] at h; cases h
    | some ws =>
      rw [hp] at h
      simp only [Option.map_some', Option.some.injEq] at h
      rw [← h]
      exact resetIfNewDay_lastUpdated w.today (loadData d)

/-- C4, witness: the pass over two matches of today on the snapshot of the day
before. -/
theorem day_boundary_reset_witness :
    staleSnapshot.lastUpdated ≠ some twoMatchWorld.today ∧
    updateScores asciiLower twoMatchWorld staleSnapshot
      = some (annSnapshot { points := 14, wins := 1, kills := 8, discordId := "u1" }) ∧
    (updateScores asciiLower twoMatchWorld staleSnapshot
        = updateScores asciiLower twoMatchWorld { staleSnapshot with dailyScores := [] } ∧
      ∀ d2, updateScores asciiLower twoMatchWorld staleSnapshot = some d2 →
        d2.lastUpdated = some twoMatchWorld.today) :=
  ⟨by decide, by decide!, day_boundary_reset asciiLower twoMatchWorld staleSnapshot annUsers rfl (by decide)⟩

/-! ## Distribution pass: auxiliary facts -/

theorem loadData_dailyScores (d : LeaderboardData) : (loadData d).dailyScores = d.dailyScores := by
  obtain ⟨cid, chans, lu, ds⟩ := d
  unfold loadData
  cases cid with
  | none => rfl
  | some c => by_cases hc : c = "" <;> simp [hc]

theorem mem_postLeaderboard (c : Client) (d : LeaderboardData) (g : String) (del : Delivery)
    (h : (g, del) ∈ postLeaderboard c d) :
    ∃ chans channelId, (loadData d).channels = some chans ∧ (g, channelId) ∈ chans ∧
      del = postToGuild c (allScores (loadData d)) channelId := by
  unfold postLeaderboard at h
  cases hc : (loadData d).channels with
  | none => simp [hc] at h
  | some chans =>
    simp only [hc] at h
    by_cases hl : chans.length = 0
    · simp [hl] at h
    · rw [if_neg hl, List.mem_map] at h
      obtain ⟨gc, hgc, he⟩ := h
      simp only [Prod.mk.injEq] at he
      refine ⟨chans, gc.2, rfl, ?_, he.2.symm⟩
      rw [← he.1]; exact hgc

theorem postToGuild_rows (c : Client) (all : List (String × Entry)) (channelId : String)
    (rows : List Row)
    (h : postToGuild c all channelId = Delivery.posted rows ∨
      postToGuild c all channelId = Delivery.sendFailed rows) :
    ∃ guild, c.fetchChannel channelId = some guild ∧ guildScores c guild all ≠ [] ∧
      rows = addFields 1 ((guildScores c guild all).take 15) := by
  unfold postToGuild at h
  cases hc : c.fetchChannel channelId with
  | none => simp [hc] at h
  | some guild =>
    simp only [hc] at h
    by_cases hl : (guildScores c guild all).length = 0
    · simp [hl] at h
    · rw [if_neg hl] at h
      refine ⟨guild, rfl, fun e => hl (by rw [e]; rfl), ?_⟩
      by_cases hs : c.send channelId = true
      · simp only [hs, if_true, Delivery.posted.injEq, reduceCtorEq, or_false] at h
        exact h.symm
      · simp only [hs, if_false, Delivery.sendFailed.injEq, reduceCtorEq, false_or,
          Bool.false_eq_true] at h
        exact h.symm

theorem mem_guildScores (c : Client) (guild : String) (all : List (String × Entry)) (item : Item)
    (h : item ∈ guildScores c guild all) :
    (item.riotId, item.stats) ∈ all ∧
      c.fetchMember guild item.stats.discordId = some item.member := by
  induction all with
  | nil => simp [guildScores] at h
  | cons p all ih =>
    obtain ⟨riotId, stats⟩ := p
    rw [guildScores] at h
    cases hm : c.fetchMember guild stats.discordId with
    | none =>
      simp only [hm] at h
      exact ⟨List.mem_cons_of_mem _ (ih h).1, (ih h).2⟩
    | some member =>
      simp only [hm] at h
      rcases List.mem_cons.1 h with h1 | h1
      · subst h1
        exact ⟨List.mem_cons_self _ _, hm⟩
      · exact ⟨List.mem_cons_of_mem _ (ih h1).1, (ih h1).2⟩

theorem map_item_addFields (rank : Nat) (items : List Item) :
    (addFields rank items).map Row.item = items := by
  induction items generalizing rank with
  | nil => rfl
  | cons i items ih => simp [addFields, ih]

theorem map_rank_addFields (rank : Nat) (items : List Item) :
    (addFields rank items).map Row.rank = List.range' rank items.length := by
  induction items generalizing rank with
  | nil => rfl
  | cons i items ih => simp [addFields, ih, List.range'_succ]

/-- A stable sort leaves in place the elements of a class on which the order
holds throughout. -/
theorem filter_insertionSort {α : Type} (r : α → α → Prop) [DecidableRel r] (p : α → Bool)
    (hp : ∀ a b, p a = true → p b = true → r a b) (l : List α) :
    (l.insertionSort r).filter p = l.filter p := by
  have hpw : (l.filter p).Pairwise r := by
    rw [List.pairwise_iff_forall_sublist]
    intro a b hab
    have ha : a ∈ l.filter p := hab.subset (by simp)
    have hb : b ∈ l.filter p := hab.subset (by simp)
    exact hp a b (List.mem_filter.1 ha).2 (List.mem_filter.1 hb).2
  have hsub : List.Sublist (l.filter p) (l.insertionSort r) :=
    List.sublist_insertionSort hpw (List.filter_sublist l)
  have hsub2 : List.Sublist (l.filter p) ((l.insertionSort r).filter p) := by
    have := hsub.filter p
    simpa [List.filter_filter] using this
  have hlen : (l.filter p).length = ((l.insertionSort r).filter p).length :=
    (((List.perm_insertionSort r l).filter p).length_eq).symm
  exact (hsub2.eq_of_length hlen).symm

/-! ## C5 -/

/-- C5: tenant isolation.  For each configured guild, every identity of the
list `postLeaderboard` builds for it (`guildScores`) has a `discordId` that
passes that guild's membership check, and every row of the view it sends
shows an identity of that list. -/
theorem tenant_isolation (c : Client) (d : LeaderboardData) (g : String) (del : Delivery)
    (h : (g, del) ∈ postLeaderboard c d) :
    ∃ chans channelId, (loadData d).channels = some chans ∧ (g, channelId) ∈ chans ∧
      ∀ guild, c.fetchChannel channelId = some guild →
        (∀ item ∈ guildScores c guild (allScores (loadData d)),
          c.fetchMember guild item.stats.discordId = some item.member) ∧
        (∀ rows, del = Delivery.posted rows ∨ del = Delivery.sendFailed rows →
          ∀ row ∈ rows, row.item ∈ guildScores c guild (allScores (loadData d)) ∧
            c.fetchMember guild row.item.stats.discordId = some row.item.member) := by
  obtain ⟨chans, channelId, hc, hg, hdel⟩ := mem_postLeaderboard c d g del h
  refine ⟨chans, channelId, hc, hg, fun guild hguild => ⟨?_, ?_⟩⟩
  · exact fun item hi => (mem_guildScores c guild _ item hi).2
  · intro rows hrows row hrow
    rw [hdel] at hrows
    obtain ⟨guild2, hg2, _, hr⟩ := postToGuild_rows c _ channelId rows hrows
    rw [hguild] at hg2
    simp only [Option.some.injEq] at hg2
    subst hg2
    have hin : row.item ∈ (addFields 1 ((guildScores c guild
        (allScores (loadData d))).take 15)).map Row.item := by
      rw [← hr]; exact List.mem_map_of_mem Row.item hrow
    rw [map_item_addFields] at hin
    have hin2 := List.mem_of_mem_take hin
    exact ⟨hin2, (mem_guildScores c guild _ row.item hin2).2⟩

/-- C5, witness: in `threeEntrySnapshot`, `Guild One` is sent its two members
and not `bob#eu2`, who holds the most points but is no member of it. -/
theorem tenant_isolation_witness :
    (postLeaderboard twoGuildClient threeEntrySnapshot
        = [("g1", Delivery.posted guildOneRows), ("g2", Delivery.posted guildTwoRows),
           ("g3", Delivery.channelNotFound)] ∧
      twoGuildClient.fetchMember "Guild One" "u3" = none) ∧
    ∃ chans channelId, (loadData threeEntrySnapshot).channels = some chans ∧
      ("g1", channelId) ∈ chans ∧
      ∀ guild, twoGuildClient.fetchChannel channelId = some guild →
        (∀ item ∈ guildScores twoGuildClient guild (allScores (loadData threeEntrySnapshot)),
          twoGuildClient.fetchMember guild item.stats.discordId = some item.member) ∧
        (∀ rows, Delivery.posted guildOneRows = Delivery.posted rows ∨
            Delivery.posted guildOneRows = Delivery.sendFailed rows →
          ∀ row ∈ rows,
            row.item ∈ guildScores twoGuildClient guild (allScores (loadData threeEntrySnapshot)) ∧
            twoGuildClient.fetchMember guild row.item.stats.discordId = some row.item.member) :=
  ⟨by decide, tenant_isolation twoGuildClient threeEntrySnapshot "g1" _ (by decide!)⟩

/-! ## C6 -/

/-- A key that is no array index and is new to the object is enumerated
last. -/
theorem assign_new_plain_key {α : Type} (o : List (String × α)) (k : String) (v : α)
    (hidx : arrayIndex k = none) (hk : k ∉ o.map Prod.fst) : assign o k v = o ++ [(k, v)] := by
  unfold assign
  rw [if_neg (fun hc => hk ((any_key_iff o k).1 hc))]
  unfold insertKey
  rw [hidx]

/-- C6, counterexample: the pass creates the entry of `ann#eu1` in its scoring
loop and the entry of the riot id `123`, which has no tag, afterwards, in the
loop "Ensure all users are in the list"; both hold 0 points, and the ranked
list puts `123` first, because an object enumerates its array index keys
before its other keys. -/
theorem digit_key_ranked_before_earlier_entry :
    passWrites asciiLower digitWorld digitUsers
      = some [("ann#eu1", { points := 0, wins := 0, kills := 0, discordId := "u1" })] ∧
    (updateScores asciiLower digitWorld emptySnapshot).map LeaderboardData.dailyScores
      = some [("123", { points := 0, wins := 0, kills := 0, discordId := "u2" }),
              ("ann#eu1", { points := 0, wins := 0, kills := 0, discordId := "u1" })] ∧
    (updateScores asciiLower digitWorld emptySnapshot).map
        (fun d => (allScores (loadData d)).map Prod.fst)
      = some ["123", "ann#eu1"] := by
  decide!

/-- C6, amended: the ranked list `postLeaderboard` uses is a permutation of the
snapshot's entries, ordered by non-increasing points, and entries with equal
points keep the relative order in which the snapshot enumerates them
(`Object.entries`): for each points value the entries holding it appear exactly
as in the enumeration, and two entries `a`, `b` that follow each other in the
enumeration, `a` holding at least the points of `b`, follow each other in the
ranked list. -/
theorem ranking_sorted_stable (d : LeaderboardData) :
    (allScores (loadData d)).Perm d.dailyScores ∧
    (allScores (loadData d)).Sorted (fun a b => b.2.points ≤ a.2.points) ∧
    (∀ pts : Int, (allScores (loadData d)).filter (fun p => p.2.points = pts)
      = d.dailyScores.filter (fun p => p.2.points = pts)) ∧
    (∀ a b : String × Entry, b.2.points ≤ a.2.points → List.Sublist [a, b] d.dailyScores →
      List.Sublist [a, b] (allScores (loadData d))) := by
  have htotal : IsTotal (String × Entry) (fun a b => b.2.points ≤ a.2.points) :=
    ⟨fun a b => le_total b.2.points a.2.points⟩
  have htrans : IsTrans (String × Entry) (fun a b => b.2.points ≤ a.2.points) :=
    ⟨fun a b c hab hbc => le_trans hbc hab⟩
  unfold allScores
  rw [loadData_dailyScores]
  refine ⟨List.perm_insertionSort _ _, List.sorted_insertionSort _ _, ?_, ?_⟩
  · intro pts
    apply filter_insertionSort
    intro a b ha hb
    simp only [decide_eq_true_eq] at ha hb
    rw [ha, hb]
  · intro a b hab hsub
    exact List.pair_sublist_insertionSort hab hsub

/-- C6, witness: in `threeEntrySnapshot` the entry of `bob#eu2` with 9 points
comes first, and `ann#eu1` and `cid#eu3`, 5 points each, follow in the order of
the snapshot. -/
theorem ranking_sorted_stable_witness :
    (allScores (loadData threeEntrySnapshot)).map Prod.fst = ["bob#eu2", "ann#eu1", "cid#eu3"] ∧
    ((allScores (loadData threeEntrySnapshot)).Perm threeEntrySnapshot.dailyScores ∧
    (allScores (loadData threeEntrySnapshot)).Sorted (fun a b => b.2.points ≤ a.2.points) ∧
    (∀ pts : Int, (allScores (loadData threeEntrySnapshot)).filter (fun p => p.2.points = pts)
      = threeEntrySnapshot.dailyScores.filter (fun p => p.2.points = pts)) ∧
    (∀ a b : String × Entry, b.2.points ≤ a.2.points →
      List.Sublist [a, b] threeEntrySnapshot.dailyScores →
      List.Sublist [a, b] (allScores (loadData threeEntrySnapshot)))) :=
  ⟨by decide, ranking_sorted_stable threeEntrySnapshot⟩

/-! ## C7 -/

/-- C7: the view sent to a guild whose filtered ranked list has `n` entries
consists of the first `min 15 n` entries of that list, in the same order,
with ranks `1, 2, ..., min 15 n`. -/
theorem top_fifteen (c : Client) (d : LeaderboardData) (g : String) (rows : List Row)
    (h : (g, Delivery.posted rows) ∈ postLeaderboard c d) :
    ∃ chans channelId guild, (loadData d).channels = some chans ∧ (g, channelId) ∈ chans ∧
      c.fetchChannel channelId = some guild ∧
      rows.map Row.item = (guildScores c guild (allScores (loadData d))).take 15 ∧
      rows.map Row.rank
        = List.range' 1 (min 15 (guildScores c guild (allScores (loadData d))).length) ∧
      rows.length = min 15 (guildScores c guild (allScores (loadData d))).length := by
  obtain ⟨chans, channelId, hc, hg, hdel⟩ := mem_postLeaderboard c d g _ h
  obtain ⟨guild, hguild, _, hr⟩ := postToGuild_rows c _ channelId rows (Or.inl hdel.symm)
  refine ⟨chans, channelId, guild, hc, hg, hguild, ?_, ?_, ?_⟩
  · rw [hr, map_item_addFields]
  · rw [hr, map_rank_addFields, List.length_take]
  · have := congrArg List.length (map_item_addFields 1
      ((guildScores c guild (allScores (loadData d))).take 15))
    rw [List.length_map, List.length_take] at this
    rw [hr, this]

/-- C7, witness: of the seventeen entries of `crowdSnapshot`, all members of
`Guild One`, the fifteen with the most points are sent, ranked 1 to 15. -/
theorem top_fifteen_witness :
    ((guildScores openClient "Guild One" (allScores (loadData crowdSnapshot))).length = 17 ∧
      (addFields 1 ((guildScores openClient "Guild One"
          (allScores (loadData crowdSnapshot))).take 15)).map (fun r => (r.rank, r.item.riotId))
        = [(1, "q#x"), (2, "p#x"), (3, "o#x"), (4, "n#x"), (5, "m#x"), (6, "l#x"), (7, "k#x"),
           (8, "j#x"), (9, "i#x"), (10, "h#x"), (11, "g#x"), (12, "f#x"), (13, "e#x"),
           (14, "d#x"), (15, "c#x")]) ∧
    ∃ chans channelId guild, (loadData crowdSnapshot).channels = some chans ∧
      ("g1", channelId) ∈ chans ∧ openClient.fetchChannel channelId = some guild ∧
      (addFields 1 ((guildScores openClient "Guild One"
          (allScores (loadData crowdSnapshot))).take 15)).map Row.item
        = (guildScores openClient guild (allScores (loadData crowdSnapshot))).take 15 ∧
      (addFields 1 ((guildScores openClient "Guild One"
          (allScores (loadData crowdSnapshot))).take 15)).map Row.rank
        = List.range' 1 (min 15
            (guildScores openClient guild (allScores (loadData crowdSnapshot))).length) ∧
      (addFields 1 ((guildScores openClient "Guild One"
          (allScores (loadData crowdSnapshot))).take 15)).length
        = min 15 (guildScores openClient guild (allScores (loadData crowdSnapshot))).length :=
  ⟨by decide!, top_fifteen openClient crowdSnapshot "g1" _ (by decide!)⟩

/-! ## Timeline: auxiliary facts -/

/-- What `forEachRound` returns, entry by entry. -/
theorem forEachRound_entries (toLowerCase : String → String)
    (m : MatchData) (rounds : List Round) (idx : Nat) (cur : Score)
    (tl : List Events) (h : forEachRound toLowerCase m idx cur rounds = some tl) :
    tl.length = rounds.length ∧
    ∀ i e, tl[i]? = some e → ∃ r, rounds[i]? = some r ∧
      roundEvents toLowerCase m (idx + i) (scoreAfter toLowerCase cur (rounds.take (i + 1))) r = some e := by
  induction rounds generalizing idx cur tl with
  | nil =>
    simp only [forEachRound, Option.some.injEq] at h
    subst h
    exact ⟨rfl, fun i e hi => by simp at hi⟩
  | cons r rs ih =>
    rw [forEachRound] at h
    cases he : roundEvents toLowerCase m idx (bumpScore cur (toLowerCase r.winning_team)) r with
    | none => simp [he] at h
    | some e0 =>
      cases ht : forEachRound toLowerCase m (idx + 1) (bumpScore cur (toLowerCase r.winning_team)) rs with
      | none => simp [he, ht] at h
      | some tl2 =>
        simp only [he, ht, Option.some.injEq] at h
        subst h
        obtain ⟨hlen, hent⟩ := ih (idx + 1) _ tl2 ht
        refine ⟨by simp [hlen], ?_⟩
        intro i e hi
        cases i with
        | zero =>
          simp only [List.getElem?_cons_zero, Option.some.injEq] at hi
          subst hi
          exact ⟨r, by simp, by simpa [scoreAfter] using he⟩
        | succ i =>
          simp only [List.getElem?_cons_succ] at hi
          obtain ⟨r2, hr2, hev⟩ := hent i e hi
          refine ⟨r2, by simpa using hr2, ?_⟩
          have hidx : idx + (i + 1) = idx + 1 + i := by omega
          rw [hidx]
          simpa [scoreAfter] using hev

theorem analyzeMatch_entries (toLowerCase : String → String)
    (m : MatchData) (tl : List Events) (h : analyzeMatch toLowerCase m = some tl) :
    tl.length = (m.rounds.getD []).length ∧
    ∀ i e, tl[i]? = some e → ∃ r, (m.rounds.getD [])[i]? = some r ∧
      roundEvents toLowerCase m i (scoreAfter toLowerCase { red := 0, blue := 0 } ((m.rounds.getD []).take (i + 1))) r
        = some e := by
  unfold analyzeMatch at h
  cases hr : m.rounds with
  | none =>
    simp only [hr, Option.some.injEq] at h
    subst h
    exact ⟨rfl, fun i e hi => by simp at hi⟩
  | some rounds =>
    simp only [hr] at h
    have := forEachRound_entries toLowerCase m rounds 0 _ tl h
    simpa using this

theorem roundEvents_fields (toLowerCase : String → String)
    (m : MatchData) (index : Nat) (cur : Score) (round : Round)
    (e : Events) (h : roundEvents toLowerCase m index cur round = some e) :
    ∃ allKills, m.kills = some allKills ∧ e.roundNum = index + 1 ∧ e.score = scoreText cur ∧
      firstBloodOf toLowerCase m (roundKillsOf allKills index) = some e.firstBlood ∧
      formatKills toLowerCase m (roundKillsOf allKills index) = some e.kills := by
  unfold roundEvents at h
  cases hk : m.kills with
  | none => simp [hk] at h
  | some allKills =>
    simp only [hk] at h
    cases hfb : firstBloodOf toLowerCase m (roundKillsOf allKills index) with
    | none => simp [hfb] at h
    | some fb =>
      cases hks : formatKills toLowerCase m (roundKillsOf allKills index) with
      | none => simp [hfb, hks] at h
      | some kills =>
        cases hpl : plantOf toLowerCase m round with
        | none => simp [hfb, hks, hpl] at h
        | some plant =>
          cases hdf : defuseOf toLowerCase m round with
          | none => simp [hfb, hks, hpl, hdf] at h
          | some defuse =>
            simp only [hfb, hks, hpl, hdf, Option.some.injEq] at h
            subst h
            exact ⟨allKills, rfl, rfl, rfl, hfb, hks⟩

theorem formatKills_time (toLowerCase : String → String)
    (m : MatchData) (ks : List Kill) (ls : List KillLine)
    (h : formatKills toLowerCase m ks = some ls) : ls.map KillLine.time = ks.map Kill.game_time := by
  induction ks generalizing ls with
  | nil =>
    simp only [formatKills, Option.some.injEq] at h
    subst h; rfl
  | cons k ks ih =>
    rw [formatKills] at h
    cases hk : formatKill toLowerCase m k with
    | none => simp [hk] at h
    | some a =>
      cases hks : formatKills toLowerCase m ks with
      | none => simp [hk, hks] at h
      | some b =>
        simp only [hk, hks, Option.some.injEq] at h
        subst h
        have htime : a.time = k.game_time := by
          unfold formatKill at hk
          cases h1 : getPlayerIdentity toLowerCase m k.killer_puuid with
          | none => simp [h1] at hk
          | some x =>
            cases h2 : getPlayerIdentity toLowerCase m k.victim_puuid with
            | none => simp [h1, h2] at hk
            | some y =>
              simp only [h1, h2, Option.some.injEq] at hk
              rw [← hk]
        simp [htime, ih b hks]

theorem roundKillsOf_sorted (allKills : List Kill) (index : Nat) :
    (roundKillsOf allKills index).Sorted (fun a b => a.game_time ≤ b.game_time) := by
  have htotal : IsTotal Kill (fun a b => a.game_time ≤ b.game_time) :=
    ⟨fun a b => le_total a.game_time b.game_time⟩
  have htrans : IsTrans Kill (fun a b => a.game_time ≤ b.game_time) :=
    ⟨fun a b c hab hbc => le_trans hab hbc⟩
  exact List.sorted_insertionSort _ _

theorem mem_roundKillsOf (allKills : List Kill) (index : Nat) (k : Kill) :
    k ∈ roundKillsOf allKills index ↔ k ∈ allKills ∧ k.round = index := by
  unfold roundKillsOf
  rw [List.mem_insertionSort, List.mem_filter]
  simp

/-! ## C8 -/

/-- C8: in every round of the timeline `analyzeMatch` returns, the kill list
is sorted non-decreasing by in-round timestamp (`game_time`), whatever the
order of the upstream kill array. -/
theorem round_kills_sorted (toLowerCase : String → String)
    (m : MatchData) (tl : List Events) (h : analyzeMatch toLowerCase m = some tl)
    (e : Events) (he : e ∈ tl) : (e.kills.map KillLine.time).Sorted (· ≤ ·) := by
  obtain ⟨i, hi⟩ := List.mem_iff_getElem?.1 he
  obtain ⟨r, _, hev⟩ := (analyzeMatch_entries toLowerCase m tl h).2 i e hi
  obtain ⟨allKills, _, _, _, _, hks⟩ := roundEvents_fields toLowerCase m i _ r e hev
  rw [formatKills_time toLowerCase m _ _ hks]
  have := roundKillsOf_sorted allKills i
  unfold List.Sorted at this ⊢
  rw [List.pairwise_map]
  exact this

/-- C8, witness: round 1 of `threeRoundMatch`, whose two kills come in the
order 10, 5 upstream, lists them in the order 5, 10. -/
theorem round_kills_sorted_witness :
    (threeRoundTimeline.head?.map (fun e => e.kills.map KillLine.time) = some [5, 10]) ∧
    ∀ e ∈ threeRoundTimeline, (e.kills.map KillLine.time).Sorted (· ≤ ·) :=
  ⟨by decide, fun e he => round_kills_sorted asciiLower threeRoundMatch threeRoundTimeline (by decide) e he⟩

/-- When the kill array and the roster are present, `analyzeMatch` returns a
timeline. -/
theorem analyzeMatch_returns (toLowerCase : String → String)
    (m : MatchData) (allKills : List Kill) (all : List Player)
    (hk : m.kills = some allKills) (hp : m.players = some all) :
    ∃ tl, analyzeMatch toLowerCase m = some tl := by
  have hid : ∀ puuid, ∃ x, getPlayerIdentity toLowerCase m puuid = some x := by
    intro puuid
    unfold getPlayerIdentity
    simp only [hp]
    cases all.find? (fun p => p.puuid == puuid) with
    | none => exact ⟨_, rfl⟩
    | some pl => exact ⟨_, rfl⟩
  have hfk : ∀ ks, ∃ ls, formatKills toLowerCase m ks = some ls := by
    intro ks
    induction ks with
    | nil => exact ⟨[], rfl⟩
    | cons k ks ih =>
      obtain ⟨ls, hls⟩ := ih
      obtain ⟨x, hx⟩ := hid k.killer_puuid
      obtain ⟨y, hy⟩ := hid k.victim_puuid
      rw [formatKills, hls]
      simp only [formatKill, hx, hy]
      exact ⟨_, rfl⟩
  have hfb : ∀ ks, ∃ fb, firstBloodOf toLowerCase m ks = some fb := by
    intro ks
    cases ks with
    | nil => exact ⟨none, rfl⟩
    | cons k ks =>
      obtain ⟨x, hx⟩ := hid k.killer_puuid
      obtain ⟨y, hy⟩ := hid k.victim_puuid
      simp only [firstBloodOf, hx, hy]
      exact ⟨_, rfl⟩
  have hpl : ∀ r, ∃ p, plantOf toLowerCase m r = some p := by
    intro r
    unfold plantOf
    cases r.plant_events with
    | none => exact ⟨none, rfl⟩
    | some pe =>
      obtain ⟨x, hx⟩ := hid pe.planted_by
      by_cases hl : pe.plant_location = true
      · simp only [hl, if_true, hx]; exact ⟨_, rfl⟩
      · simp only [hl, Bool.false_eq_true, if_false]; exact ⟨_, rfl⟩
  have hdf : ∀ r, ∃ p, defuseOf toLowerCase m r = some p := by
    intro r
    unfold defuseOf
    cases r.defuse_events with
    | none => exact ⟨none, rfl⟩
    | some de =>
      obtain ⟨x, hx⟩ := hid de.defused_by
      by_cases hl : de.defuse_location = true
      · simp only [hl, if_true, hx]; exact ⟨_, rfl⟩
      · simp only [hl, Bool.false_eq_true, if_false]; exact ⟨_, rfl⟩
  have hre : ∀ i cur r, ∃ e, roundEvents toLowerCase m i cur r = some e := by
    intro i cur r
    obtain ⟨fb, h1⟩ := hfb (roundKillsOf allKills i)
    obtain ⟨ls, h2⟩ := hfk (roundKillsOf allKills i)
    obtain ⟨p, h3⟩ := hpl r
    obtain ⟨q, h4⟩ := hdf r
    unfold roundEvents
    simp only [hk, h1, h2, h3, h4]
    exact ⟨_, rfl⟩
  have hfe : ∀ rounds i cur, ∃ tl, forEachRound toLowerCase m i cur rounds = some tl := by
    intro rounds
    induction rounds with
    | nil => exact fun _ _ => ⟨[], rfl⟩
    | cons r rs ih =>
      intro i cur
      obtain ⟨e, he⟩ := hre i (bumpScore cur (toLowerCase r.winning_team)) r
      obtain ⟨tl, htl⟩ := ih (i + 1) (bumpScore cur (toLowerCase r.winning_team))
      rw [forEachRound]
      simp only [he, htl]
      exact ⟨_, rfl⟩
  unfold analyzeMatch
  cases m.rounds with
  | none => exact ⟨[], rfl⟩
  | some rounds => exact hfe rounds 0 _

/-! ## C9 -/

/-- C9: for a round with at least one kill event, `analyzeMatch` reports as
first blood the killer and victim names (and the killer's team) of a kill of
that round whose `game_time` is minimal among the round's kills, whatever
its place in the upstream array; a round with no kill event has first blood
`null`. -/
theorem first_blood_earliest (toLowerCase : String → String)
    (m : MatchData) (allKills : List Kill) (tl : List Events)
    (hk : m.kills = some allKills) (h : analyzeMatch toLowerCase m = some tl) (i : Nat) (e : Events)
    (hi : tl[i]? = some e) :
    ((∀ k ∈ allKills, k.round ≠ i) → e.firstBlood = none) ∧
    ((∃ k ∈ allKills, k.round = i) →
      ∃ k killer victim, k ∈ allKills ∧ k.round = i ∧
        (∀ k2 ∈ allKills, k2.round = i → k.game_time ≤ k2.game_time) ∧
        getPlayerIdentity toLowerCase m k.killer_puuid = some killer ∧
        getPlayerIdentity toLowerCase m k.victim_puuid = some victim ∧
        e.firstBlood
          = some { killer := killer.name, victim := victim.name, team := killer.team }) := by
  obtain ⟨r, _, hev⟩ := (analyzeMatch_entries toLowerCase m tl h).2 i e hi
  obtain ⟨allKills2, hk2, _, _, hfb, _⟩ := roundEvents_fields toLowerCase m i _ r e hev
  rw [hk] at hk2
  simp only [Option.some.injEq] at hk2
  subst hk2
  have hsorted := roundKillsOf_sorted allKills i
  cases hrk : roundKillsOf allKills i with
  | nil =>
    rw [hrk] at hfb
    simp only [firstBloodOf, Option.some.injEq] at hfb
    refine ⟨fun _ => hfb.symm, ?_⟩
    rintro ⟨k, hkm, hkr⟩
    have : k ∈ roundKillsOf allKills i := (mem_roundKillsOf allKills i k).2 ⟨hkm, hkr⟩
    rw [hrk] at this
    cases this
  | cons k0 rest =>
    rw [hrk] at hfb hsorted
    have hk0 : k0 ∈ allKills ∧ k0.round = i :=
      (mem_roundKillsOf allKills i k0).1 (by rw [hrk]; exact List.mem_cons_self _ _)
    constructor
    · intro hnone
      exact absurd hk0.2 (hnone k0 hk0.1)
    · intro _
      rw [firstBloodOf] at hfb
      cases h1 : getPlayerIdentity toLowerCase m k0.killer_puuid with
      | none => simp [h1] at hfb
      | some killer =>
        cases h2 : getPlayerIdentity toLowerCase m k0.victim_puuid with
        | none => simp [h1, h2] at hfb
        | some victim =>
          simp only [h1, h2, Option.some.injEq] at hfb
          refine ⟨k0, killer, victim, hk0.1, hk0.2, ?_, h1, h2, hfb.symm⟩
          intro k2 hk2m hk2r
          have hin : k2 ∈ roundKillsOf allKills i := (mem_roundKillsOf allKills i k2).2 ⟨hk2m, hk2r⟩
          rw [hrk] at hin
          rcases List.mem_cons.1 hin with h3 | h3
          · rw [h3]
          · exact List.rel_of_sorted_cons hsorted k2 h3

/-- C9, witness: in round 1 of `threeRoundMatch` the upstream array lists the
kill of `B` by `A` at time 10 before the kill of `D` by `C` at time 5; first
blood is `C` on `D`.  Round 2 has no kill and no first blood. -/
theorem first_blood_earliest_witness :
    (roundOneEvents.firstBlood = some { killer := "C", victim := "D", team := "blue" } ∧
      roundTwoEvents.firstBlood = none) ∧
    ((∀ k ∈ (threeRoundMatch.kills.getD []), k.round ≠ 0) → roundOneEvents.firstBlood = none) ∧
    ((∃ k ∈ (threeRoundMatch.kills.getD []), k.round = 0) →
      ∃ k killer victim, k ∈ (threeRoundMatch.kills.getD []) ∧ k.round = 0 ∧
        (∀ k2 ∈ (threeRoundMatch.kills.getD []), k2.round = 0 → k.game_time ≤ k2.game_time) ∧
        getPlayerIdentity asciiLower threeRoundMatch k.killer_puuid = some killer ∧
        getPlayerIdentity asciiLower threeRoundMatch k.victim_puuid = some victim ∧
        roundOneEvents.firstBlood
          = some { killer := killer.name, victim := victim.name, team := killer.team }) :=
  ⟨by decide,
   first_blood_earliest asciiLower threeRoundMatch _ threeRoundTimeline rfl (by decide) 0 roundOneEvents rfl⟩

/-! ## C10 -/

theorem bumpScore_blue (cur : Score) (wt : String) :
    (bumpScore cur wt).blue = cur.blue + (if wt = "blue" then 1 else 0) := by
  unfold bumpScore
  by_cases hb : wt = "blue"
  · by_cases hr : wt = "red" <;> simp [hb, hr]
  · by_cases hr : wt = "red" <;> simp [hb, hr]

theorem bumpScore_red (cur : Score) (wt : String) :
    (bumpScore cur wt).red = cur.red + (if wt = "red" then 1 else 0) := by
  unfold bumpScore
  by_cases hb : wt = "blue"
  · by_cases hr : wt = "red" <;> simp [hb, hr]
  · by_cases hr : wt = "red" <;> simp [hb, hr]

theorem scoreAfter_counts (toLowerCase : String → String) (cur : Score) (rounds : List Round) :
    (scoreAfter toLowerCase cur rounds).blue
        = cur.blue + rounds.countP (fun r => toLowerCase r.winning_team == "blue") ∧
    (scoreAfter toLowerCase cur rounds).red
        = cur.red + rounds.countP (fun r => toLowerCase r.winning_team == "red") := by
  induction rounds generalizing cur with
  | nil => simp [scoreAfter]
  | cons r rs ih =>
    have h := ih (bumpScore cur (toLowerCase r.winning_team))
    rw [bumpScore_blue, bumpScore_red] at h
    have hs : scoreAfter toLowerCase cur (r :: rs)
        = scoreAfter toLowerCase (bumpScore cur (toLowerCase r.winning_team)) rs := rfl
    rw [hs, h.1, h.2, List.countP_cons, List.countP_cons]
    constructor
    · by_cases hb : toLowerCase r.winning_team = "blue"
      · simp [hb]; omega
      · simp [hb]
    · by_cases hr : toLowerCase r.winning_team = "red"
      · simp [hr]; omega
      · simp [hr]

theorem countP_blue_add_red_le (toLowerCase : String → String) (rounds : List Round) :
    rounds.countP (fun r => toLowerCase r.winning_team == "blue")
      + rounds.countP (fun r => toLowerCase r.winning_team == "red") ≤ rounds.length := by
  induction rounds with
  | nil => simp
  | cons r rs ih =>
    rw [List.countP_cons, List.countP_cons, List.length_cons]
    have hbr : ¬ ("blue" : String) = "red" := by decide
    have hrb : ¬ ("red" : String) = "blue" := by decide
    by_cases hb : toLowerCase r.winning_team = "blue"
    · simp only [hb, hbr, beq_self_eq_true, if_true, beq_iff_eq, if_false]
      omega
    · by_cases hr : toLowerCase r.winning_team = "red"
      · simp only [hr, hrb, beq_self_eq_true, if_true, beq_iff_eq, if_false]
        omega
      · simp only [hb, hr, beq_iff_eq, if_false]
        omega

/-- C10: the running score `analyzeMatch` reports for the round at index `i`
is the text `b - r`, where `b` counts the rounds at indices `0..i` whose
declared winner side is blue and `r` those whose side is red, compared
case-insensitively; `b + r` never exceeds `i + 1`, and both counts are
non-decreasing in `i`. -/
theorem running_score (toLowerCase : String → String)
    (m : MatchData) (rounds : List Round) (tl : List Events)
    (hr : m.rounds = some rounds) (h : analyzeMatch toLowerCase m = some tl) :
    tl.length = rounds.length ∧
    ∀ i e, tl[i]? = some e →
      e.score = toString (blueWins toLowerCase rounds i) ++ " - " ++ toString (redWins toLowerCase rounds i) ∧
      blueWins toLowerCase rounds i + redWins toLowerCase rounds i ≤ i + 1 ∧
      ∀ j, j ≤ i → blueWins toLowerCase rounds j ≤ blueWins toLowerCase rounds i ∧ redWins toLowerCase rounds j ≤ redWins toLowerCase rounds i := by
  obtain ⟨hlen, hent⟩ := analyzeMatch_entries toLowerCase m tl h
  rw [hr] at hlen hent
  simp only [Option.getD_some] at hlen hent
  refine ⟨hlen, ?_⟩
  intro i e hi
  obtain ⟨r, _, hev⟩ := hent i e hi
  obtain ⟨_, _, _, hscore, _, _⟩ := roundEvents_fields toLowerCase m i _ r e hev
  have hc := scoreAfter_counts toLowerCase { red := 0, blue := 0 } (rounds.take (i + 1))
  refine ⟨?_, ?_, ?_⟩
  · rw [hscore]
    unfold scoreText blueWins redWins
    rw [hc.1, hc.2]
    simp
  · unfold blueWins redWins
    calc _ ≤ (rounds.take (i + 1)).length := countP_blue_add_red_le toLowerCase _
      _ ≤ i + 1 := List.length_take_le _ _
  · intro j hj
    unfold blueWins redWins
    have hsub : List.Sublist (rounds.take (j + 1)) (rounds.take (i + 1)) :=
      List.take_sublist_take_left rounds (by omega)
    exact ⟨hsub.countP_le _, hsub.countP_le _⟩

/-- C10, witness: the three rounds of `threeRoundMatch`, won by Blue, Red,
Blue, carry the running scores `1 - 0`, `1 - 1`, `2 - 1`. -/
theorem running_score_witness :
    threeRoundTimeline.map Events.score = ["1 - 0", "1 - 1", "2 - 1"] ∧
    threeRoundTimeline.length = [plainRound "Blue", plainRound "Red", plainRound "Blue"].length ∧
    ∀ i e, threeRoundTimeline[i]? = some e →
      e.score = toString (blueWins asciiLower [plainRound "Blue", plainRound "Red", plainRound "Blue"] i)
        ++ " - " ++ toString (redWins asciiLower [plainRound "Blue", plainRound "Red", plainRound "Blue"] i) ∧
      blueWins asciiLower [plainRound "Blue", plainRound "Red", plainRound "Blue"] i
        + redWins asciiLower [plainRound "Blue", plainRound "Red", plainRound "Blue"] i ≤ i + 1 ∧
      ∀ j, j ≤ i →
        blueWins asciiLower [plainRound "Blue", plainRound "Red", plainRound "Blue"] j
          ≤ blueWins asciiLower [plainRound "Blue", plainRound "Red", plainRound "Blue"] i ∧
        redWins asciiLower [plainRound "Blue", plainRound "Red", plainRound "Blue"] j
          ≤ redWins asciiLower [plainRound "Blue", plainRound "Red", plainRound "Blue"] i :=
  ⟨by decide, running_score asciiLower threeRoundMatch _ threeRoundTimeline rfl (by decide)⟩

/-! ## Double arithmetic: auxiliary facts -/

theorem floor_le_roundHalfEven (q : ℚ) : ⌊q⌋ ≤ roundHalfEven q := by
  unfold roundHalfEven
  split
  · exact le_refl _
  · split
    · omega
    · split <;> omega

theorem roundHalfEven_le_floor_add_one (q : ℚ) : roundHalfEven q ≤ ⌊q⌋ + 1 := by
  unfold roundHalfEven
  split
  · omega
  · split
    · exact le_refl _
    · split <;> omega

theorem roundHalfEven_le_of_le (q : ℚ) (k : ℤ) (h : q ≤ k) : roundHalfEven q ≤ k := by
  have hfl : ⌊q⌋ ≤ k := by
    have := Int.floor_le q
    exact_mod_cast le_trans this h
  unfold roundHalfEven
  split
  · exact hfl
  · rename_i h1
    have hlt : (⌊q⌋ : ℚ) < k := by
      have : (1 : ℚ) / 2 ≤ q - ⌊q⌋ := not_lt.1 h1
      linarith
    have hlt2 : ⌊q⌋ < k := by exact_mod_cast hlt
    split
    · omega
    · split <;> omega

theorem le_roundHalfEven_of_le (q : ℚ) (k : ℤ) (h : (k : ℚ) ≤ q) : k ≤ roundHalfEven q :=
  le_trans (Int.le_floor.2 h) (floor_le_roundHalfEven q)

theorem sub_half_le_roundHalfEven (q : ℚ) : q - 1 / 2 ≤ roundHalfEven q := by
  have hf := Int.lt_floor_add_one q
  unfold roundHalfEven
  split
  · rename_i h1; linarith
  · split
    · push_cast; linarith
    · split
      · rename_i h1 h2 _
        have : q - ⌊q⌋ = 1 / 2 := le_antisymm (not_lt.1 h2) (not_lt.1 h1)
        linarith
      · push_cast; linarith

theorem binade_spec (x : ℚ) (hx : 0 < x) : (2 : ℚ) ^ binade x ≤ x ∧ x < (2 : ℚ) ^ (binade x + 1) := by
  have hnum : 0 < x.num := Rat.num_pos.2 hx
  have hp : (x.num.toNat : ℤ) = x.num := Int.toNat_of_nonneg hnum.le
  have hp0 : x.num.toNat ≠ 0 := by omega
  have hq0 : x.den ≠ 0 := x.den_nz
  have hxe : x * (x.den : ℚ) = (x.num.toNat : ℚ) := by
    have h1 : ((x.num.toNat : ℤ) : ℚ) = (x.num : ℚ) := by rw [hp]
    have h2 : ((x.num.toNat : ℤ) : ℚ) = (x.num.toNat : ℚ) := Int.cast_natCast _
    rw [← h2, h1]
    exact Rat.mul_den_eq_num x
  have hp1 : (2 : ℚ) ^ (Nat.log2 x.num.toNat) ≤ (x.num.toNat : ℚ) := by
    exact_mod_cast Nat.log2_self_le hp0
  have hp2 : (x.num.toNat : ℚ) < (2 : ℚ) ^ (Nat.log2 x.num.toNat + 1) := by
    exact_mod_cast (Nat.lt_log2_self (n := x.num.toNat))
  have hq1 : (2 : ℚ) ^ (Nat.log2 x.den) ≤ (x.den : ℚ) := by
    exact_mod_cast Nat.log2_self_le hq0
  have hq2 : (x.den : ℚ) < (2 : ℚ) ^ (Nat.log2 x.den + 1) := by
    exact_mod_cast (Nat.lt_log2_self (n := x.den))
  have hden : (0 : ℚ) < (x.den : ℚ) := by exact_mod_cast x.den_pos
  have h2 : (2 : ℚ) ≠ 0 := by norm_num
  have he0 : (2 : ℚ) ^ ((Nat.log2 x.num.toNat : ℤ) - (Nat.log2 x.den : ℤ))
      = (2 : ℚ) ^ (Nat.log2 x.num.toNat) / (2 : ℚ) ^ (Nat.log2 x.den) := by
    rw [zpow_sub₀ h2, zpow_natCast, zpow_natCast]
  unfold binade
  rw [pow_succ] at hp2 hq2
  generalize Nat.log2 x.num.toNat = lp at *
  generalize Nat.log2 x.den = lq at *
  generalize (x.num.toNat : ℚ) = P at *
  generalize (x.den : ℚ) = Q at *
  have hA : (0 : ℚ) < (2 : ℚ) ^ lp := by positivity
  have hB : (0 : ℚ) < (2 : ℚ) ^ lq := by positivity
  split
  · rename_i hle
    refine ⟨hle, ?_⟩
    rw [zpow_add₀ h2, he0, zpow_one]
    have hgoal : x * Q < (2 : ℚ) ^ lp / (2 : ℚ) ^ lq * 2 * Q := by
      rw [hxe]
      calc P < (2 : ℚ) ^ lp * 2 := hp2
        _ = (2 : ℚ) ^ lp / (2 : ℚ) ^ lq * 2 * (2 : ℚ) ^ lq := by field_simp
        _ ≤ (2 : ℚ) ^ lp / (2 : ℚ) ^ lq * 2 * Q :=
            mul_le_mul_of_nonneg_left hq1 (by positivity)
    exact lt_of_mul_lt_mul_right hgoal hden.le
  · rename_i hnle
    constructor
    · rw [zpow_sub₀ h2, he0, zpow_one]
      have hgoal : (2 : ℚ) ^ lp / (2 : ℚ) ^ lq / 2 * Q ≤ x * Q := by
        rw [hxe]
        calc (2 : ℚ) ^ lp / (2 : ℚ) ^ lq / 2 * Q
            ≤ (2 : ℚ) ^ lp / (2 : ℚ) ^ lq / 2 * ((2 : ℚ) ^ lq * 2) :=
              mul_le_mul_of_nonneg_left hq2.le (by positivity)
          _ = (2 : ℚ) ^ lp := by field_simp
          _ ≤ P := hp1
      exact le_of_mul_le_mul_right hgoal hden
    · have : (lp : ℤ) - (lq : ℤ) - 1 + 1 = (lp : ℤ) - (lq : ℤ) := by ring
      rw [this]
      exact not_le.1 hnle

theorem toDouble_of_nonneg (x : ℚ) (hx : 0 ≤ x) :
    toDouble x = roundHalfEven (x / 2 ^ (binade x - 52)) * 2 ^ (binade x - 52) := by
  unfold toDouble
  rw [if_neg (not_lt.2 hx)]

theorem toDouble_zero : toDouble 0 = 0 := by
  rw [toDouble_of_nonneg 0 (le_refl 0)]
  simp [roundHalfEven]

theorem binade_lt (x : ℚ) (hx : 0 < x) (n : ℕ) (h : x < 2 ^ n) : binade x < n := by
  have h1 := (binade_spec x hx).1
  have h2 : (2 : ℚ) ^ binade x < (2 : ℚ) ^ (n : ℤ) := by
    rw [zpow_natCast]; exact lt_of_le_of_lt h1 h
  exact (zpow_lt_zpow_iff_right₀ (by norm_num : (1 : ℚ) < 2)).1 h2

/-- The unit in the last place of a positive rational below `2 ^ 53` is the
inverse of a power of two. -/
theorem ulp_eq_inv (x : ℚ) (hx : 0 < x) (hb : x < 2 ^ 53) :
    ∃ j : ℕ, (2 : ℚ) ^ (binade x - 52) = ((2 : ℚ) ^ j)⁻¹ := by
  have hlt := binade_lt x hx 53 hb
  refine ⟨(52 - binade x).toNat, ?_⟩
  have hj : ((52 - binade x).toNat : ℤ) = 52 - binade x := Int.toNat_of_nonneg (by omega)
  have he : binade x - 52 = -((52 - binade x).toNat : ℤ) := by rw [hj]; ring
  rw [he, zpow_neg, zpow_natCast]

theorem toDouble_nonneg (x : ℚ) (hx : 0 ≤ x) : 0 ≤ toDouble x := by
  rw [toDouble_of_nonneg x hx]
  have hu : (0 : ℚ) < (2 : ℚ) ^ (binade x - 52) := by positivity
  have h0 : ((0 : ℤ) : ℚ) ≤ x / (2 : ℚ) ^ (binade x - 52) := by
    simp only [Int.cast_zero]; positivity
  have := le_roundHalfEven_of_le _ 0 h0
  have h1 : (0 : ℚ) ≤ (roundHalfEven (x / (2 : ℚ) ^ (binade x - 52)) : ℚ) := by exact_mod_cast this
  positivity

/-- Rounding to a double does not cross a natural number from below. -/
theorem toDouble_le_nat (x : ℚ) (N : ℕ) (hx : 0 ≤ x) (hN : x ≤ N) (hb : x < 2 ^ 53) :
    toDouble x ≤ N := by
  rcases eq_or_lt_of_le hx with h0 | hpos
  · rw [← h0, toDouble_zero]; exact Nat.cast_nonneg N
  · obtain ⟨j, hj⟩ := ulp_eq_inv x hpos hb
    rw [toDouble_of_nonneg x hx, hj]
    have hpj : (0 : ℚ) < (2 : ℚ) ^ j := by positivity
    have hk : x / ((2 : ℚ) ^ j)⁻¹ ≤ ((N * 2 ^ j : ℕ) : ℤ) := by
      rw [div_inv_eq_mul]
      push_cast
      exact mul_le_mul_of_nonneg_right hN hpj.le
    have hr := roundHalfEven_le_of_le _ _ hk
    have hr2 : (roundHalfEven (x / ((2 : ℚ) ^ j)⁻¹) : ℚ) ≤ (N : ℚ) * (2 : ℚ) ^ j := by
      have : (roundHalfEven (x / ((2 : ℚ) ^ j)⁻¹) : ℚ) ≤ (((N * 2 ^ j : ℕ) : ℤ) : ℚ) := by
        exact_mod_cast hr
      simpa using this
    calc (roundHalfEven (x / ((2 : ℚ) ^ j)⁻¹) : ℚ) * ((2 : ℚ) ^ j)⁻¹
        ≤ (N : ℚ) * (2 : ℚ) ^ j * ((2 : ℚ) ^ j)⁻¹ :=
          mul_le_mul_of_nonneg_right hr2 (by positivity)
      _ = N := by field_simp

/-- Rounding to a double does not cross a natural number from above. -/
theorem nat_le_toDouble (x : ℚ) (N : ℕ) (hN : (N : ℚ) ≤ x) (hb : x < 2 ^ 53) :
    (N : ℚ) ≤ toDouble x := by
  have hx : 0 ≤ x := le_trans (Nat.cast_nonneg N) hN
  rcases eq_or_lt_of_le hx with h0 | hpos
  · rw [← h0, toDouble_zero]; rw [← h0] at hN; exact hN
  · obtain ⟨j, hj⟩ := ulp_eq_inv x hpos hb
    rw [toDouble_of_nonneg x hx, hj]
    have hpj : (0 : ℚ) < (2 : ℚ) ^ j := by positivity
    have hk : (((N * 2 ^ j : ℕ) : ℤ) : ℚ) ≤ x / ((2 : ℚ) ^ j)⁻¹ := by
      rw [div_inv_eq_mul]
      push_cast
      exact mul_le_mul_of_nonneg_right hN hpj.le
    have hr := le_roundHalfEven_of_le _ _ hk
    have hr2 : (N : ℚ) * (2 : ℚ) ^ j ≤ (roundHalfEven (x / ((2 : ℚ) ^ j)⁻¹) : ℚ) := by
      have : (((N * 2 ^ j : ℕ) : ℤ) : ℚ) ≤ (roundHalfEven (x / ((2 : ℚ) ^ j)⁻¹) : ℚ) := by
        exact_mod_cast hr
      simpa using this
    calc (N : ℚ) = (N : ℚ) * (2 : ℚ) ^ j * ((2 : ℚ) ^ j)⁻¹ := by field_simp
      _ ≤ (roundHalfEven (x / ((2 : ℚ) ^ j)⁻¹) : ℚ) * ((2 : ℚ) ^ j)⁻¹ :=
          mul_le_mul_of_nonneg_right hr2 (by positivity)

/-- A natural number below `2 ^ 53` is a double. -/
theorem toDouble_natCast (N : ℕ) (h : N < 2 ^ 53) : toDouble (N : ℚ) = N := by
  have hb : (N : ℚ) < 2 ^ 53 := by exact_mod_cast h
  exact le_antisymm (toDouble_le_nat _ N (Nat.cast_nonneg N) (le_refl _) hb)
    (nat_le_toDouble _ N (le_refl _) hb)

/-- Rounding to a double loses at most the fraction `2 ^ -53` of a positive
rational. -/
theorem sub_le_toDouble (x : ℚ) (hx : 0 < x) : x - x / 2 ^ 53 ≤ toDouble x := by
  rw [toDouble_of_nonneg x hx.le]
  have hu : (0 : ℚ) < (2 : ℚ) ^ (binade x - 52) := by positivity
  have h1 := sub_half_le_roundHalfEven (x / (2 : ℚ) ^ (binade x - 52))
  have h2 : (x / (2 : ℚ) ^ (binade x - 52) - 1 / 2) * (2 : ℚ) ^ (binade x - 52)
      ≤ (roundHalfEven (x / (2 : ℚ) ^ (binade x - 52)) : ℚ) * (2 : ℚ) ^ (binade x - 52) :=
    mul_le_mul_of_nonneg_right h1 hu.le
  have h3 : (x / (2 : ℚ) ^ (binade x - 52) - 1 / 2) * (2 : ℚ) ^ (binade x - 52)
      = x - (2 : ℚ) ^ (binade x - 52) / 2 := by
    field_simp
    ring
  have h4 : (2 : ℚ) ^ (binade x - 52) = (2 : ℚ) ^ binade x / 2 ^ 52 := by
    rw [zpow_sub₀ (by norm_num : (2 : ℚ) ≠ 0)]
    norm_num
  have h5 : (2 : ℚ) ^ (binade x - 52) / 2 ≤ x / 2 ^ 53 := by
    rw [h4]
    have := (binade_spec x hx).1
    have h6 : (2 : ℚ) ^ binade x / 2 ^ 52 / 2 = (2 : ℚ) ^ binade x / 2 ^ 53 := by
      rw [div_div]
      norm_num
    rw [h6]
    exact div_le_div_of_nonneg_right this (by positivity)
  linarith

/-- The double quotient of an array length by three has the ceiling of the
exact quotient. -/
theorem ceil_toDouble_div_three (R : ℕ) (hR : R < 2 ^ 32) :
    mathCeil (toDouble ((R : ℚ) / 3)) = ((R + 2) / 3 : ℕ) := by
  unfold mathCeil
  have hR3 : R = 3 * (R / 3) + R % 3 := (Nat.div_add_mod R 3).symm
  have hk : R / 3 < 2 ^ 32 := lt_of_le_of_lt (Nat.div_le_self R 3) hR
  have hRq : (R : ℚ) = 3 * ((R / 3 : ℕ) : ℚ) + ((R % 3 : ℕ) : ℚ) := by exact_mod_cast hR3
  have hRlt : (R : ℚ) < 2 ^ 32 := by exact_mod_cast hR
  have hkq : ((R / 3 : ℕ) : ℚ) < 2 ^ 32 := by exact_mod_cast hk
  by_cases hm : R % 3 = 0
  · have hx : (R : ℚ) / 3 = ((R / 3 : ℕ) : ℚ) := by
      rw [hRq, hm]; push_cast; ring
    have hc : (R + 2) / 3 = R / 3 := by omega
    rw [hx, toDouble_natCast _ (lt_trans hk (by norm_num)), hc]
    exact_mod_cast Int.ceil_natCast (R / 3)
  · have hc : (R + 2) / 3 = R / 3 + 1 := by omega
    have hm1 : (1 : ℚ) ≤ ((R % 3 : ℕ) : ℚ) := by
      have : 1 ≤ R % 3 := by omega
      exact_mod_cast this
    have hm2 : ((R % 3 : ℕ) : ℚ) ≤ 2 := by
      have : R % 3 ≤ 2 := by omega
      exact_mod_cast this
    have hxpos : (0 : ℚ) < (R : ℚ) / 3 := by
      have : (0 : ℚ) ≤ ((R / 3 : ℕ) : ℚ) := Nat.cast_nonneg _
      rw [hRq]; linarith
    have hup : (R : ℚ) / 3 ≤ ((R / 3 + 1 : ℕ) : ℚ) := by
      rw [hRq]; push_cast; linarith
    have hb : (R : ℚ) / 3 < 2 ^ 53 := by
      have : (2 : ℚ) ^ 32 ≤ 2 ^ 53 := by norm_num
      linarith
    have h1 := toDouble_le_nat _ (R / 3 + 1) hxpos.le hup hb
    have h2 := sub_le_toDouble _ hxpos
    have h3 : ((R / 3 : ℕ) : ℚ) < toDouble ((R : ℚ) / 3) := by
      have h4 : (R : ℚ) / 3 / 2 ^ 53 < 1 / 3 := by
        rw [div_lt_iff₀ (by positivity)]
        have : (1 : ℚ) / 3 * 2 ^ 53 = 2 ^ 53 / 3 := by ring
        rw [this]
        have : (2 : ℚ) ^ 32 ≤ 2 ^ 53 := by norm_num
        linarith
      have h5 : ((R / 3 : ℕ) : ℚ) + 1 / 3 ≤ (R : ℚ) / 3 := by
        rw [hRq]; linarith
      linarith
    rw [hc, Int.ceil_eq_iff]
    generalize R / 3 = K at *
    push_cast at h1 ⊢
    constructor
    · linarith
    · exact h1


/-- The page count of `createTimelineEmbed` for an array of rounds. -/
theorem totalPages_eq (timeline : List Events) (page : Int) (hlen : timeline.length < 2 ^ 32) :
    (createTimelineEmbed timeline page).totalPages = ((timeline.length + 2) / 3 : ℕ) := by
  show mathCeil (toDouble ((timeline.length : ℚ) / ((3 : ℕ) : ℚ))) = _
  push_cast
  exact ceil_toDouble_div_three _ hlen

/-! ## C11 -/

/-- C11: for a timeline of `R` rounds (an array, so `R < 2 ^ 32`), the total
page count computed by `createTimelineEmbed` and the one computed by the
timeline button handler both equal `ceil(R / 3)`: the least `n` with
`3 * n ≥ R`. -/
theorem total_pages_ceil (timeline : List Events) (page : Int)
    (hlen : timeline.length < 2 ^ 32) :
    ∃ n : ℕ, (createTimelineEmbed timeline page).totalPages = n ∧
      buttonTotalPages timeline = n ∧
      timeline.length ≤ 3 * n ∧ ∀ m : ℕ, timeline.length ≤ 3 * m → n ≤ m := by
  refine ⟨(timeline.length + 2) / 3, ?_, ?_, ?_, ?_⟩
  · show mathCeil (toDouble ((timeline.length : ℚ) / ((3 : ℕ) : ℚ))) = _
    push_cast
    exact ceil_toDouble_div_three _ hlen
  · exact ceil_toDouble_div_three _ hlen
  · omega
  · intro m hm
    omega

/-- C11, witness: seven rounds make three pages, in the embed and in the
button handler. -/
theorem total_pages_ceil_witness :
    ((createTimelineEmbed (plainTimeline 7) 1).totalPages = 3 ∧
      buttonTotalPages (plainTimeline 7) = 3) ∧
    ∃ n : ℕ, (createTimelineEmbed (plainTimeline 7) 1).totalPages = n ∧
      buttonTotalPages (plainTimeline 7) = n ∧
      (plainTimeline 7).length ≤ 3 * n ∧ ∀ m : ℕ, (plainTimeline 7).length ≤ 3 * m → n ≤ m :=
  ⟨by decide!, total_pages_ceil (plainTimeline 7) 1 (by decide)⟩

/-! ## C12 -/

/-- A slice of three from a non-negative start drops and takes. -/
theorem jsSlice_three {α : Type} (arr : List α) (a : ℕ) :
    jsSlice arr (a : Int) ((a : Int) + 3) = (arr.drop a).take 3 := by
  unfold jsSlice
  have h1 : ¬ ((a : Int) < 0) := by omega
  have h2 : ¬ ((a : Int) + 3 < 0) := by omega
  simp only [h1, h2, if_false]
  by_cases hlt : a < arr.length
  · have hk : (min (a : Int) (arr.length : Int)).toNat = a := by
      rw [min_eq_left (by omega)]; simp
    rw [hk]
    by_cases h3 : a + 3 ≤ arr.length
    · have hf : (min ((a : Int) + 3) (arr.length : Int) - min (a : Int) (arr.length : Int)).toNat
          = 3 := by
        rw [min_eq_left (by omega), min_eq_left (by omega)]; simp
      rw [hf]
    · have hf : (min ((a : Int) + 3) (arr.length : Int) - min (a : Int) (arr.length : Int)).toNat
          = arr.length - a := by
        rw [min_eq_right (by omega), min_eq_left (by omega)]; omega
      rw [hf]
      have hlen : (arr.drop a).length = arr.length - a := List.length_drop a arr
      rw [List.take_of_length_le (by omega), List.take_of_length_le (by omega)]
  · have hk : (min (a : Int) (arr.length : Int)).toNat = arr.length := by
      rw [min_eq_right (by omega)]; simp
    rw [hk, List.drop_of_length_le (le_refl _), List.drop_of_length_le (by omega)]
    simp

/-- The page `createTimelineEmbed` shows and the rounds it slices, for a page
number that is at least 1. -/
theorem createTimelineEmbed_of_pos (timeline : List Events) (p : Int) (hp : 1 ≤ p) :
    (createTimelineEmbed timeline p).page = p ∧
    (createTimelineEmbed timeline p).slicedRounds
      = (timeline.drop (3 * (p - 1).toNat)).take 3 := by
  refine ⟨rfl, ?_⟩
  show jsSlice timeline ((p - 1) * ((3 : ℕ) : Int)) ((p - 1) * ((3 : ℕ) : Int) + ((3 : ℕ) : Int)) = _
  have h : (p - 1) * ((3 : ℕ) : Int) = ((3 * (p - 1).toNat : ℕ) : Int) := by
    push_cast
    rw [Int.toNat_of_nonneg (by omega)]
    ring
  rw [h]
  exact jsSlice_three timeline _

/-- C12, counterexample: on a timeline of two rounds (one page), the `Next`
button of page 1 requests page 2; the handler renders page number 2 of 1 with
no round, not page `max 1 (min 2 1) = 1` with its two rounds. -/
theorem page_beyond_total_not_clamped :
    (timelineButtonReply "next" 1 (plainTimeline 2)).embed
      = { page := 2, totalPages := 1, slicedRounds := [] } ∧
    max (1 : Int) (min 2 1) = 1 ∧
    createTimelineEmbed (plainTimeline 2) 1
      = { page := 1, totalPages := 1, slicedRounds := plainTimeline 2 } := by
  decide!

/-- C12, amended: navigation does not clamp.  The page rendered is the
requested page `p` itself (after a click, the current page plus or minus
one).  When `1 ≤ p ≤ totalPages` this is `max 1 (min p totalPages)`, and the
rounds sliced are the up to three rounds from index `3 * (p - 1)` on, at least
one; a request beyond `totalPages` renders page `p` with no round. -/
theorem page_rendered (timeline : List Events) (p : Int) (hlen : timeline.length < 2 ^ 32)
    (hp : 1 ≤ p) :
    (createTimelineEmbed timeline p).page = p ∧
    (∀ action currentPage, p = (if action = "next" then currentPage + 1 else currentPage - 1) →
      (timelineButtonReply action currentPage timeline).embed = createTimelineEmbed timeline p) ∧
    (p ≤ (createTimelineEmbed timeline p).totalPages →
      p = max 1 (min p (createTimelineEmbed timeline p).totalPages) ∧
      (createTimelineEmbed timeline p).slicedRounds = (timeline.drop (3 * (p - 1).toNat)).take 3 ∧
      (createTimelineEmbed timeline p).slicedRounds ≠ []) ∧
    ((createTimelineEmbed timeline p).totalPages < p →
      (createTimelineEmbed timeline p).slicedRounds = []) := by
  obtain ⟨n, hn, hn1, hn2⟩ : ∃ n : ℕ, (createTimelineEmbed timeline p).totalPages = n ∧
      timeline.length ≤ 3 * n ∧ ∀ m : ℕ, timeline.length ≤ 3 * m → n ≤ m :=
    ⟨(timeline.length + 2) / 3, totalPages_eq timeline p hlen, by omega, fun m hm => by omega⟩
  obtain ⟨hpage, hslice⟩ := createTimelineEmbed_of_pos timeline p hp
  refine ⟨hpage, ?_, ?_, ?_⟩
  · intro action currentPage hreq
    rw [hreq]; rfl
  · intro hle
    rw [hn] at hle
    refine ⟨?_, hslice, ?_⟩
    · rw [hn, min_eq_left hle, max_eq_right hp]
    · rw [hslice]
      have hlt : 3 * (p - 1).toNat < timeline.length := by
        by_contra hge
        have := hn2 (p - 1).toNat (by omega)
        omega
      intro hnil
      have hl := congrArg List.length hnil
      rw [List.length_take, List.length_drop] at hl
      simp only [List.length_nil] at hl
      omega
  · intro hlt
    rw [hn] at hlt
    rw [hslice]
    have hge : timeline.length ≤ 3 * (p - 1).toNat := by omega
    rw [List.drop_of_length_le hge]
    rfl

/-- C12, witness: on a timeline of seven rounds, page 3 of 3 is rendered as
page 3 with the seventh round alone, and page 4 as page 4 with no round. -/
theorem page_rendered_witness :
    ((createTimelineEmbed (plainTimeline 7) 3).slicedRounds = [plainEvents 7] ∧
      createTimelineEmbed (plainTimeline 7) 4
        = { page := 4, totalPages := 3, slicedRounds := [] }) ∧
    (createTimelineEmbed (plainTimeline 7) 3).page = 3 ∧
    (∀ action currentPage,
      (3 : Int) = (if action = "next" then currentPage + 1 else currentPage - 1) →
      (timelineButtonReply action currentPage (plainTimeline 7)).embed
        = createTimelineEmbed (plainTimeline 7) 3) ∧
    (3 ≤ (createTimelineEmbed (plainTimeline 7) 3).totalPages →
      (3 : Int) = max 1 (min 3 (createTimelineEmbed (plainTimeline 7) 3).totalPages) ∧
      (createTimelineEmbed (plainTimeline 7) 3).slicedRounds
        = ((plainTimeline 7).drop (3 * ((3 : Int) - 1).toNat)).take 3 ∧
      (createTimelineEmbed (plainTimeline 7) 3).slicedRounds ≠ []) ∧
    ((createTimelineEmbed (plainTimeline 7) 3).totalPages < 3 →
      (createTimelineEmbed (plainTimeline 7) 3).slicedRounds = []) :=
  ⟨by decide!, page_rendered (plainTimeline 7) 3 (by decide) (by decide)⟩

/-! ## C13 -/

/-- The button handler disables `Previous` on page 1 and `Next` on the last
page. -/
theorem button_reply_disables (action : String) (currentPage : Int) (timeline : List Events) :
    ((timelineButtonReply action currentPage timeline).embed.page = 1 →
      (timelineButtonReply action currentPage timeline).prevDisabled = true) ∧
    ((timelineButtonReply action currentPage timeline).embed.page = buttonTotalPages timeline →
      (timelineButtonReply action currentPage timeline).nextDisabled = true) := by
  constructor
  · intro h
    have h1 : (if action = "next" then currentPage + 1 else currentPage - 1) = 1 := h
    show decide ((if action = "next" then currentPage + 1 else currentPage - 1) ≤ 1) = true
    rw [h1]; rfl
  · intro h
    have h1 : (if action = "next" then currentPage + 1 else currentPage - 1)
        = buttonTotalPages timeline := h
    show decide ((if action = "next" then currentPage + 1 else currentPage - 1)
      ≥ buttonTotalPages timeline) = true
    rw [h1]; simp

/-- C13, the code at the failing input: for a timeline of two rounds the
reply of the timeline command shows page 1 of 1, `Previous` disabled and
`Next` enabled, although page 1 is the last page. -/
theorem initial_reply_next_enabled :
    timelineCommandReply (plainTimeline 2)
      = { embed := { page := 1, totalPages := 1, slicedRounds := plainTimeline 2 },
          prevDisabled := true, nextDisabled := false } := by
  decide!

/-! ## Profile summary: auxiliary facts -/

/-- What the loop of `getTopKey` leaves, started from the pair `acc`: either
`acc`, no later count exceeding its count, or the first entry whose count
exceeds the count of `acc` and is maximal. -/
theorem foldl_top_spec (obj : List (String × Nat)) (acc : String × Nat) :
    (obj.foldl (fun acc kv => if kv.2 > acc.2 then (kv.1, kv.2) else acc) acc = acc ∧
      ∀ p ∈ obj, p.2 ≤ acc.2) ∨
    ∃ pre post, obj = pre ++
        obj.foldl (fun acc kv => if kv.2 > acc.2 then (kv.1, kv.2) else acc) acc :: post ∧
      acc.2 < (obj.foldl (fun acc kv => if kv.2 > acc.2 then (kv.1, kv.2) else acc) acc).2 ∧
      (∀ p ∈ pre,
        p.2 < (obj.foldl (fun acc kv => if kv.2 > acc.2 then (kv.1, kv.2) else acc) acc).2) ∧
      ∀ p ∈ post,
        p.2 ≤ (obj.foldl (fun acc kv => if kv.2 > acc.2 then (kv.1, kv.2) else acc) acc).2 := by
  induction obj generalizing acc with
  | nil => exact Or.inl ⟨rfl, fun p hp => by cases hp⟩
  | cons kv rest ih =>
    rw [List.foldl_cons]
    by_cases hgt : kv.2 > acc.2
    · rw [if_pos hgt]
      rcases ih (kv.1, kv.2) with ⟨heq, hle⟩ | ⟨pre, post, hobj, hlt, hpre, hpost⟩
      · right
        rw [heq]
        exact ⟨[], rest, rfl, hgt, (fun p hp => by cases hp), hle⟩
      · right
        refine ⟨kv :: pre, post, by rw [List.cons_append, ← hobj], ?_, ?_, hpost⟩
        · exact lt_trans hgt hlt
        · intro p hp
          rcases List.mem_cons.1 hp with h1 | h1
          · rw [h1]; exact hlt
          · exact hpre p h1
    · rw [if_neg hgt]
      rcases ih acc with ⟨heq, hle⟩ | ⟨pre, post, hobj, hlt, hpre, hpost⟩
      · left
        refine ⟨heq, ?_⟩
        intro p hp
        rcases List.mem_cons.1 hp with h1 | h1
        · rw [h1]; exact not_lt.1 hgt
        · exact hle p h1
      · right
        refine ⟨kv :: pre, post, by rw [List.cons_append, ← hobj], hlt, ?_, hpost⟩
        intro p hp
        rcases List.mem_cons.1 hp with h1 | h1
        · rw [h1]; exact lt_of_le_of_lt (not_lt.1 hgt) hlt
        · exact hpre p h1

/-- In a frequency map with a positive count, the pair `getTopKey` ends with
is the first entry of maximal count. -/
theorem topPair_first_max (obj : List (String × Nat)) (h : ∃ p ∈ obj, 0 < p.2) :
    ∃ pre post, obj = pre ++ topPair obj :: post ∧
      (∀ p ∈ pre, p.2 < (topPair obj).2) ∧ ∀ p ∈ post, p.2 ≤ (topPair obj).2 := by
  rcases foldl_top_spec obj ("N/A", 0) with ⟨_, hle⟩ | ⟨pre, post, hobj, _, hpre, hpost⟩
  · obtain ⟨p, hp, hpos⟩ := h
    have := hle p hp
    simp only at this
    omega
  · exact ⟨pre, post, hobj, hpre, hpost⟩

/-- Away from the key text `N/A`, `getTopKey` renders the first entry of
maximal count as `key (count)`. -/
theorem getTopKey_first_max (obj : List (String × Nat)) (h : ∃ p ∈ obj, 0 < p.2)
    (hna : ∀ p ∈ obj, p.1 ≠ "N/A") :
    ∃ pre k v post, obj = pre ++ (k, v) :: post ∧
      (∀ p ∈ pre, p.2 < v) ∧ (∀ p ∈ post, p.2 ≤ v) ∧
      getTopKey obj = k ++ " (" ++ toString v ++ ")" := by
  obtain ⟨pre, post, hobj, hpre, hpost⟩ := topPair_first_max obj h
  refine ⟨pre, (topPair obj).1, (topPair obj).2, post, hobj, hpre, hpost, ?_⟩
  have hmem : topPair obj ∈ pre ++ topPair obj :: post := by simp
  rw [← hobj] at hmem
  unfold getTopKey
  rw [if_neg (hna _ hmem)]

/-! ## C16 -/

/-- C16, the code at the failing input: in the frequency map
`N/A: 2, Jett: 1` the key `N/A` has the maximal count 2, and `getTopKey`
reports `None`; so does `getTopStats` as top agent for an identity that
played the agent `N/A` twice and `Jett` once. -/
theorem getTopKey_sentinel_collision :
    getTopKey [("N/A", 2), ("Jett", 1)] = "None" ∧
    (accumulate asciiLower sentinelMatches annTarget).agents = [("N/A", 2), ("Jett", 1)] ∧
    (getTopStats asciiLower sentinelMatches annTarget).map Summary.topAgent = some "None" := by
  decide!

theorem matchStep_totals (toLowerCase : String → String)
    (t : Target) (acc : TopAcc) (m : MatchData) :
    (matchStep toLowerCase t acc m).totals
      = match appears toLowerCase t m with
        | none => acc.totals
        | some p => addStats acc.totals p.stats := by
  unfold matchStep appears
  cases m.metadata with
  | none => rfl
  | some md =>
    cases m.players with
    | none => rfl
    | some all =>
      simp only
      cases all.find? (isTarget toLowerCase t) with
      | none => rfl
      | some p => rfl

theorem matchStep_weapons (toLowerCase : String → String)
    (t : Target) (acc : TopAcc) (m : MatchData) :
    (matchStep toLowerCase t acc m).weapons
      = (ownKills toLowerCase t m).foldl (fun ws k => bump ws (weaponOf k)) acc.weapons := by
  unfold matchStep ownKills appears
  cases m.metadata with
  | none => rfl
  | some md =>
    cases m.players with
    | none => rfl
    | some all =>
      simp only
      cases all.find? (isTarget toLowerCase t) with
      | none => rfl
      | some p =>
        simp only [addPlayer, countWeapons]
        cases m.kills with
        | none => rfl
        | some ks => rfl

/-- A match in which the identity does not appear changes at most the map
counts. -/
theorem matchStep_of_not_appears (toLowerCase : String → String)
    (t : Target) (acc : TopAcc) (m : MatchData)
    (h : appears toLowerCase t m = none) :
    (matchStep toLowerCase t acc m).agents = acc.agents ∧ (matchStep toLowerCase t acc m).weapons = acc.weapons ∧
    (matchStep toLowerCase t acc m).friends = acc.friends ∧ (matchStep toLowerCase t acc m).totals = acc.totals := by
  unfold matchStep
  unfold appears at h
  cases hm : m.metadata with
  | none => exact ⟨rfl, rfl, rfl, rfl⟩
  | some md =>
    cases hp : m.players with
    | none => exact ⟨rfl, rfl, rfl, rfl⟩
    | some all =>
      simp only [hm, hp] at h
      simp only [h]
      exact ⟨trivial, trivial, trivial, trivial⟩

/-- The map counts of a step depend on the map counts before it only, the
other accumulators on the other accumulators only. -/
theorem matchStep_congr (toLowerCase : String → String)
    (t : Target) (acc acc2 : TopAcc) (m : MatchData)
    (h : acc.agents = acc2.agents ∧ acc.weapons = acc2.weapons ∧
      acc.friends = acc2.friends ∧ acc.totals = acc2.totals) :
    (matchStep toLowerCase t acc m).agents = (matchStep toLowerCase t acc2 m).agents ∧
    (matchStep toLowerCase t acc m).weapons = (matchStep toLowerCase t acc2 m).weapons ∧
    (matchStep toLowerCase t acc m).friends = (matchStep toLowerCase t acc2 m).friends ∧
    (matchStep toLowerCase t acc m).totals = (matchStep toLowerCase t acc2 m).totals := by
  obtain ⟨h1, h2, h3, h4⟩ := h
  unfold matchStep
  cases m.metadata with
  | none => exact ⟨h1, h2, h3, h4⟩
  | some md =>
    cases m.players with
    | none => exact ⟨h1, h2, h3, h4⟩
    | some all =>
      simp only
      cases all.find? (isTarget toLowerCase t) with
      | none => exact ⟨h1, h2, h3, h4⟩
      | some p =>
        simp only [addPlayer, h1, h2, h3, h4]
        exact ⟨trivial, trivial, trivial, trivial⟩

theorem foldl_matchStep_congr (toLowerCase : String → String)
    (t : Target) (ms : List MatchData) (acc acc2 : TopAcc)
    (h : acc.agents = acc2.agents ∧ acc.weapons = acc2.weapons ∧
      acc.friends = acc2.friends ∧ acc.totals = acc2.totals) :
    (ms.foldl (matchStep toLowerCase t) acc).agents = (ms.foldl (matchStep toLowerCase t) acc2).agents ∧
    (ms.foldl (matchStep toLowerCase t) acc).weapons = (ms.foldl (matchStep toLowerCase t) acc2).weapons ∧
    (ms.foldl (matchStep toLowerCase t) acc).friends = (ms.foldl (matchStep toLowerCase t) acc2).friends ∧
    (ms.foldl (matchStep toLowerCase t) acc).totals = (ms.foldl (matchStep toLowerCase t) acc2).totals := by
  induction ms generalizing acc acc2 with
  | nil => exact h
  | cons m ms ih => exact ih _ _ (matchStep_congr toLowerCase t acc acc2 m h)

theorem foldl_matchStep_totals (toLowerCase : String → String)
    (t : Target) (ms : List MatchData) (acc : TopAcc) :
    (ms.foldl (matchStep toLowerCase t) acc).totals
      = ((ms.filterMap (appears toLowerCase t)).foldl (fun tot p => addStats tot p.stats) acc.totals) := by
  induction ms generalizing acc with
  | nil => rfl
  | cons m ms ih =>
    rw [List.foldl_cons, ih, matchStep_totals, List.filterMap_cons]
    cases appears toLowerCase t m with
    | none => rfl
    | some p => rfl

theorem foldl_addStats (f : Stats → Nat) (g : Totals → Nat)
    (hfg : ∀ tot s, g (addStats tot s) = g tot + f s) (ps : List Player) (tot : Totals) :
    g (ps.foldl (fun tot p => addStats tot p.stats) tot)
      = g tot + (ps.map (fun p => f p.stats)).sum := by
  induction ps generalizing tot with
  | nil => simp
  | cons p ps ih =>
    rw [List.foldl_cons, ih, hfg, List.map_cons, List.sum_cons]
    omega

/-- The totals `getTopStats` accumulates are the sums over the matches in
which the identity appears. -/
theorem accumulate_totals (toLowerCase : String → String) (ms : List MatchData) (t : Target) :
    (accumulate toLowerCase ms t).totals.kills = cumulative toLowerCase Stats.kills t ms ∧
    (accumulate toLowerCase ms t).totals.deaths = cumulative toLowerCase Stats.deaths t ms ∧
    (accumulate toLowerCase ms t).totals.headshots = cumulative toLowerCase Stats.headshots t ms ∧
    (accumulate toLowerCase ms t).totals.shots
      = cumulative toLowerCase (fun s => s.bodyshots + s.headshots + s.legshots) t ms := by
  unfold accumulate cumulative
  rw [foldl_matchStep_totals]
  refine ⟨?_, ?_, ?_, ?_⟩
  · rw [foldl_addStats Stats.kills Totals.kills (fun _ _ => rfl)]
    simp [emptyAcc]
  · rw [foldl_addStats Stats.deaths Totals.deaths (fun _ _ => rfl)]
    simp [emptyAcc]
  · rw [foldl_addStats Stats.headshots Totals.headshots (fun _ _ => rfl)]
    simp [emptyAcc]
  · rw [foldl_addStats (fun s => s.bodyshots + s.headshots + s.legshots) Totals.shots
      (fun _ _ => rfl)]
    simp [emptyAcc]

theorem toFixed2_natCast (K : ℕ) : toFixed2 (K : ℚ) = toString K ++ ".00" := by
  have hfloor : ⌊(K : ℚ) * 100 + 1 / 2⌋ = ((K * 100 : ℕ) : ℤ) := by
    rw [Int.floor_eq_iff]
    push_cast
    constructor <;> linarith
  unfold toFixed2
  rw [hfloor, Int.toNat_natCast, Nat.mul_div_cancel K (by norm_num), Nat.mul_mod_left]
  have h0 : toString (0 : ℕ) = "0" := by decide
  rw [if_pos (by norm_num), h0, String.append_assoc, String.append_assoc]
  rfl

/-! ## C14 -/

/-- C14, counterexample: on the empty match list the cumulative deaths and
kills are 0 and `getTopStats` returns `null`, a result without `kda`. -/
theorem no_kda_on_empty_list :
    cumulative asciiLower Stats.deaths annTarget [] = 0 ∧ cumulative asciiLower Stats.kills annTarget [] = 0 ∧
    getTopStats asciiLower [] annTarget = none := by
  decide

/-- C14, amended: KDA guard.  For every non-empty match list in which the
identity's cumulative deaths are 0 and cumulative kills are `K`,
`getTopStats` returns a summary whose `kda` is `K` rendered with two
decimals, `K.00`, and whose `totalKills` is `K`. -/
theorem kda_guard (toLowerCase : String → String) (ms : List MatchData) (t : Target) (hne : ms ≠ [])
    (hd : cumulative toLowerCase Stats.deaths t ms = 0) :
    ∃ s, getTopStats toLowerCase ms t = some s ∧
      s.kda = toString (cumulative toLowerCase Stats.kills t ms) ++ ".00" ∧
      s.totalKills = cumulative toLowerCase Stats.kills t ms := by
  obtain ⟨hk, hdeaths, _, _⟩ := accumulate_totals toLowerCase ms t
  have hlen : ¬ ms.length = 0 := fun h => hne (List.length_eq_zero.1 h)
  unfold getTopStats
  rw [if_neg hlen]
  refine ⟨_, rfl, ?_, hk⟩
  show kdOf (accumulate toLowerCase ms t).totals = _
  unfold kdOf
  rw [hdeaths, hd, if_neg (by omega), hk]
  exact toFixed2_natCast _

/-- C14, witness: two matches with 7 and 5 kills and no death give the KDA
`12.00`. -/
theorem kda_guard_witness :
    (cumulative asciiLower Stats.deaths annTarget deathlessMatches = 0 ∧
      cumulative asciiLower Stats.kills annTarget deathlessMatches = 12 ∧
      (getTopStats asciiLower deathlessMatches annTarget).map Summary.kda = some "12.00") ∧
    ∃ s, getTopStats asciiLower deathlessMatches annTarget = some s ∧
      s.kda = toString (cumulative asciiLower Stats.kills annTarget deathlessMatches) ++ ".00" ∧
      s.totalKills = cumulative asciiLower Stats.kills annTarget deathlessMatches :=
  ⟨by decide!, kda_guard asciiLower deathlessMatches annTarget (by decide) (by decide)⟩

/-! ## C15 -/

theorem roundHalfEven_le_add_half (q : ℚ) : (roundHalfEven q : ℚ) ≤ q + 1 / 2 := by
  have hf := Int.floor_le q
  unfold roundHalfEven
  split
  · linarith
  · split
    · rename_i h1 h2
      push_cast
      have := Int.floor_le q
      have hlt : q - ⌊q⌋ < 1 := by
        have := Int.lt_floor_add_one q
        linarith
      linarith
    · split
      · linarith
      · rename_i h1 h2 _
        have : q - ⌊q⌋ = 1 / 2 := le_antisymm (not_lt.1 h2) (not_lt.1 h1)
        push_cast; linarith

/-- Rounding to a double adds at most the fraction `2 ^ -53` to a positive
rational. -/
theorem toDouble_le_add (x : ℚ) (hx : 0 < x) : toDouble x ≤ x + x / 2 ^ 53 := by
  rw [toDouble_of_nonneg x hx.le]
  have hu : (0 : ℚ) < (2 : ℚ) ^ (binade x - 52) := by positivity
  have h1 := roundHalfEven_le_add_half (x / (2 : ℚ) ^ (binade x - 52))
  have h2 : (roundHalfEven (x / (2 : ℚ) ^ (binade x - 52)) : ℚ) * (2 : ℚ) ^ (binade x - 52)
      ≤ (x / (2 : ℚ) ^ (binade x - 52) + 1 / 2) * (2 : ℚ) ^ (binade x - 52) :=
    mul_le_mul_of_nonneg_right h1 hu.le
  have h3 : (x / (2 : ℚ) ^ (binade x - 52) + 1 / 2) * (2 : ℚ) ^ (binade x - 52)
      = x + (2 : ℚ) ^ (binade x - 52) / 2 := by
    field_simp
    ring
  have h4 : (2 : ℚ) ^ (binade x - 52) = (2 : ℚ) ^ binade x / 2 ^ 52 := by
    rw [zpow_sub₀ (by norm_num : (2 : ℚ) ≠ 0)]
    norm_num
  have h5 : (2 : ℚ) ^ (binade x - 52) / 2 ≤ x / 2 ^ 53 := by
    rw [h4]
    have := (binade_spec x hx).1
    have h6 : (2 : ℚ) ^ binade x / 2 ^ 52 / 2 = (2 : ℚ) ^ binade x / 2 ^ 53 := by
      rw [div_div]
      norm_num
    rw [h6]
    exact div_le_div_of_nonneg_right this (by positivity)
  linarith

/-- The percentage computed in doubles lies in `0..100`. -/
theorem double_percent_bounds (h s : ℕ) (hs : 0 < s) (hle : h ≤ s) :
    0 ≤ mathRound (toDouble (toDouble ((h : ℚ) / (s : ℚ)) * 100)) ∧
    mathRound (toDouble (toDouble ((h : ℚ) / (s : ℚ)) * 100)) ≤ 100 := by
  have hsq : (0 : ℚ) < (s : ℚ) := by exact_mod_cast hs
  have hx0 : (0 : ℚ) ≤ (h : ℚ) / (s : ℚ) := by positivity
  have hx1 : (h : ℚ) / (s : ℚ) ≤ ((1 : ℕ) : ℚ) := by
    rw [div_le_iff₀ hsq]; push_cast; rw [one_mul]; exact_mod_cast hle
  have hy0 := toDouble_nonneg _ hx0
  have hy1 := toDouble_le_nat _ 1 hx0 hx1 (lt_of_le_of_lt hx1 (by norm_num))
  push_cast at hy1
  have hz0 : (0 : ℚ) ≤ toDouble ((h : ℚ) / (s : ℚ)) * 100 := by positivity
  have hz1 : toDouble ((h : ℚ) / (s : ℚ)) * 100 ≤ ((100 : ℕ) : ℚ) := by
    push_cast; linarith
  have hw0 := toDouble_nonneg _ hz0
  have hw1 := toDouble_le_nat _ 100 hz0 hz1 (lt_of_le_of_lt hz1 (by norm_num))
  push_cast at hw1
  unfold mathRound
  constructor
  · apply Int.floor_nonneg.2; linarith
  · have : toDouble (toDouble ((h : ℚ) / (s : ℚ)) * 100) + 1 / 2 < ((101 : ℤ) : ℚ) := by
      push_cast; linarith
    have := Int.floor_lt.2 this
    omega

/-- The percentage computed in doubles is within one of the exactly rounded
percentage. -/
theorem double_percent_close (h s : ℕ) (hs : 0 < s) (hle : h ≤ s) :
    mathRound (toDouble (toDouble ((h : ℚ) / (s : ℚ)) * 100))
        ≤ mathRound ((h : ℚ) / (s : ℚ) * 100) + 1 ∧
    mathRound ((h : ℚ) / (s : ℚ) * 100)
        ≤ mathRound (toDouble (toDouble ((h : ℚ) / (s : ℚ)) * 100)) + 1 := by
  have hsq : (0 : ℚ) < (s : ℚ) := by exact_mod_cast hs
  have hx0 : (0 : ℚ) ≤ (h : ℚ) / (s : ℚ) := by positivity
  have hx1 : (h : ℚ) / (s : ℚ) ≤ ((1 : ℕ) : ℚ) := by
    rw [div_le_iff₀ hsq]; push_cast; rw [one_mul]; exact_mod_cast hle
  push_cast at hx1
  have hclose : ∀ a b : ℚ, a - b < 1 → ⌊a + 1 / 2⌋ ≤ ⌊b + 1 / 2⌋ + 1 := by
    intro a b hab
    have h1 := Int.floor_le (a + 1 / 2)
    have h2 := Int.lt_floor_add_one (b + 1 / 2)
    have h3 : ((⌊a + 1 / 2⌋ : ℤ) : ℚ) < ((⌊b + 1 / 2⌋ + 2 : ℤ) : ℚ) := by
      push_cast; linarith
    have h4 : ⌊a + 1 / 2⌋ < ⌊b + 1 / 2⌋ + 2 := by exact_mod_cast h3
    omega
  have hsmall : (200 : ℚ) / 2 ^ 53 < 1 := by norm_num
  rcases eq_or_lt_of_le hx0 with h0 | hpos
  · rw [← h0, toDouble_zero, zero_mul, toDouble_zero]
    constructor <;> omega
  · have hy1 := toDouble_le_nat _ 1 hx0 (by push_cast; exact hx1)
      (lt_of_le_of_lt hx1 (by norm_num))
    push_cast at hy1
    have hyl := sub_le_toDouble _ hpos
    have hyu := toDouble_le_add _ hpos
    have hxs : (h : ℚ) / (s : ℚ) / 2 ^ 53 ≤ 1 / 2 ^ 53 :=
      div_le_div_of_nonneg_right hx1 (by positivity)
    have hypos : (0 : ℚ) < toDouble ((h : ℚ) / (s : ℚ)) := by
      have : (h : ℚ) / (s : ℚ) / 2 ^ 53 < (h : ℚ) / (s : ℚ) := by
        rw [div_lt_iff₀ (by positivity)]
        have : (1 : ℚ) < 2 ^ 53 := by norm_num
        nlinarith
      linarith
    have hwpos : (0 : ℚ) < toDouble ((h : ℚ) / (s : ℚ)) * 100 := by positivity
    have hzl := sub_le_toDouble _ hwpos
    have hzu := toDouble_le_add _ hwpos
    have hws : toDouble ((h : ℚ) / (s : ℚ)) * 100 / 2 ^ 53 ≤ 100 / 2 ^ 53 :=
      div_le_div_of_nonneg_right (by linarith) (by positivity)
    have e1 : (200 : ℚ) / 2 ^ 53 = 100 * (1 / 2 ^ 53) + 100 / 2 ^ 53 := by ring
    unfold mathRound
    constructor
    · apply hclose; linarith
    · apply hclose; linarith

/-- The binade of a positive rational is the only exponent `e` with
`2 ^ e ≤ x < 2 ^ (e + 1)`. -/
theorem binade_unique (x : ℚ) (e : ℤ) (hx : 0 < x) (h1 : (2 : ℚ) ^ e ≤ x)
    (h2 : x < (2 : ℚ) ^ (e + 1)) : binade x = e := by
  obtain ⟨b1, b2⟩ := binade_spec x hx
  have ha : binade x < e + 1 :=
    (zpow_lt_zpow_iff_right₀ (by norm_num : (1 : ℚ) < 2)).1 (lt_of_le_of_lt b1 h2)
  have hb : e < binade x + 1 :=
    (zpow_lt_zpow_iff_right₀ (by norm_num : (1 : ℚ) < 2)).1 (lt_of_le_of_lt h1 b2)
  omega

/-- The double nearest to a positive rational, from its binade and the rounded
significand. -/
theorem toDouble_of_binade (x : ℚ) (e n : ℤ) (hx : 0 < x) (h1 : (2 : ℚ) ^ e ≤ x)
    (h2 : x < (2 : ℚ) ^ (e + 1)) (hr : roundHalfEven (x / 2 ^ (e - 52)) = n) :
    toDouble x = n * 2 ^ (e - 52) := by
  rw [toDouble_of_nonneg x hx.le, binade_unique x e hx h1 h2, hr]

/-- C15, counterexample: with 23 headshots among 40 shots `getTopStats`
returns `57%`, while `round(23 / 40 * 100) = round(57.5) = 58`: the double
product `(23 / 40) * 100` falls just below 57.5. -/
theorem headshot_percent_not_exact :
    cumulative asciiLower Stats.headshots annTarget fortyShotMatches = 23 ∧
    cumulative asciiLower (fun s => s.bodyshots + s.headshots + s.legshots) annTarget fortyShotMatches = 40 ∧
    (getTopStats asciiLower fortyShotMatches annTarget).map Summary.hs = some "57%" ∧
    toDouble (toDouble ((23 : ℚ) / 40) * 100) = 8092405580431359 / 140737488355328 ∧
    mathRound ((23 : ℚ) / 40 * 100) = 58 := by
  have hq : toDouble ((23 : ℚ) / 40) = 2589569785738035 / 4503599627370496 := by decide!
  have hprod : (2589569785738035 / 4503599627370496 : ℚ) * 100
      = 64739244643450875 / 1125899906842624 := by norm_num
  have hd : toDouble (toDouble ((23 : ℚ) / 40) * 100)
      = 8092405580431359 / 140737488355328 := by
    rw [hq, hprod]
    rw [toDouble_of_binade _ 5 8092405580431359 (by norm_num) (by norm_num) (by norm_num)
      (by decide!)]
    norm_num
  have hhead : (accumulate asciiLower fortyShotMatches annTarget).totals.headshots = 23 := by decide!
  have hshots : (accumulate asciiLower fortyShotMatches annTarget).totals.shots = 40 := by decide!
  have hhs : hsOf (accumulate asciiLower fortyShotMatches annTarget).totals = 57 := by
    unfold hsOf
    rw [hhead, hshots, if_pos (by decide)]
    push_cast
    rw [hd]
    decide!
  refine ⟨by decide!, by decide!, ?_, hd, by decide!⟩
  unfold getTopStats
  rw [if_neg (by decide)]
  simp only [Option.map_some', hhs]
  decide

/-- C15, amended: the headshot percentage `getTopStats` returns is `Math.round`
of the double-precision value of `headshots / totalShots * 100`, where
`headshots` and `totalShots = bodyshots + headshots + legshots` are summed over
the matches in which the identity appears; it is 0 when `totalShots = 0`, lies
in `0..100`, and is within one of the exactly rounded percentage. -/
theorem headshot_percent (toLowerCase : String → String)
    (ms : List MatchData) (t : Target) (s : Summary)
    (h : getTopStats toLowerCase ms t = some s) :
    ∃ pct : Int, s.hs = toString pct ++ "%" ∧
      (cumulative toLowerCase (fun s => s.bodyshots + s.headshots + s.legshots) t ms = 0 → pct = 0) ∧
      (0 < cumulative toLowerCase (fun s => s.bodyshots + s.headshots + s.legshots) t ms →
        pct = mathRound (toDouble (toDouble
          ((cumulative toLowerCase Stats.headshots t ms : ℚ)
            / (cumulative toLowerCase (fun s => s.bodyshots + s.headshots + s.legshots) t ms : ℚ)) * 100)) ∧
        pct ≤ mathRound ((cumulative toLowerCase Stats.headshots t ms : ℚ)
            / (cumulative toLowerCase (fun s => s.bodyshots + s.headshots + s.legshots) t ms : ℚ) * 100) + 1 ∧
        mathRound ((cumulative toLowerCase Stats.headshots t ms : ℚ)
            / (cumulative toLowerCase (fun s => s.bodyshots + s.headshots + s.legshots) t ms : ℚ) * 100)
          ≤ pct + 1) ∧
      0 ≤ pct ∧ pct ≤ 100 := by
  obtain ⟨_, _, hhead, hshots⟩ := accumulate_totals toLowerCase ms t
  have hle : cumulative toLowerCase Stats.headshots t ms
      ≤ cumulative toLowerCase (fun s => s.bodyshots + s.headshots + s.legshots) t ms := by
    unfold cumulative
    apply List.sum_le_sum
    intro p _
    show p.stats.headshots ≤ p.stats.bodyshots + p.stats.headshots + p.stats.legshots
    omega
  unfold getTopStats at h
  by_cases hlen : ms.length = 0
  · rw [if_pos hlen] at h; cases h
  · rw [if_neg hlen] at h
    simp only [Option.some.injEq] at h
    refine ⟨hsOf (accumulate toLowerCase ms t).totals, by rw [← h], ?_, ?_, ?_⟩
    · intro h0
      unfold hsOf
      rw [hshots, h0, if_neg (by omega)]
    · intro hpos
      have heq : hsOf (accumulate toLowerCase ms t).totals = mathRound (toDouble (toDouble
          ((cumulative toLowerCase Stats.headshots t ms : ℚ)
            / (cumulative toLowerCase (fun s => s.bodyshots + s.headshots + s.legshots) t ms : ℚ))
          * 100)) := by
        unfold hsOf
        rw [hshots, hhead, if_pos hpos]
      rw [heq]
      exact ⟨rfl, double_percent_close _ _ hpos hle⟩
    · unfold hsOf
      rw [hshots, hhead]
      by_cases hpos : 0 < cumulative toLowerCase (fun s => s.bodyshots + s.headshots + s.legshots) t ms
      · rw [if_pos hpos]
        exact double_percent_bounds _ _ hpos hle
      · rw [if_neg hpos]
        omega

/-- C15, witness: 15 headshots among the 60 shots of the two matches in which
the identity appears give `25%`; the shots of the match without her do not
count. -/
theorem headshot_percent_witness :
    (cumulative asciiLower Stats.headshots annTarget quarterShotMatches = 15 ∧
      cumulative asciiLower (fun s => s.bodyshots + s.headshots + s.legshots) annTarget
        quarterShotMatches = 60 ∧
      (getTopStats asciiLower quarterShotMatches annTarget).map Summary.hs = some "25%") ∧
    ∃ pct : Int, (quarterShotSummary).hs = toString pct ++ "%" ∧
      (cumulative asciiLower (fun s => s.bodyshots + s.headshots + s.legshots) annTarget
          quarterShotMatches = 0 → pct = 0) ∧
      (0 < cumulative asciiLower (fun s => s.bodyshots + s.headshots + s.legshots) annTarget
          quarterShotMatches →
        pct = mathRound (toDouble (toDouble
          ((cumulative asciiLower Stats.headshots annTarget quarterShotMatches : ℚ)
            / (cumulative asciiLower (fun s => s.bodyshots + s.headshots + s.legshots) annTarget
                quarterShotMatches : ℚ)) * 100)) ∧
        pct ≤ mathRound ((cumulative asciiLower Stats.headshots annTarget quarterShotMatches : ℚ)
            / (cumulative asciiLower (fun s => s.bodyshots + s.headshots + s.legshots) annTarget
                quarterShotMatches : ℚ) * 100) + 1 ∧
        mathRound ((cumulative asciiLower Stats.headshots annTarget quarterShotMatches : ℚ)
            / (cumulative asciiLower (fun s => s.bodyshots + s.headshots + s.legshots) annTarget
                quarterShotMatches : ℚ) * 100)
          ≤ pct + 1) ∧
      0 ≤ pct ∧ pct ≤ 100 :=
  ⟨by decide!, headshot_percent asciiLower quarterShotMatches annTarget quarterShotSummary (by decide!)⟩

/-! ## C17 -/

theorem getKey_bump (obj : List (String × Nat)) (k w : String) :
    (getKey (bump obj k) w).getD 0 = (getKey obj w).getD 0 + (if k = w then 1 else 0) := by
  unfold bump
  by_cases h : k = w
  · subst h
    rw [getKey_assign_self]
    simp
  · rw [getKey_assign_of_ne _ _ _ _ h]
    simp [h]

theorem map_replace_of_not_mem (o : List (String × Nat)) (k : String) (v : Nat)
    (h : k ∉ o.map Prod.fst) : o.map (fun p => if p.1 == k then (k, v) else p) = o := by
  induction o with
  | nil => rfl
  | cons p o ih =>
    rw [List.map_cons, List.mem_cons, not_or] at h
    rw [List.map_cons, ih h.2]
    have : ¬ p.1 = k := fun e => h.1 e.symm
    simp [this]

theorem sum_replace (o : List (String × Nat)) (k : String) (v : Nat)
    (hnd : (o.map Prod.fst).Nodup) (hk : k ∈ o.map Prod.fst) :
    ((o.map (fun p => if p.1 == k then (k, v) else p)).map Prod.snd).sum + (getKey o k).getD 0
      = (o.map Prod.snd).sum + v := by
  induction o with
  | nil => simp at hk
  | cons p o ih =>
    rw [List.map_cons, List.nodup_cons] at hnd
    rw [getKey_cons]
    by_cases h : p.1 = k
    · have hnot : k ∉ o.map Prod.fst := h ▸ hnd.1
      rw [List.map_cons, map_replace_of_not_mem o k v hnot]
      simp [h]
      omega
    · have hmem : k ∈ o.map Prod.fst := by
        rw [List.map_cons, List.mem_cons] at hk
        rcases hk with e | e
        · exact absurd e.symm h
        · exact e
      have := ih hnd.2 hmem
      have hb : (p.1 == k) = false := by simpa using h
      simp only [List.map_cons, List.sum_cons, hb, Bool.false_eq_true, if_false, h]
      omega

/-- One increment keeps the keys distinct and adds one to the sum of the
counts. -/
theorem bump_sum (obj : List (String × Nat)) (k : String)
    (hnd : (obj.map Prod.fst).Nodup) :
    ((bump obj k).map Prod.fst).Nodup ∧
    ((bump obj k).map Prod.snd).sum = (obj.map Prod.snd).sum + 1 := by
  unfold bump
  by_cases hk : k ∈ obj.map Prod.fst
  · rw [assign_of_mem _ _ _ hk, map_fst_replace]
    refine ⟨hnd, ?_⟩
    have := sum_replace obj k ((getKey obj k).getD 0 + 1) hnd hk
    omega
  · obtain ⟨pre, post, ho, ha⟩ := assign_of_not_mem obj k ((getKey obj k).getD 0 + 1) hk
    rw [ha, (getKey_eq_none_iff obj k).2 hk]
    have hperm : (pre ++ (k, (none : Option Nat).getD 0 + 1) :: post).Perm
        ((k, (none : Option Nat).getD 0 + 1) :: obj) := by
      rw [ho]
      exact List.perm_middle
    constructor
    · have hp2 := hperm.map Prod.fst
      rw [hp2.nodup_iff, List.map_cons, List.nodup_cons]
      exact ⟨hk, hnd⟩
    · have hp2 := (hperm.map Prod.snd).sum_eq
      rw [hp2, List.map_cons, List.sum_cons]
      simp
      omega

theorem foldl_bump_count (ks : List Kill) (obj : List (String × Nat)) (w : String) :
    (getKey (ks.foldl (fun ws k => bump ws (weaponOf k)) obj) w).getD 0
      = (getKey obj w).getD 0 + (ks.filter (fun k => weaponOf k = w)).length := by
  induction ks generalizing obj with
  | nil => simp
  | cons k ks ih =>
    rw [List.foldl_cons, ih, getKey_bump, List.filter_cons]
    by_cases h : weaponOf k = w
    · simp [h]; omega
    · simp [h]

theorem foldl_bump_sum (ks : List Kill) (obj : List (String × Nat))
    (hnd : (obj.map Prod.fst).Nodup) :
    ((ks.foldl (fun ws k => bump ws (weaponOf k)) obj).map Prod.fst).Nodup ∧
    ((ks.foldl (fun ws k => bump ws (weaponOf k)) obj).map Prod.snd).sum
      = (obj.map Prod.snd).sum + ks.length := by
  induction ks generalizing obj with
  | nil => exact ⟨hnd, by simp⟩
  | cons k ks ih =>
    obtain ⟨h1, h2⟩ := bump_sum obj (weaponOf k) hnd
    obtain ⟨h3, h4⟩ := ih (bump obj (weaponOf k)) h1
    rw [List.foldl_cons]
    refine ⟨h3, ?_⟩
    rw [h4, h2, List.length_cons]
    omega

/-- The weapon map is the fold of the increments over the identity's own kill
events, match after match. -/
theorem foldl_matchStep_weapons (toLowerCase : String → String)
    (t : Target) (ms : List MatchData) (acc : TopAcc) :
    (ms.foldl (matchStep toLowerCase t) acc).weapons
      = ((ms.map (ownKills toLowerCase t)).flatten).foldl (fun ws k => bump ws (weaponOf k)) acc.weapons := by
  induction ms generalizing acc with
  | nil => rfl
  | cons m ms ih =>
    rw [List.foldl_cons, ih, matchStep_weapons, List.map_cons, List.flatten_cons, List.foldl_append]

theorem ownKills_without (toLowerCase : String → String)
    (t : Target) (m : MatchData) (ks1 ks2 : List Kill) (k : Kill)
    (hk : ∀ p, appears toLowerCase t m = some p → k.killer_puuid ≠ p.puuid) :
    ownKills toLowerCase t { m with kills := some (ks1 ++ k :: ks2) }
      = ownKills toLowerCase t { m with kills := some (ks1 ++ ks2) } := by
  have happ1 : appears toLowerCase t { m with kills := some (ks1 ++ k :: ks2) } = appears toLowerCase t m := rfl
  have happ2 : appears toLowerCase t { m with kills := some (ks1 ++ ks2) } = appears toLowerCase t m := rfl
  unfold ownKills
  rw [happ1, happ2]
  cases h : appears toLowerCase t m with
  | none => rfl
  | some p =>
    have := hk p h
    simp [List.filter_append, List.filter_cons, this]

/-- C17: the weapon frequency map `getTopStats` builds has one entry per weapon
name, the count of a weapon is the number of kill events with that weapon whose
killer id is the identity's in-match player id, the counts sum to the number of
such kill events, and removing from a match a kill event of another player
leaves the map as it is; `topWeapon` is `getTopKey` of this map. -/
theorem weapon_counts (toLowerCase : String → String) (ms : List MatchData) (t : Target) :
    ((accumulate toLowerCase ms t).weapons.map Prod.fst).Nodup ∧
    (∀ w : String, (getKey (accumulate toLowerCase ms t).weapons w).getD 0
        = (((ms.map (ownKills toLowerCase t)).flatten).filter (fun k => weaponOf k = w)).length) ∧
    ((accumulate toLowerCase ms t).weapons.map Prod.snd).sum = ((ms.map (ownKills toLowerCase t)).flatten).length ∧
    (∀ (pre post : List MatchData) (m : MatchData) (ks1 ks2 : List Kill) (k : Kill),
        ms = pre ++ { m with kills := some (ks1 ++ k :: ks2) } :: post →
        (∀ p, appears toLowerCase t m = some p → k.killer_puuid ≠ p.puuid) →
        (accumulate toLowerCase (pre ++ { m with kills := some (ks1 ++ ks2) } :: post) t).weapons
          = (accumulate toLowerCase ms t).weapons) ∧
    (∀ s, getTopStats toLowerCase ms t = some s →
      s.topWeapon = getTopKey (accumulate toLowerCase ms t).weapons) := by
  have htop : ∀ s, getTopStats toLowerCase ms t = some s →
      s.topWeapon = getTopKey (accumulate toLowerCase ms t).weapons := by
    intro s hs
    unfold getTopStats at hs
    split at hs
    · cases hs
    · simp only [Option.some.injEq] at hs
      rw [← hs]
  refine ⟨?_, ?_, ?_, ?_, htop⟩
  all_goals unfold accumulate
  · rw [foldl_matchStep_weapons]
    exact (foldl_bump_sum _ _ (by simp [emptyAcc])).1
  · intro w
    rw [foldl_matchStep_weapons, foldl_bump_count]
    simp [emptyAcc, getKey_nil]
  · rw [foldl_matchStep_weapons, (foldl_bump_sum _ _ (by simp [emptyAcc])).2]
    simp [emptyAcc]
  · intro pre post m ks1 ks2 k hms hk
    rw [hms, foldl_matchStep_weapons, foldl_matchStep_weapons, List.map_append, List.map_append,
      List.map_cons, List.map_cons, ownKills_without toLowerCase t m ks1 ks2 k hk]

/-- C17, witness: in `duelMatches` the four kills of `Ann#EU1` give the weapon
map `Vandal: 2, Ability: 2`, and the map is the same without Bob's Phantom
kill. -/
theorem weapon_counts_witness :
    (accumulate asciiLower duelMatches annTarget).weapons = [("Vandal", 2), ("Ability", 2)] ∧
    ((accumulate asciiLower duelMatches annTarget).weapons.map Prod.snd).sum = 4 ∧
    ((duelMatches.map (ownKills asciiLower annTarget)).flatten).length = 4 ∧
    (accumulate asciiLower ([] ++ { profileMatch "Bind"
          [profilePlayer "p-ann" "Ann" "Jett" none 4 2 1 1 0,
           profilePlayer "p-bob" "Bob" "Omen" none 2 2 1 1 0] [] with
          kills := some ([profileKill "p-ann" (some "Vandal")] ++
            [profileKill "p-ann" (some "Ultimate"), profileKill "p-ann" (some "Vandal"),
             profileKill "p-bob" (some "Vandal"), profileKill "p-ann" none]) } :: []) annTarget).weapons
      = (accumulate asciiLower duelMatches annTarget).weapons :=
  ⟨by decide, by decide, by decide,
    (weapon_counts asciiLower duelMatches annTarget).2.2.2.1 [] []
      (profileMatch "Bind"
          [profilePlayer "p-ann" "Ann" "Jett" none 4 2 1 1 0,
           profilePlayer "p-bob" "Bob" "Omen" none 2 2 1 1 0] [])
      [profileKill "p-ann" (some "Vandal")]
      [profileKill "p-ann" (some "Ultimate"), profileKill "p-ann" (some "Vandal"),
       profileKill "p-bob" (some "Vandal"), profileKill "p-ann" none]
      (profileKill "p-bob" (some "Phantom")) (by decide) (by decide)⟩

/-! ## C18 -/

/-- A match in which the identity does not appear leaves the agent, weapon and
duo-partner maps and the totals as they are, wherever it stands in the list. -/
theorem accumulate_without_absent (toLowerCase : String → String)
    (t : Target) (pre post : List MatchData) (m : MatchData)
    (h : appears toLowerCase t m = none) :
    (accumulate toLowerCase (pre ++ m :: post) t).agents = (accumulate toLowerCase (pre ++ post) t).agents ∧
    (accumulate toLowerCase (pre ++ m :: post) t).weapons = (accumulate toLowerCase (pre ++ post) t).weapons ∧
    (accumulate toLowerCase (pre ++ m :: post) t).friends = (accumulate toLowerCase (pre ++ post) t).friends ∧
    (accumulate toLowerCase (pre ++ m :: post) t).totals = (accumulate toLowerCase (pre ++ post) t).totals := by
  unfold accumulate
  rw [List.foldl_append, List.foldl_append, List.foldl_cons]
  exact foldl_matchStep_congr toLowerCase t post _ _ (matchStep_of_not_appears toLowerCase t _ m h)

/-- Adding a match in which the identity does not appear to a non-empty match
list changes none of `topAgent`, `topWeapon`, `topFriend`, `kda`, `hs`,
`totalKills`. -/
theorem summary_without_absent (toLowerCase : String → String)
    (t : Target) (pre post : List MatchData) (m : MatchData)
    (h : appears toLowerCase t m = none) (hne : pre ++ post ≠ []) :
    ∃ s s2, getTopStats toLowerCase (pre ++ m :: post) t = some s ∧ getTopStats toLowerCase (pre ++ post) t = some s2 ∧
      s.topAgent = s2.topAgent ∧ s.topWeapon = s2.topWeapon ∧ s.topFriend = s2.topFriend ∧
      s.kda = s2.kda ∧ s.hs = s2.hs ∧ s.totalKills = s2.totalKills := by
  obtain ⟨h1, h2, h3, h4⟩ := accumulate_without_absent toLowerCase t pre post m h
  have hl1 : ¬ (pre ++ m :: post).length = 0 := by simp
  have hl2 : ¬ (pre ++ post).length = 0 := by
    rw [List.length_eq_zero]; exact hne
  unfold getTopStats
  rw [if_neg hl1, if_neg hl2]
  refine ⟨_, _, rfl, rfl, ?_, ?_, ?_, ?_, ?_, ?_⟩
  · simp only [h1]
  · simp only [h2]
  · simp only [h3]
  · simp only [h4]
  · simp only [h4]
  · simp only [h4]

/-- C18, failing input: `strangerMatch` is well formed and its roster does not
hold `Ann#EU1`, yet adding it to `homeMatches` turns `topMap` from
`Ascent (1)` into `Bind (2)`; `topAgent`, `topWeapon` and `topFriend` stay. -/
theorem absent_match_changes_top_map :
    appears asciiLower annTarget strangerMatch = none ∧
    (getTopStats asciiLower homeMatches annTarget).map Summary.topMap = some "Ascent (1)" ∧
    (getTopStats asciiLower (homeMatches ++ [strangerMatch]) annTarget).map Summary.topMap
      = some "Bind (2)" ∧
    (getTopStats asciiLower (homeMatches ++ [strangerMatch]) annTarget).map Summary.topAgent
      = (getTopStats asciiLower homeMatches annTarget).map Summary.topAgent ∧
    (getTopStats asciiLower (homeMatches ++ [strangerMatch]) annTarget).map Summary.topWeapon
      = (getTopStats asciiLower homeMatches annTarget).map Summary.topWeapon ∧
    (getTopStats asciiLower (homeMatches ++ [strangerMatch]) annTarget).map Summary.topFriend
      = (getTopStats asciiLower homeMatches annTarget).map Summary.topFriend := by
  decide!

/-! ## C19 -/

/-- C19, counterexample: the body of the answer carries a `data` field that is
truthy and no array; `fetchDailyMatches` returns that value as it is, which is
no list, and the recompute pass that calls `forEach` on it raises. -/
theorem fetch_returns_non_list :
    oddWorld.upstream "ann" "eu1" = Upstream.other ∧
    fetchDailyMatches oddWorld "ann" "eu1" = Fetched.other ∧
    (∀ ms, fetchDailyMatches oddWorld "ann" "eu1" ≠ Fetched.array ms) ∧
    updateScores asciiLower oddWorld snapshot20 = none := by
  refine ⟨rfl, rfl, ?_, by decide!⟩
  intro ms h
  cases h

/-- C19, amended: `fetchDailyMatches` returns a value for every outcome of the
upstream request.  Whenever its `try` block raises (the request raises, or the
body is missing) the result is the empty list of the `catch` block; a body
whose `data` is absent or falsy gives the empty list, a `data` array is
returned as it is, and so is a `data` value that is truthy and no array: the
result is a list exactly when the outcome is not of this last kind. -/
theorem fetch_never_raises (w : World) (username tag : String) :
    (fetchAttempt w username tag = none →
      fetchDailyMatches w username tag = Fetched.array []) ∧
    (w.upstream username tag = Upstream.error ∨ w.upstream username tag = Upstream.noBody →
      fetchAttempt w username tag = none) ∧
    (w.upstream username tag = Upstream.noData →
      fetchDailyMatches w username tag = Fetched.array []) ∧
    (∀ ms, w.upstream username tag = Upstream.data ms →
      fetchDailyMatches w username tag = Fetched.array ms) ∧
    (w.upstream username tag = Upstream.other →
      fetchDailyMatches w username tag = Fetched.other) ∧
    ((∃ ms, fetchDailyMatches w username tag = Fetched.array ms)
      ↔ w.upstream username tag ≠ Upstream.other) := by
  refine ⟨?_, ?_, ?_, ?_, ?_, ?_⟩
  · intro h
    unfold fetchDailyMatches
    rw [h]
  · intro h
    unfold fetchAttempt
    rcases h with h | h <;> rw [h]
  · intro h
    unfold fetchDailyMatches fetchAttempt
    rw [h]
  · intro ms h
    unfold fetchDailyMatches fetchAttempt
    rw [h]
  · intro h
    unfold fetchDailyMatches fetchAttempt
    rw [h]
  · unfold fetchDailyMatches fetchAttempt
    cases w.upstream username tag with
    | error => exact ⟨fun _ h => (by cases h), fun _ => ⟨[], rfl⟩⟩
    | noBody => exact ⟨fun _ h => (by cases h), fun _ => ⟨[], rfl⟩⟩
    | noData => exact ⟨fun _ h => (by cases h), fun _ => ⟨[], rfl⟩⟩
    | data ms => exact ⟨fun _ h => (by cases h), fun _ => ⟨ms, rfl⟩⟩
    | other =>
      constructor
      · rintro ⟨ms, h⟩
        cases h
      · intro h
        exact absurd rfl h

/-- C19, witness: a failing request and a body without `data` both give the
empty list, an answered match array is returned as it is. -/
theorem fetch_never_raises_witness :
    fetchDailyMatches failingWorld "Ann" "EU1" = Fetched.array [] ∧
    fetchDailyMatches noDataWorld "Ann" "EU1" = Fetched.array [] ∧
    fetchDailyMatches oneAssistWorld "Ann" "EU1"
      = Fetched.array [annMatch 0 1 false "Fri Nov 06 2026"] ∧
    fetchDailyMatches oddWorld "Ann" "EU1" = Fetched.other :=
  ⟨(fetch_never_raises failingWorld "Ann" "EU1").1
      ((fetch_never_raises failingWorld "Ann" "EU1").2.1 (Or.inl rfl)),
   (fetch_never_raises noDataWorld "Ann" "EU1").2.2.1 rfl,
   (fetch_never_raises oneAssistWorld "Ann" "EU1").2.2.2.1 _ rfl,
   (fetch_never_raises oddWorld "Ann" "EU1").2.2.2.2.1 rfl⟩

/-! ## C20 -/

/-- C20: the migration of `loadData` is idempotent, it changes nothing on a
snapshot without the legacy field `channelId`, and on a snapshot whose
`channelId` names a destination the result has no `channelId` and holds that
destination in the channels map, under the key `default`. -/
theorem migration_idempotent (d : LeaderboardData) :
    loadData (loadData d) = loadData d ∧
    (d.channelId = none → loadData d = d) ∧
    (∀ c, d.channelId = some c → c ≠ "" →
      (loadData d).channelId = none ∧
      getKey ((loadData d).channels.getD []) "default" = some c ∧
      (loadData d).lastUpdated = d.lastUpdated ∧ (loadData d).dailyScores = d.dailyScores) := by
  refine ⟨loadData_fixed _ (loadData_channelId d), fun h => loadData_fixed d (Or.inl h), ?_⟩
  intro c hc hne
  unfold loadData
  rw [hc]
  simp only [if_neg hne]
  exact ⟨trivial, by simp [getKey], trivial, trivial⟩

/-- C20, witness: the legacy snapshot with destination `c9` is migrated to the
channels map `default: c9`, and a second load changes nothing. -/
theorem migration_idempotent_witness :
    loadData legacySnapshot
      = { legacySnapshot with channelId := none, channels := some [("default", "c9")] } ∧
    loadData (loadData legacySnapshot) = loadData legacySnapshot ∧
    loadData snapshot20 = snapshot20 ∧
    ((loadData legacySnapshot).channelId = none ∧
      getKey ((loadData legacySnapshot).channels.getD []) "default" = some "c9" ∧
      (loadData legacySnapshot).lastUpdated = (legacySnapshot).lastUpdated ∧
      (loadData legacySnapshot).dailyScores = (legacySnapshot).dailyScores) :=
  ⟨by decide!, (migration_idempotent legacySnapshot).1,
   (migration_idempotent snapshot20).2.1 rfl,
   (migration_idempotent legacySnapshot).2.2 "c9" rfl (by decide)⟩

/-! ## C21 -/

/-- C21, the code at the failing input: the match fetched for `ann#eu1` is
dated today and lacks its roster, and the pass over `ann#eu1` and `bob#eu1`
raises, so nothing is saved; with no data for `ann#eu1` the same pass completes
and writes 7 points for `bob#eu1`. -/
theorem rosterless_match_aborts_pass :
    fetchDailyMatches rosterlessWorld "ann" "eu1" = Fetched.array [rosterlessMatch] ∧
    scoreMatches asciiLower rosterlessWorld "ann" "eu1" [rosterlessMatch] = none ∧
    updateScores asciiLower rosterlessWorld snapshot20 = none ∧
    (updateScores asciiLower absentWorld snapshot20).map LeaderboardData.dailyScores
      = some [("ann#eu1", { points := 0, wins := 0, kills := 0, discordId := "u1" }),
              ("bob#eu1", { points := 7, wins := 0, kills := 6, discordId := "u2" })] := by
  decide!

/-! ## C22 -/

theorem postLeaderboard_of_channels (c : Client) (d : LeaderboardData)
    (chans : List (String × String)) (h : (loadData d).channels = some chans) :
    postLeaderboard c d
      = chans.map (fun gc => (gc.1, postToGuild c (allScores (loadData d)) gc.2)) := by
  unfold postLeaderboard
  simp only [h]
  split
  · rename_i hl
    rw [List.length_eq_zero] at hl
    subst hl
    rfl
  · rfl

/-- C22: `postLeaderboard` ends with one outcome per configured tenant, and
the outcomes of the tenants other than `t` are, in the same order, those of
the distribution over the snapshot without `t`, whatever became of the
delivery to `t` (destination not found, sending raised, or posted). -/
theorem delivery_failure_isolated (c : Client) (d : LeaderboardData)
    (pre post : List (String × String)) (t ct : String)
    (hch : (loadData d).channels = some (pre ++ (t, ct) :: post)) :
    postLeaderboard c d
      = pre.map (fun gc => (gc.1, postToGuild c (allScores (loadData d)) gc.2))
        ++ (t, postToGuild c (allScores (loadData d)) ct)
        :: post.map (fun gc => (gc.1, postToGuild c (allScores (loadData d)) gc.2)) ∧
    postLeaderboard c { loadData d with channels := some (pre ++ post) }
      = pre.map (fun gc => (gc.1, postToGuild c (allScores (loadData d)) gc.2))
        ++ post.map (fun gc => (gc.1, postToGuild c (allScores (loadData d)) gc.2)) := by
  constructor
  · rw [postLeaderboard_of_channels c d _ hch, List.map_append, List.map_cons]
  · have hfix : loadData { loadData d with channels := some (pre ++ post) }
        = { loadData d with channels := some (pre ++ post) } :=
      loadData_fixed _ (loadData_channelId d)
    rw [postLeaderboard_of_channels c _ (pre ++ post) (by rw [hfix]), hfix, List.map_append]
    rfl

/-- C22, witness: sending to the channel of `g1` raises and the channel of
`g3` is not found; `g2` is sent its view, the one it is sent when `g1` is not
configured. -/
theorem delivery_failure_isolated_witness :
    (postLeaderboard flakyClient threeEntrySnapshot
        = [("g1", Delivery.sendFailed guildOneRows), ("g2", Delivery.posted guildTwoRows),
           ("g3", Delivery.channelNotFound)] ∧
      postLeaderboard flakyClient
          { threeEntrySnapshot with channels := some [("g2", "c2"), ("g3", "c9")] }
        = [("g2", Delivery.posted guildTwoRows), ("g3", Delivery.channelNotFound)]) ∧
    (postLeaderboard flakyClient threeEntrySnapshot
      = ([] : List (String × String)).map
          (fun gc => (gc.1, postToGuild flakyClient (allScores (loadData threeEntrySnapshot)) gc.2))
        ++ ("g1", postToGuild flakyClient (allScores (loadData threeEntrySnapshot)) "c1")
        :: [("g2", "c2"), ("g3", "c9")].map
          (fun gc => (gc.1, postToGuild flakyClient (allScores (loadData threeEntrySnapshot)) gc.2)) ∧
    postLeaderboard flakyClient
        { loadData threeEntrySnapshot with channels := some ([] ++ [("g2", "c2"), ("g3", "c9")]) }
      = ([] : List (String × String)).map
          (fun gc => (gc.1, postToGuild flakyClient (allScores (loadData threeEntrySnapshot)) gc.2))
        ++ [("g2", "c2"), ("g3", "c9")].map
          (fun gc => (gc.1, postToGuild flakyClient (allScores (loadData threeEntrySnapshot)) gc.2))) :=
  ⟨by decide, delivery_failure_isolated flakyClient threeEntrySnapshot [] [("g2", "c2"), ("g3", "c9")]
    "g1" "c1" rfl⟩

/-! ## C23 -/

/-- A completed pass keeps the channels map, and its result is in the
multi-tenant format. -/
theorem updateScores_channels (toLowerCase : String → String) (w : World) (d d2 : LeaderboardData)
    (h : updateScores toLowerCase w d = some d2) :
    d2.channels = (loadData d).channels ∧ loadData d2 = d2 := by
  have hcid := loadData_channelId d
  unfold updateScores at h
  cases hu : w.users with
  | none =>
    simp only [hu, Option.some.injEq] at h
    subst h
    exact ⟨rfl, loadData_fixed _ hcid⟩
  | some users =>
    simp only [hu] at h
    cases hf : users.foldlM (scoreUser toLowerCase w) (resetIfNewDay w.today (loadData d)).dailyScores with
    | none => rw [hf] at h; cases h
    | some scores =>
      rw [hf] at h
      simp only [Option.some.injEq] at h
      subst h
      have hc : (resetIfNewDay w.today (loadData d)).channels = (loadData d).channels := by
        unfold resetIfNewDay
        split <;> rfl
      refine ⟨hc, loadData_fixed _ ?_⟩
      show (resetIfNewDay w.today (loadData d)).channelId = none ∨ _
      rw [resetIfNewDay_channelId]
      exact hcid

theorem setChannel_channels (d : LeaderboardData) (g ch : String) :
    (loadData (setChannel d g ch)).channels
      = some (assign ((loadData d).channels.getD []) g ch) := by
  have hfix : loadData (setChannel d g ch) = setChannel d g ch :=
    loadData_fixed _ (loadData_channelId d)
  rw [hfix]
  rfl

/-- C23, counterexample: guild `g1` is configured, guild `g2` registers
channel `c2`; the distribution the command triggers posts the ranking to `g1`
and sends nothing to `g2`, none of whose members is linked. -/
theorem adhoc_distribution_reaches_other_tenant :
    (loadData snapshot20).channels = some [("g1", "c1")] ∧
    setLeaderboardCommand asciiLower twoMatchWorld twoGuildClient snapshot20 "g2" "c2"
      = some [("g1", Delivery.posted
                [{ rank := 1,
                   item := { riotId := "ann#eu1", member := "user u1",
                             stats := { points := 14, wins := 1, kills := 8,
                                        discordId := "u1" } } }]),
              ("g2", Delivery.noPlayers)] := by
  decide!

/-- C23, amended: when guild `g` registers channel `ch` and the recompute
pass the command triggers completes with snapshot `d2`, the distribution that
follows goes through every configured guild, in configuration order, the newly
registered one with its channel `ch` and every other guild with the channel it
had, and handles each as a scheduled distribution of `d2` does. -/
theorem adhoc_distribution_all_tenants (toLowerCase : String → String)
    (w : World) (c : Client) (d d2 : LeaderboardData)
    (g ch : String) (h : updateScores toLowerCase w (setChannel d g ch) = some d2) :
    setLeaderboardCommand toLowerCase w c d g ch
      = some ((assign ((loadData d).channels.getD []) g ch).map
          (fun gc => (gc.1, postToGuild c (allScores d2) gc.2))) ∧
    (g, ch) ∈ assign ((loadData d).channels.getD []) g ch ∧
    (∀ gc ∈ (loadData d).channels.getD [], gc.1 ≠ g →
      gc ∈ assign ((loadData d).channels.getD []) g ch) := by
  obtain ⟨hc, hfix⟩ := updateScores_channels toLowerCase w _ d2 h
  rw [setChannel_channels] at hc
  refine ⟨?_, mem_assign_self _ _ _, fun gc hgc hne => mem_assign_of_ne _ _ _ gc hgc hne⟩
  unfold setLeaderboardCommand
  rw [h]
  simp only
  rw [postLeaderboard_of_channels c d2 _ (by rw [hfix]; exact hc), hfix]

/-- C23, witness: with `g1` configured, registering `c2` for `g2` leads to a
distribution over `g1` and `g2`. -/
theorem adhoc_distribution_all_tenants_witness :
    updateScores asciiLower twoMatchWorld (setChannel snapshot20 "g2" "c2")
      = some { annSnapshot { points := 14, wins := 1, kills := 8, discordId := "u1" } with
               channels := some [("g1", "c1"), ("g2", "c2")] } ∧
    (setLeaderboardCommand asciiLower twoMatchWorld twoGuildClient snapshot20 "g2" "c2"
      = some ((assign ((loadData snapshot20).channels.getD []) "g2" "c2").map
          (fun gc => (gc.1, postToGuild twoGuildClient
            (allScores { annSnapshot { points := 14, wins := 1, kills := 8, discordId := "u1" } with
                         channels := some [("g1", "c1"), ("g2", "c2")] }) gc.2))) ∧
    ("g2", "c2") ∈ assign ((loadData snapshot20).channels.getD []) "g2" "c2" ∧
    (∀ gc ∈ (loadData snapshot20).channels.getD [], gc.1 ≠ "g2" →
      gc ∈ assign ((loadData snapshot20).channels.getD []) "g2" "c2")) :=
  ⟨by decide!, adhoc_distribution_all_tenants asciiLower twoMatchWorld twoGuildClient snapshot20 _
    "g2" "c2" (by decide!)⟩

/-! ## C24 -/

theorem scoreMatch_of_not_qualifying (toLowerCase : String → String)
    (w : World) (name tag : String) (acc acc2 : Acc)
    (m : MatchData) (h : scoreMatch toLowerCase w name tag acc m = some acc2)
    (hq : qualifyingPlayer toLowerCase w name tag m = none) : acc2 = acc := by
  unfold scoreMatch at h
  unfold qualifyingPlayer at hq
  cases hm : m.metadata with
  | none => simp only [hm, Option.some.injEq] at h; exact h.symm
  | some md =>
    simp only [hm] at h hq
    cases hg : md.game_start_patched with
    | none => simp only [hg, Option.some.injEq] at h; exact h.symm
    | some g =>
      simp only [hg] at h hq
      by_cases h1 : g = ""
      · simp only [h1, if_true, Option.some.injEq] at h; exact h.symm
      · by_cases h2 : w.dateString g = w.today
        · simp only [h1, h2, if_false, ne_eq, not_true_eq_false, not_false_eq_true, and_self,
            if_true] at h hq
          cases hp : m.players with
          | none => simp [hp] at h
          | some all =>
            simp only [hp, Option.getD_some] at h hq
            simp only [hq, Option.some.injEq] at h
            exact h.symm
        · simp only [h1, h2, if_false, ne_eq, not_false_eq_true, if_true,
            Option.some.injEq] at h
          exact h.symm

theorem foldlM_scoreMatch_of_not_qualifying (toLowerCase : String → String)
    (w : World) (name tag : String)
    (ms : List MatchData) (acc acc2 : Acc)
    (h : ms.foldlM (scoreMatch toLowerCase w name tag) acc = some acc2)
    (hq : ∀ m ∈ ms, qualifyingPlayer toLowerCase w name tag m = none) : acc2 = acc := by
  induction ms generalizing acc with
  | nil =>
    simp only [List.foldlM_nil, pure, Option.some.injEq] at h
    exact h.symm
  | cons m ms ih =>
    rw [List.foldlM_cons] at h
    cases hs : scoreMatch toLowerCase w name tag acc m with
    | none => rw [hs] at h; simp at h
    | some acc1 =>
      rw [hs] at h
      have h1 := scoreMatch_of_not_qualifying toLowerCase w name tag acc acc1 m hs
        (hq m (List.mem_cons_self _ _))
      rw [h1] at h
      exact ih acc h (fun m2 hm2 => hq m2 (List.mem_cons_of_mem _ hm2))

theorem getKey_ensureUser_none (scores : List (String × Entry)) (u : String × User)
    (rid : String) (h : getKey scores rid = none) (hu : u.2.riotId ≠ some rid) :
    getKey (ensureUser scores u) rid = none := by
  unfold ensureUser
  cases hr : u.2.riotId with
  | none => exact h
  | some rid2 =>
    simp only
    have hne : rid2 ≠ rid := fun e => hu (by rw [hr, e])
    split
    · rw [getKey_assign_of_ne _ _ _ _ hne]; exact h
    · exact h

/-- The loop "Ensure all users are in the list" gives a riot id without an
entry the zero entry of the first user linked to it. -/
theorem foldl_ensureUser_zero (users : List (String × User)) (scores : List (String × Entry))
    (rid : String) (hne : rid ≠ "") (hproto : rid ∉ objectPrototypeKeys)
    (h : getKey scores rid = none) (hex : ∃ u ∈ users, u.2.riotId = some rid) :
    ∃ u ∈ users, u.2.riotId = some rid ∧
      getKey (users.foldl ensureUser scores) rid
        = some { points := 0, wins := 0, kills := 0, discordId := u.1 } := by
  induction users generalizing scores with
  | nil => obtain ⟨u, hu, _⟩ := hex; cases hu
  | cons u2 us ih =>
    rw [List.foldl_cons]
    by_cases h2 : u2.2.riotId = some rid
    · refine ⟨u2, List.mem_cons_self _ _, h2, ?_⟩
      apply getKey_foldl_ensureUser
      unfold ensureUser
      simp only [h2]
      rw [if_pos ⟨hne, (lacksKey_iff scores rid).2 ⟨h, hproto⟩⟩, getKey_assign_self]
    · have hex2 : ∃ u ∈ us, u.2.riotId = some rid := by
        obtain ⟨u, hu, hr⟩ := hex
        rcases List.mem_cons.1 hu with e | e
        · rw [e] at hr; exact absurd hr h2
        · exact ⟨u, e, hr⟩
      obtain ⟨u, hu, hr, hg⟩ := ih (ensureUser scores u2)
        (getKey_ensureUser_none scores u2 rid h h2) hex2
      exact ⟨u, List.mem_cons_of_mem _ hu, hr, hg⟩

theorem loadData_reset_none (w : World) (d : LeaderboardData) (rid : String)
    (h : getKey d.dailyScores rid = none) :
    getKey (resetIfNewDay w.today (loadData d)).dailyScores rid = none := by
  unfold resetIfNewDay
  split
  · rfl
  · rw [loadData_dailyScores]; exact h

/-- C24, the code at the failing input: `u1` is linked to the riot id
`constructor` and `u2` to the riot id `bob`; the test
`!leaderboardData.dailyScores[user.riotId]` finds the inherited property
`constructor` of the entries object, so the completed pass writes an entry for
`bob` and none for `constructor`. -/
theorem prototype_named_identity_gets_no_entry :
    updateScores asciiLower protoWorld emptySnapshot
      = some { emptySnapshot with
               dailyScores :=
                 [("bob", { points := 0, wins := 0, kills := 0, discordId := "u2" })] } ∧
    (updateScores asciiLower protoWorld emptySnapshot).map
        (fun d => getKey d.dailyScores "constructor") = some none := by
  decide!

/-- Away from the property names of `Object.prototype`: after every completed
recompute pass every linked user with a non-empty riot id that is no such name
has an entry under it; when the riot id had no entry before
the pass and none of its fetched matches qualifies (dated today, with the
identity in the roster), the entry has points 0, wins 0 and kills 0 and carries
the user id of a user linked to that riot id, the user's own id when no other
user is linked to it. -/
theorem every_linked_identity_has_entry (toLowerCase : String → String)
    (w : World) (d d2 : LeaderboardData)
    (users : List (String × User)) (uid : String) (user : User) (rid : String)
    (hu : w.users = some users) (hmem : (uid, user) ∈ users)
    (hr : user.riotId = some rid) (hne : rid ≠ "") (hproto : rid ∉ objectPrototypeKeys)
    (hd : updateScores toLowerCase w d = some d2) :
    ∃ e, getKey d2.dailyScores rid = some e ∧
      (getKey d.dailyScores rid = none →
        (∀ name tag rest, splitHash rid = name :: tag :: rest →
          ∀ m ∈ (fetchDailyMatches w name tag).toList, qualifyingPlayer toLowerCase w name tag m = none) →
        e.points = 0 ∧ e.wins = 0 ∧ e.kills = 0 ∧
        (∃ u ∈ users, u.2.riotId = some rid ∧ e.discordId = u.1) ∧
        ((∀ u ∈ users, u.2.riotId = some rid → u.1 = uid) → e.discordId = uid)) := by
  rw [updateScores_eq toLowerCase w d users hu] at hd
  cases hp : passWrites toLowerCase w users with
  | none => rw [hp] at hd; simp at hd
  | some ws =>
    rw [hp] at hd
    simp only [Option.map_some', Option.some.injEq] at hd
    subst hd
    show ∃ e, getKey (users.foldl ensureUser
      (applyWrites ws (resetIfNewDay w.today (loadData d)).dailyScores)) rid = some e ∧ _
    cases hl : lastWrite ws rid with
    | some v =>
      have hg : getKey (applyWrites ws (resetIfNewDay w.today (loadData d)).dailyScores) rid
          = some v := by rw [getKey_applyWrites, hl]
      refine ⟨v, getKey_foldl_ensureUser users _ rid v hg, ?_⟩
      intro _ hnoq
      obtain ⟨u, hu2, hw⟩ := (passWrites_mem toLowerCase w users ws hp (rid, v)).1 (lastWrite_mem ws rid v hl)
      obtain ⟨hr2, name, tag, rest, acc, hs, _, _, hacc, hv⟩ := userWrite_some toLowerCase w u.1 u.2 rid v hw
      have hz := foldlM_scoreMatch_of_not_qualifying toLowerCase w name tag _ _ acc
        (scoreFetched_some toLowerCase w name tag _ acc hacc).2 (hnoq name tag rest hs)
      subst hz
      subst hv
      exact ⟨mathRound_zero, rfl, rfl, ⟨u, hu2, hr2, rfl⟩, fun huniq => huniq u hu2 hr2⟩
    | none =>
      have hg : getKey d.dailyScores rid = none →
          getKey (applyWrites ws (resetIfNewDay w.today (loadData d)).dailyScores) rid = none := by
        intro h0
        rw [getKey_applyWrites, hl]
        exact loadData_reset_none w d rid h0
      cases hprior : getKey d.dailyScores rid with
      | some e0 =>
        have hin := linked_mem_keys_foldl_ensureUser users
          (applyWrites ws (resetIfNewDay w.today (loadData d)).dailyScores) (uid, user) hmem rid hr hne hproto
        cases hk : getKey (users.foldl ensureUser
            (applyWrites ws (resetIfNewDay w.today (loadData d)).dailyScores)) rid with
        | none => exact absurd hin ((getKey_eq_none_iff _ _).1 hk)
        | some e => exact ⟨e, rfl, fun h0 => by cases h0⟩
      | none =>
        obtain ⟨u, hu2, hr2, hz⟩ := foldl_ensureUser_zero users _ rid hne hproto (hg hprior)
          ⟨(uid, user), hmem, hr⟩
        exact ⟨_, hz, fun _ _ => ⟨rfl, rfl, rfl, ⟨u, hu2, hr2, rfl⟩, fun huniq => huniq u hu2 hr2⟩⟩

/-- On a pass whose upstream has no match of today, `u1` with
the riot id `ann#eu1` and `u2` with the riot id `bob`, which has no tag, both
end with the zero entry carrying their user id. -/
theorem every_linked_identity_has_entry_witness :
    updateScores asciiLower idleWorld emptySnapshot
      = some { emptySnapshot with
               dailyScores :=
                 [("ann#eu1", { points := 0, wins := 0, kills := 0, discordId := "u1" }),
                  ("bob", { points := 0, wins := 0, kills := 0, discordId := "u2" })] } ∧
    ∃ e, getKey ({ emptySnapshot with
               dailyScores :=
                 [("ann#eu1", { points := 0, wins := 0, kills := 0, discordId := "u1" }),
                  ("bob", { points := 0, wins := 0, kills := 0, discordId := "u2" })] }
            : LeaderboardData).dailyScores "bob" = some e ∧
      (getKey emptySnapshot.dailyScores "bob" = none →
        (∀ name tag rest, splitHash "bob" = name :: tag :: rest →
          ∀ m ∈ (fetchDailyMatches idleWorld name tag).toList,
            qualifyingPlayer asciiLower idleWorld name tag m = none) →
        e.points = 0 ∧ e.wins = 0 ∧ e.kills = 0 ∧
        (∃ u ∈ looseUsers, u.2.riotId = some "bob" ∧ e.discordId = u.1) ∧
        ((∀ u ∈ looseUsers, u.2.riotId = some "bob" → u.1 = "u2") → e.discordId = "u2")) :=
  ⟨by decide!, every_linked_identity_has_entry asciiLower idleWorld emptySnapshot _ looseUsers "u2"
    { riotId := some "bob", nickname := none } "bob" rfl (by decide) rfl (by decide)
    (by decide) (by decide!)⟩

/-! ## C25 -/

theorem matchStep_of_malformed (toLowerCase : String → String)
    (t : Target) (acc : TopAcc) (m : MatchData)
    (h : wellFormed m = false) : matchStep toLowerCase t acc m = acc := by
  unfold wellFormed at h
  unfold matchStep
  cases hm : m.metadata with
  | none => rfl
  | some md =>
    cases hp : m.players with
    | none => rfl
    | some all => simp [hm, hp] at h

theorem foldl_matchStep_filter (toLowerCase : String → String)
    (t : Target) (ms : List MatchData) (acc : TopAcc) :
    ms.foldl (matchStep toLowerCase t) acc = (ms.filter wellFormed).foldl (matchStep toLowerCase t) acc := by
  induction ms generalizing acc with
  | nil => rfl
  | cons m ms ih =>
    rw [List.foldl_cons, List.filter_cons]
    cases hw : wellFormed m with
    | true => simp only [if_true, List.foldl_cons]; exact ih _
    | false =>
      simp only [Bool.false_eq_true, if_false]
      rw [matchStep_of_malformed toLowerCase t acc m hw]
      exact ih _

/-- C25: a match record without its metadata or without its roster is skipped:
whenever a well-formed match remains, `getTopStats` returns a summary, the one
it returns for the list without the malformed matches. -/
theorem malformed_matches_skipped (toLowerCase : String → String) (ms : List MatchData) (t : Target)
    (h : ms.filter wellFormed ≠ []) :
    getTopStats toLowerCase ms t = getTopStats toLowerCase (ms.filter wellFormed) t ∧
    ∃ s, getTopStats toLowerCase ms t = some s := by
  have hl2 : ¬ (ms.filter wellFormed).length = 0 := fun e => h (List.length_eq_zero.1 e)
  have hl1 : ¬ ms.length = 0 := by
    intro e
    rw [List.length_eq_zero] at e
    rw [e] at h
    exact h rfl
  have hacc : accumulate toLowerCase ms t = accumulate toLowerCase (ms.filter wellFormed) t :=
    foldl_matchStep_filter toLowerCase t ms emptyAcc
  unfold getTopStats
  rw [if_neg hl1, if_neg hl2, hacc]
  exact ⟨rfl, _, rfl⟩

/-- C25, witness: the match without roster put before `quarterShotMatches`
changes nothing of their summary. -/
theorem malformed_matches_skipped_witness :
    (wellFormed rosterlessMatch = false ∧
      (rosterlessMatch :: quarterShotMatches).filter wellFormed = quarterShotMatches ∧
      getTopStats asciiLower (rosterlessMatch :: quarterShotMatches) annTarget = some quarterShotSummary) ∧
    getTopStats asciiLower (rosterlessMatch :: quarterShotMatches) annTarget
      = getTopStats asciiLower ((rosterlessMatch :: quarterShotMatches).filter wellFormed) annTarget ∧
    ∃ s, getTopStats asciiLower (rosterlessMatch :: quarterShotMatches) annTarget = some s :=
  ⟨by decide!, malformed_matches_skipped asciiLower (rosterlessMatch :: quarterShotMatches) annTarget
    (by decide)⟩

/-! ## C26 -/

theorem topPair_of_no_positive (obj : List (String × Nat)) (h : ∀ p ∈ obj, p.2 = 0) :
    topPair obj = ("N/A", 0) := by
  rcases foldl_top_spec obj ("N/A", 0) with ⟨heq, _⟩ | ⟨pre, post, hobj, hlt, _, _⟩
  · exact heq
  · have hmem : obj.foldl (fun acc kv => if kv.2 > acc.2 then (kv.1, kv.2) else acc) ("N/A", 0)
        ∈ pre ++ obj.foldl
          (fun acc kv => if kv.2 > acc.2 then (kv.1, kv.2) else acc) ("N/A", 0) :: post := by
      simp
    rw [← hobj] at hmem
    have := h _ hmem
    simp only at hlt
    omega

theorem rendered_ne_none (k : String) (v : Nat) : k ++ " (" ++ toString v ++ ")" ≠ "None" := by
  intro h
  have hd : (k ++ " (" ++ toString v ++ ")").data
      = (k.data ++ " (".data ++ (toString v).data) ++ [')'] := by
    simp [String.data_append]
  have h2 := congrArg String.data h
  rw [hd] at h2
  have h3 := congrArg List.getLast? h2
  rw [List.getLast?_concat] at h3
  revert h3
  decide

/-- Away from the key text `N/A`, `getTopKey` returns `None` exactly for the
maps without a positive count, and names a key of the map otherwise. -/
theorem getTopKey_none_iff (obj : List (String × Nat)) (hna : ∀ p ∈ obj, p.1 ≠ "N/A") :
    (getTopKey obj = "None" ↔ ∀ p ∈ obj, p.2 = 0) ∧
    ((∃ p ∈ obj, 0 < p.2) →
      ∃ p ∈ obj, getTopKey obj = p.1 ++ " (" ++ toString p.2 ++ ")") := by
  have hpos : (∃ p ∈ obj, 0 < p.2) →
      ∃ p ∈ obj, getTopKey obj = p.1 ++ " (" ++ toString p.2 ++ ")" := by
    intro h
    obtain ⟨pre, k, v, post, hobj, _, _, hg⟩ := getTopKey_first_max obj h hna
    exact ⟨(k, v), by rw [hobj]; simp, hg⟩
  refine ⟨⟨?_, ?_⟩, hpos⟩
  · intro hnone p hp
    by_contra hne
    obtain ⟨q, _, hq⟩ := hpos ⟨p, hp, Nat.pos_of_ne_zero hne⟩
    rw [hq] at hnone
    exact rendered_ne_none _ _ hnone
  · intro h
    unfold getTopKey
    rw [topPair_of_no_positive obj h]
    rfl

/-- C26, the code at the failing input: the key `N/A` has the positive count
3, alone or after the key `Jett` with count 1, and `getTopKey` returns the
sentinel `None`, which names no key of the map. -/
theorem getTopKey_none_despite_positive :
    (∃ p ∈ [("N/A", 3)], 0 < p.2) ∧
    getTopKey [("N/A", 3)] = "None" ∧
    getTopKey [("Jett", 1), ("N/A", 3)] = "None" ∧
    getTopKey [("N/A", 1), ("Jett", 3)] = "Jett (3)" := by
  refine ⟨⟨("N/A", 3), by simp, by decide⟩, by decide, by decide, by decide⟩

/-! ## C27 -/

theorem exactPoints_eq (toLowerCase : String → String)
    (w : World) (name tag : String) (ms : List MatchData) :
    exactPoints toLowerCase w name tag ms
      = (todayKills toLowerCase w name tag ms : ℚ) + (todayAssists toLowerCase w name tag ms : ℚ) / 2
        + 5 * (todayWins toLowerCase w name tag ms : ℚ) := by
  induction ms with
  | nil => simp [exactPoints, todayKills, todayAssists, todayWins]
  | cons m ms ih =>
    have hcons : exactPoints toLowerCase w name tag (m :: ms)
        = (match qualifyingPlayer toLowerCase w name tag m with
           | none => 0
           | some p => matchPoints toLowerCase m p) + exactPoints toLowerCase w name tag ms := by
      simp only [exactPoints, List.map_cons, List.sum_cons]
    rw [hcons, ih]
    unfold todayKills todayAssists todayWins
    rw [List.filterMap_cons, List.filter_cons]
    cases hq : qualifyingPlayer toLowerCase w name tag m with
    | none => simp
    | some p =>
      simp only [List.map_cons, List.sum_cons, matchPoints]
      by_cases hw : teamHasWon m (toLowerCase p.team) = true
      · simp only [hw, if_true, List.length_cons]
        push_cast
        ring
      · simp only [hw, Bool.false_eq_true, if_false]
        push_cast
        ring

theorem scoreMatch_counts (toLowerCase : String → String)
    (w : World) (name tag : String) (acc acc2 : Acc) (m : MatchData)
    (h : scoreMatch toLowerCase w name tag acc m = some acc2) :
    acc2.kills = acc.kills + todayKills toLowerCase w name tag [m] ∧
    acc2.wins = acc.wins + todayWins toLowerCase w name tag [m] := by
  cases hq : qualifyingPlayer toLowerCase w name tag m with
  | none =>
    have := scoreMatch_of_not_qualifying toLowerCase w name tag acc acc2 m h hq
    subst this
    simp [todayKills, todayWins, hq]
  | some p =>
    unfold scoreMatch at h
    unfold qualifyingPlayer at hq
    cases hm : m.metadata with
    | none => simp [hm] at hq
    | some md =>
      simp only [hm] at h hq
      cases hg : md.game_start_patched with
      | none => simp [hg] at hq
      | some g =>
        simp only [hg] at h hq
        by_cases hc : g ≠ "" ∧ w.dateString g = w.today
        · obtain ⟨h1, h2⟩ := hc
          simp only [h1, h2, if_false, ne_eq, not_true_eq_false, not_false_eq_true, and_self,
            if_true] at h hq
          cases hp : m.players with
          | none => simp [hp] at h
          | some all =>
            simp only [hp, Option.getD_some] at h hq
            simp only [hq] at h
            have hq2 : qualifyingPlayer toLowerCase w name tag m = some p := by
              unfold qualifyingPlayer
              simp [hm, hg, h1, h2, hp, hq]
            by_cases hw : teamHasWon m (toLowerCase p.team) = true
            · simp only [hw, if_true, Option.some.injEq] at h
              subst h
              simp [todayKills, todayWins, hq2, hw]
            · simp only [hw, Bool.false_eq_true, if_false, Option.some.injEq] at h
              subst h
              simp [todayKills, todayWins, hq2, hw]
        · simp [hc] at hq

theorem todayKills_cons (toLowerCase : String → String)
    (w : World) (name tag : String) (m : MatchData) (ms : List MatchData) :
    todayKills toLowerCase w name tag (m :: ms) = todayKills toLowerCase w name tag [m] + todayKills toLowerCase w name tag ms ∧
    todayWins toLowerCase w name tag (m :: ms) = todayWins toLowerCase w name tag [m] + todayWins toLowerCase w name tag ms := by
  unfold todayKills todayWins
  constructor
  · rw [List.filterMap_cons, List.filterMap_cons]
    cases qualifyingPlayer toLowerCase w name tag m <;> simp
  · rw [List.filter_cons, List.filter_cons]
    split <;> simp
    omega

theorem foldlM_scoreMatch_counts (toLowerCase : String → String)
    (w : World) (name tag : String) (ms : List MatchData)
    (acc acc2 : Acc) (h : ms.foldlM (scoreMatch toLowerCase w name tag) acc = some acc2) :
    acc2.kills = acc.kills + todayKills toLowerCase w name tag ms ∧
    acc2.wins = acc.wins + todayWins toLowerCase w name tag ms := by
  induction ms generalizing acc with
  | nil =>
    simp only [List.foldlM_nil, pure, Option.some.injEq] at h
    subst h
    simp [todayKills, todayWins]
  | cons m ms ih =>
    rw [List.foldlM_cons] at h
    cases hs : scoreMatch toLowerCase w name tag acc m with
    | none => rw [hs] at h; simp at h
    | some acc1 =>
      rw [hs] at h
      obtain ⟨h1, h2⟩ := scoreMatch_counts toLowerCase w name tag acc acc1 m hs
      obtain ⟨h3, h4⟩ := ih acc1 h
      obtain ⟨h5, h6⟩ := todayKills_cons toLowerCase w name tag m ms
      constructor <;> omega

theorem mathRound_half_sum (K A W : ℕ) :
    mathRound ((K : ℚ) + (A : ℚ) / 2 + 5 * (W : ℚ)) = ((K + (A + 1) / 2 + 5 * W : ℕ) : ℤ) := by
  unfold mathRound
  rw [Int.floor_eq_iff]
  rcases Nat.even_or_odd' A with ⟨q, hq | hq⟩
  · have h1 : (A + 1) / 2 = q := by omega
    rw [h1, hq]
    push_cast
    constructor <;> linarith
  · have h1 : (A + 1) / 2 = q + 1 := by omega
    rw [h1, hq]
    push_cast
    constructor <;> linarith

/-- C27: after a completed pass the entry of a linked identity holds its
kills `K` and wins `W` over today's qualifying matches and, with `A` its
assists over them, the integer `floor(S + 1/2)` as points, where
`S = K + A/2 + 5*W`; the points exceed `S` by one half when `A` is odd and
equal `S` when `A` is even. -/
theorem stored_points_half_up (toLowerCase : String → String) (w : World) (d d2 : LeaderboardData)
    (users : List (String × User)) (uid : String) (user : User) (rid name tag : String)
    (rest : List String) (hu : w.users = some users) (hmem : (uid, user) ∈ users)
    (hr : user.riotId = some rid) (hs : splitHash rid = name :: tag :: rest)
    (hn : name ≠ "") (ht : tag ≠ "") (hd : updateScores toLowerCase w d = some d2) :
    ∃ e, getKey d2.dailyScores rid = some e ∧
      e.kills = todayKills toLowerCase w name tag (fetchDailyMatches w name tag).toList ∧
      e.wins = todayWins toLowerCase w name tag (fetchDailyMatches w name tag).toList ∧
      e.points = ⌊(todayKills toLowerCase w name tag (fetchDailyMatches w name tag).toList : ℚ)
          + (todayAssists toLowerCase w name tag (fetchDailyMatches w name tag).toList : ℚ) / 2
          + 5 * (todayWins toLowerCase w name tag (fetchDailyMatches w name tag).toList : ℚ) + 1 / 2⌋ ∧
      (todayAssists toLowerCase w name tag (fetchDailyMatches w name tag).toList % 2 = 1 →
        (e.points : ℚ) - ((todayKills toLowerCase w name tag (fetchDailyMatches w name tag).toList : ℚ)
          + (todayAssists toLowerCase w name tag (fetchDailyMatches w name tag).toList : ℚ) / 2
          + 5 * (todayWins toLowerCase w name tag (fetchDailyMatches w name tag).toList : ℚ)) = 1 / 2) ∧
      (todayAssists toLowerCase w name tag (fetchDailyMatches w name tag).toList % 2 = 0 →
        (e.points : ℚ) = (todayKills toLowerCase w name tag (fetchDailyMatches w name tag).toList : ℚ)
          + (todayAssists toLowerCase w name tag (fetchDailyMatches w name tag).toList : ℚ) / 2
          + 5 * (todayWins toLowerCase w name tag (fetchDailyMatches w name tag).toList : ℚ)) := by
  obtain ⟨acc, e, ha, hk, hp, hw, hkl⟩ :=
    updateScores_entry toLowerCase w d d2 users uid user rid name tag rest hu hmem hr hs hn ht hd
  have ha := (scoreFetched_some toLowerCase w name tag _ acc ha).2
  obtain ⟨hc1, hc2⟩ := foldlM_scoreMatch_counts toLowerCase w name tag _ _ acc ha
  simp only [Nat.zero_add] at hc1 hc2
  have hpts : e.points = mathRound ((todayKills toLowerCase w name tag (fetchDailyMatches w name tag).toList : ℚ)
      + (todayAssists toLowerCase w name tag (fetchDailyMatches w name tag).toList : ℚ) / 2
      + 5 * (todayWins toLowerCase w name tag (fetchDailyMatches w name tag).toList : ℚ)) := by
    rw [hp, scoreMatches_points toLowerCase w name tag _ acc ha, exactPoints_eq]
  generalize todayKills toLowerCase w name tag (fetchDailyMatches w name tag).toList = K at *
  generalize todayAssists toLowerCase w name tag (fetchDailyMatches w name tag).toList = A at *
  generalize todayWins toLowerCase w name tag (fetchDailyMatches w name tag).toList = W at *
  refine ⟨e, hk, by rw [hkl, hc1], by rw [hw, hc2], hpts, ?_, ?_⟩
  · intro hodd
    rw [hpts, mathRound_half_sum]
    have hA : A = 2 * (A / 2) + 1 := by omega
    have h1 : (A + 1) / 2 = A / 2 + 1 := by omega
    rw [h1]
    generalize A / 2 = q at hA
    rw [hA]
    push_cast
    ring
  · intro heven
    rw [hpts, mathRound_half_sum]
    have hA : A = 2 * (A / 2) := by omega
    have h1 : (A + 1) / 2 = A / 2 := by omega
    rw [h1]
    generalize A / 2 = q at hA
    rw [hA]
    push_cast
    ring

/-- C27, witness: one match of today with no kill, one assist and a loss has
`S = 1/2` and the entry holds 1 point; two matches with 8 kills, 2 assists and
one win have `S = 14` and the entry holds 14 points. -/
theorem stored_points_half_up_witness :
    (todayAssists asciiLower oneAssistWorld "ann" "eu1" (fetchDailyMatches oneAssistWorld "ann" "eu1").toList = 1 ∧
      updateScores asciiLower oneAssistWorld snapshot20
        = some (annSnapshot { points := 1, wins := 0, kills := 0, discordId := "u1" }) ∧
      todayAssists asciiLower twoMatchWorld "ann" "eu1" (fetchDailyMatches twoMatchWorld "ann" "eu1").toList = 2 ∧
      updateScores asciiLower twoMatchWorld snapshot20
        = some (annSnapshot { points := 14, wins := 1, kills := 8, discordId := "u1" })) ∧
    ∃ e, getKey (annSnapshot { points := 1, wins := 0, kills := 0, discordId := "u1" }).dailyScores
        "ann#eu1" = some e ∧
      e.kills = todayKills asciiLower oneAssistWorld "ann" "eu1" (fetchDailyMatches oneAssistWorld "ann" "eu1").toList ∧
      e.wins = todayWins asciiLower oneAssistWorld "ann" "eu1" (fetchDailyMatches oneAssistWorld "ann" "eu1").toList ∧
      e.points
        = ⌊(todayKills asciiLower oneAssistWorld "ann" "eu1" (fetchDailyMatches oneAssistWorld "ann" "eu1").toList : ℚ)
          + (todayAssists asciiLower oneAssistWorld "ann" "eu1"
              (fetchDailyMatches oneAssistWorld "ann" "eu1").toList : ℚ) / 2
          + 5 * (todayWins asciiLower oneAssistWorld "ann" "eu1"
              (fetchDailyMatches oneAssistWorld "ann" "eu1").toList : ℚ) + 1 / 2⌋ ∧
      (todayAssists asciiLower oneAssistWorld "ann" "eu1" (fetchDailyMatches oneAssistWorld "ann" "eu1").toList % 2 = 1 →
        (e.points : ℚ)
          - ((todayKills asciiLower oneAssistWorld "ann" "eu1"
                (fetchDailyMatches oneAssistWorld "ann" "eu1").toList : ℚ)
            + (todayAssists asciiLower oneAssistWorld "ann" "eu1"
                (fetchDailyMatches oneAssistWorld "ann" "eu1").toList : ℚ) / 2
            + 5 * (todayWins asciiLower oneAssistWorld "ann" "eu1"
                (fetchDailyMatches oneAssistWorld "ann" "eu1").toList : ℚ)) = 1 / 2) ∧
      (todayAssists asciiLower oneAssistWorld "ann" "eu1" (fetchDailyMatches oneAssistWorld "ann" "eu1").toList % 2 = 0 →
        (e.points : ℚ)
          = (todayKills asciiLower oneAssistWorld "ann" "eu1"
                (fetchDailyMatches oneAssistWorld "ann" "eu1").toList : ℚ)
            + (todayAssists asciiLower oneAssistWorld "ann" "eu1"
                (fetchDailyMatches oneAssistWorld "ann" "eu1").toList : ℚ) / 2
            + 5 * (todayWins asciiLower oneAssistWorld "ann" "eu1"
                (fetchDailyMatches oneAssistWorld "ann" "eu1").toList : ℚ)) :=
  ⟨by decide!, stored_points_half_up asciiLower oneAssistWorld snapshot20 _ annUsers "u1"
    { riotId := some "ann#eu1", nickname := none } "ann#eu1" "ann" "eu1" [] rfl
    (by decide) rfl (by decide) (by decide) (by decide) (by decide!)⟩

/-! ## C28 -/

theorem flatten_chunks {α : Type} (n : ℕ) (l : List α) (h : l.length ≤ 3 * n) :
    ((List.range n).map (fun i => (l.drop (3 * i)).take 3)).flatten = l := by
  induction n generalizing l with
  | zero =>
    have : l = [] := List.length_eq_zero.1 (by omega)
    rw [this]
    rfl
  | succ n ih =>
    rw [List.range_succ_eq_map, List.map_cons, List.flatten_cons, List.map_map]
    have hfun : ((fun i => (l.drop (3 * i)).take 3) ∘ Nat.succ)
        = fun i => ((l.drop 3).drop (3 * i)).take 3 := by
      funext i
      simp only [Function.comp, List.drop_drop]
      congr 2
      omega
    rw [hfun, ih (l.drop 3) (by rw [List.length_drop]; omega)]
    simp

theorem slicedRounds_succ (timeline : List Events) (i : ℕ) :
    (createTimelineEmbed timeline ((i : Int) + 1)).slicedRounds
      = (timeline.drop (3 * i)).take 3 := by
  have h := (createTimelineEmbed_of_pos timeline ((i : Int) + 1) (by omega)).2
  have hi : ((i : Int) + 1 - 1).toNat = i := by simp
  rw [hi] at h
  exact h

/-- C28: pagination partitions the timeline.  For a timeline of `R ≥ 1`
rounds, with `n = ceil(R / 3)` pages, the round slices of the pages
`1, 2, ..., n`, put one after the other, are the timeline; every page holds
between 1 and 3 rounds, and every page before the last holds 3. -/
theorem pages_partition (timeline : List Events) (hpos : 1 ≤ timeline.length)
    (hlen : timeline.length < 2 ^ 32) :
    ∃ n : ℕ, (createTimelineEmbed timeline 1).totalPages = n ∧ 1 ≤ n ∧
      ((List.range n).map
        (fun i : ℕ => (createTimelineEmbed timeline ((i : Int) + 1)).slicedRounds)).flatten
          = timeline ∧
      (∀ i : ℕ, i < n →
        1 ≤ (createTimelineEmbed timeline ((i : Int) + 1)).slicedRounds.length ∧
        (createTimelineEmbed timeline ((i : Int) + 1)).slicedRounds.length ≤ 3) ∧
      (∀ i : ℕ, i + 1 < n →
        (createTimelineEmbed timeline ((i : Int) + 1)).slicedRounds.length = 3) := by
  refine ⟨(timeline.length + 2) / 3, totalPages_eq timeline 1 hlen, by omega, ?_, ?_, ?_⟩
  · have hfun : (fun i : ℕ => (createTimelineEmbed timeline ((i : Int) + 1)).slicedRounds)
        = fun i => (timeline.drop (3 * i)).take 3 := by
      funext i
      exact slicedRounds_succ timeline i
    rw [hfun]
    exact flatten_chunks _ timeline (by omega)
  · intro i hi
    rw [slicedRounds_succ, List.length_take, List.length_drop]
    omega
  · intro i hi
    rw [slicedRounds_succ, List.length_take, List.length_drop]
    omega

/-- C28, witness: the seven rounds of `plainTimeline 7` are paged as rounds
1 to 3, rounds 4 to 6 and round 7. -/
theorem pages_partition_witness :
    ((List.range 3).map
        (fun i : ℕ => (createTimelineEmbed (plainTimeline 7) ((i : Int) + 1)).slicedRounds)
      = [[plainEvents 1, plainEvents 2, plainEvents 3],
         [plainEvents 4, plainEvents 5, plainEvents 6], [plainEvents 7]]) ∧
    ∃ n : ℕ, (createTimelineEmbed (plainTimeline 7) 1).totalPages = n ∧ 1 ≤ n ∧
      ((List.range n).map
        (fun i : ℕ => (createTimelineEmbed (plainTimeline 7) ((i : Int) + 1)).slicedRounds)).flatten
          = plainTimeline 7 ∧
      (∀ i : ℕ, i < n →
        1 ≤ (createTimelineEmbed (plainTimeline 7) ((i : Int) + 1)).slicedRounds.length ∧
        (createTimelineEmbed (plainTimeline 7) ((i : Int) + 1)).slicedRounds.length ≤ 3) ∧
      (∀ i : ℕ, i + 1 < n →
        (createTimelineEmbed (plainTimeline 7) ((i : Int) + 1)).slicedRounds.length = 3) :=
  ⟨by decide!, pages_partition (plainTimeline 7) (by decide) (by decide)⟩

/-! ## C29 -/

/-- C29, counterexample: `threeRoundMatch` without its kill array has three
rounds, and `analyzeMatch` raises on it instead of returning three entries; it
raises as well on `threeRoundMatch` without its roster, whose first round has
kills. -/
theorem analyzeMatch_raises_without_kills :
    ({ threeRoundMatch with kills := none } : MatchData).rounds
      = some [plainRound "Blue", plainRound "Red", plainRound "Blue"] ∧
    analyzeMatch asciiLower { threeRoundMatch with kills := none } = none ∧
    analyzeMatch asciiLower { threeRoundMatch with players := none } = none := by
  decide

/-- C29, amended: `analyzeMatch` returns the empty timeline when the rounds are missing
or empty.  For a match with its kill array, its roster and `R` rounds it
returns `R` entries, the entry at index `i` numbered `i + 1`, and the kill
list of that entry is the formatted list of a permutation of the upstream kill
events tagged with round index `i`: one line per kill event, in that order,
with the same timestamps. -/
theorem kills_neither_lost_nor_duplicated (toLowerCase : String → String) (m : MatchData) :
    (m.rounds = none ∨ m.rounds = some [] → analyzeMatch toLowerCase m = some []) ∧
    ∀ (allKills : List Kill) (all : List Player) (rounds : List Round),
      m.kills = some allKills → m.players = some all → m.rounds = some rounds →
      ∃ tl, analyzeMatch toLowerCase m = some tl ∧ tl.length = rounds.length ∧
        ∀ i, i < rounds.length → ∃ e ks, tl[i]? = some e ∧ e.roundNum = i + 1 ∧
          ks.Perm (allKills.filter (fun k => k.round == i)) ∧
          formatKills toLowerCase m ks = some e.kills ∧
          e.kills.map KillLine.time = ks.map Kill.game_time ∧
          e.kills.length = ks.length := by
  constructor
  · intro h
    unfold analyzeMatch
    rcases h with h | h
    · rw [h]
    · rw [h]
      rfl
  · intro allKills all rounds hk hp hr
    obtain ⟨tl, htl⟩ := analyzeMatch_returns toLowerCase m allKills all hk hp
    obtain ⟨hlen, hent⟩ := analyzeMatch_entries toLowerCase m tl htl
    rw [hr] at hlen hent
    simp only [Option.getD_some] at hlen hent
    refine ⟨tl, htl, hlen, ?_⟩
    intro i hi
    have hi2 : i < tl.length := by omega
    obtain ⟨r, _, hev⟩ := hent i tl[i] (List.getElem?_eq_getElem hi2)
    obtain ⟨allKills2, hk2, hnum, _, _, hks⟩ := roundEvents_fields toLowerCase m i _ r tl[i] hev
    rw [hk] at hk2
    simp only [Option.some.injEq] at hk2
    subst hk2
    have htime := formatKills_time toLowerCase m _ _ hks
    refine ⟨tl[i], roundKillsOf allKills i, List.getElem?_eq_getElem hi2, hnum,
      List.perm_insertionSort _ _, hks, htime, ?_⟩
    have := congrArg List.length htime
    simpa using this

/-- C29, witness: the timeline of `threeRoundMatch` has three entries; round 1
lists the two kills tagged with round index 0, round 2 none, round 3 one. -/
theorem kills_neither_lost_nor_duplicated_witness :
    (analyzeMatch asciiLower threeRoundMatch = some threeRoundTimeline ∧
      threeRoundTimeline.map (fun e => e.kills.map KillLine.time) = [[5, 10], [], [7]]) ∧
    ∃ tl, analyzeMatch asciiLower threeRoundMatch = some tl ∧
      tl.length = [plainRound "Blue", plainRound "Red", plainRound "Blue"].length ∧
      ∀ i, i < [plainRound "Blue", plainRound "Red", plainRound "Blue"].length →
        ∃ e ks, tl[i]? = some e ∧ e.roundNum = i + 1 ∧
          ks.Perm ((threeRoundMatch.kills.getD []).filter (fun k => k.round == i)) ∧
          formatKills asciiLower threeRoundMatch ks = some e.kills ∧
          e.kills.map KillLine.time = ks.map Kill.game_time ∧
          e.kills.length = ks.length :=
  ⟨by decide, (kills_neither_lost_nor_duplicated asciiLower threeRoundMatch).2 _ _ _ rfl rfl rfl⟩

/-! ## C30 -/

theorem assign_assign_self {α : Type} (o : List (String × α)) (k : String) (v : α) :
    assign (assign o k v) k v = assign o k v := by
  have hk : k ∈ (assign o k v).map Prod.fst :=
    List.mem_map.2 ⟨(k, v), mem_assign_self o k v, rfl⟩
  rw [assign_of_mem (assign o k v) k v hk]
  conv_rhs => rw [← List.map_id (assign o k v)]
  apply List.map_congr_left
  intro p hp
  by_cases h : p.1 = k
  · have h2 := snd_of_mem_assign o k v p hp h
    simp only [h, beq_self_eq_true, if_true, id]
    exact Prod.ext h.symm h2.symm
  · have hb : (p.1 == k) = false := by simpa using h
    simp [hb]

theorem loadData_lastUpdated (d : LeaderboardData) : (loadData d).lastUpdated = d.lastUpdated := by
  obtain ⟨cid, chans, lu, ds⟩ := d
  unfold loadData
  cases cid with
  | none => rfl
  | some c => by_cases hc : c = "" <;> simp [hc]

theorem setChannel_of_loaded (d : LeaderboardData) (g c : String) (h : loadData d = d) :
    setChannel d g c = { d with channels := some (assign (d.channels.getD []) g c) } := by
  unfold setChannel
  simp only
  rw [h]

/-- C30: `setChannel(g, c)` yields a snapshot in which the destination of `g`
is `c`, every other guild has the destination it has in the loaded snapshot,
and the day key and the daily scores are those of the snapshot; the same call
on the result changes nothing.  On a snapshot without the legacy field the
loaded channels map is the snapshot's own. -/
theorem setChannel_frame (d : LeaderboardData) (g c : String) :
    getKey ((setChannel d g c).channels.getD []) g = some c ∧
    (∀ g2, g2 ≠ g →
      getKey ((setChannel d g c).channels.getD []) g2
        = getKey ((loadData d).channels.getD []) g2) ∧
    (setChannel d g c).lastUpdated = d.lastUpdated ∧
    (setChannel d g c).dailyScores = d.dailyScores ∧
    setChannel (setChannel d g c) g c = setChannel d g c ∧
    (d.channelId = none → (loadData d).channels = d.channels) := by
  have hfix : loadData (setChannel d g c) = setChannel d g c :=
    loadData_fixed _ (loadData_channelId d)
  refine ⟨?_, ?_, ?_, ?_, ?_, ?_⟩
  · show getKey (assign ((loadData d).channels.getD []) g c) g = some c
    exact getKey_assign_self _ _ _
  · intro g2 hne
    show getKey (assign ((loadData d).channels.getD []) g c) g2 = _
    exact getKey_assign_of_ne _ _ _ _ (Ne.symm hne)
  · exact loadData_lastUpdated d
  · exact loadData_dailyScores d
  · have hstep : setChannel (setChannel d g c) g c
        = { setChannel d g c with
            channels := some (assign ((setChannel d g c).channels.getD []) g c) } :=
      setChannel_of_loaded _ g c hfix
    rw [hstep]
    show ({ setChannel d g c with
        channels := some (assign (assign ((loadData d).channels.getD []) g c) g c) }
      : LeaderboardData) = _
    rw [assign_assign_self]
    rfl
  · intro h
    rw [loadData_fixed d (Or.inl h)]

/-- C30, witness: registering `c2` for `g2` in `snapshot20` keeps the
destination `c1` of `g1`, the day key and the entry of `ann#eu1`. -/
theorem setChannel_frame_witness :
    setChannel snapshot20 "g2" "c2"
      = { snapshot20 with channels := some [("g1", "c1"), ("g2", "c2")] } ∧
    setChannel snapshot20 "g1" "c7" = { snapshot20 with channels := some [("g1", "c7")] } ∧
    (getKey ((setChannel snapshot20 "g2" "c2").channels.getD []) "g2" = some "c2" ∧
    (∀ g2, g2 ≠ "g2" →
      getKey ((setChannel snapshot20 "g2" "c2").channels.getD []) g2
        = getKey ((loadData snapshot20).channels.getD []) g2) ∧
    (setChannel snapshot20 "g2" "c2").lastUpdated = snapshot20.lastUpdated ∧
    (setChannel snapshot20 "g2" "c2").dailyScores = snapshot20.dailyScores ∧
    setChannel (setChannel snapshot20 "g2" "c2") "g2" "c2" = setChannel snapshot20 "g2" "c2" ∧
    (snapshot20.channelId = none → (loadData snapshot20).channels = snapshot20.channels)) :=
  ⟨by decide, by decide, setChannel_frame snapshot20 "g2" "c2"⟩

end ValoBot
